import Mathlib

/-!
# xmergesort: merging two sorted line files

A shallow embedding of `sys_xmergesort.c` (the `xmergesort` system call and its helpers
`file_line_write`, `fill_in_buffer`, `file_line_read`, `strcmputil`).

Conventions of the embedding:

* A byte is a natural number; a C buffer holding a string is the list of its bytes. Reading a
  string stops at the first NUL byte (`cstr`), as `strlen`, `strcpy`, `strcmp` do.
* A line is a byte list that ends with the newline byte `10`.
* `PAGE_SIZE` is not defined in the repository; it is the parameter `P` of the byte-level
  functions.
* The line buffers `inbuf1`, `inbuf2` and `lastout` of `xmergesort` are obtained from `kmalloc`
  and are not initialised by the source: what they hold when the merge starts is a parameter of
  the run (`heap`). The tests `strlen(lastout) > 0` ("lastout is not set yet") of the source
  read `lastout` before anything has been stored in it.
* A C operation whose behaviour is undefined (an access outside an allocated buffer) makes the
  embedded function return `none`.
-/

namespace XMergeSort

/-! ## C strings and the comparators -/

/-- The string stored in a buffer: the bytes before the first NUL. -/
def cstr : List Nat → List Nat
  | [] => []
  | c :: cs => if c = 0 then [] else c :: cstr cs

/-- Model of `strlen`. -/
def strlen (s : List Nat) : Nat := (cstr s).length

/-- Model of the kernel `strcmp` (lib/string.c): bytes are compared as unsigned characters and
the result is `-1`, `0` or `1`. The end of the list reads as the terminating NUL. -/
def strcmp : List Nat → List Nat → Int
  | [], [] => 0
  | [], c2 :: _ => if c2 = 0 then 0 else -1
  | c1 :: _, [] => if c1 = 0 then 0 else 1
  | c1 :: cs, c2 :: ct =>
    if c1 ≠ c2 then (if c1 < c2 then -1 else 1)
    else if c1 = 0 then 0
    else strcmp cs ct

/-- Model of the kernel `isupper` (lib/ctype.c): the ASCII capitals and the Latin-1 capitals. -/
def isupper (c : Nat) : Bool :=
  (65 ≤ c && c ≤ 90) || (192 ≤ c && c ≤ 214) || (216 ≤ c && c ≤ 222)

/-- Model of the kernel `tolower`: `c - ('A' - 'a')` for a capital, `c` otherwise. -/
def tolower (c : Nat) : Nat := if isupper c then c + 32 else c

/-- Model of the kernel `strcasecmp` (lib/string.c): compares the folded bytes and returns the
difference of the first pair that differs. -/
def strcasecmp : List Nat → List Nat → Int
  | [], [] => 0
  | [], c2 :: _ => (0 : Int) - (tolower c2 : Int)
  | c1 :: _, [] => (tolower c1 : Int) - 0
  | c1 :: cs, c2 :: ct =>
    if tolower c1 = tolower c2 ∧ tolower c1 ≠ 0 then strcasecmp cs ct
    else (tolower c1 : Int) - (tolower c2 : Int)

/-- Source: `strcmputil`. Case-insensitive comparison when `CASE_INSE == 1`, plain comparison
otherwise. -/
def strcmputil (input1 input2 : List Nat) (CASE_INSE : Int) : Int :=
  if CASE_INSE = 1 then strcasecmp input1 input2 else strcmp input1 input2

/-! ## Constants -/

/-- Flag bit `-u`. -/
def F_OUTPUT_UNIQ : Nat := 0x01
/-- Flag bit `-a`. -/
def F_OUTPUT_ALL : Nat := 0x02
/-- Flag bit `-i`. -/
def F_CASE_INSEN : Nat := 0x04
/-- Flag bit `-t`. -/
def F_CHECK_SORTED : Nat := 0x10
/-- Flag bit `-d`. -/
def F_RET_COUNT : Nat := 0x20

/-- Linux errno value. -/
def EINVAL : Int := 22
/-- Linux errno value. -/
def EFAULT : Int := 14

/-- Source: `MAX_OUTBUF_SIZE`, with `P` for `PAGE_SIZE`. -/
def MAX_OUTBUF_SIZE (P : Nat) : Nat := 2 * P
/-- Source: `MAX_INBUF_SIZE`, with `P` for `PAGE_SIZE`. -/
def MAX_INBUF_SIZE (P : Nat) : Nat := 2 * P

/-! ## The merge controller

`xmergesort` reaches its three open files only through `file_line_read` (on `file_in1` with
`inputbuf1`, on `file_in2` with `inputbuf2`), `file_line_write` (on `file_temp` with `outbuf`),
the final `vfs_write` of the output buffer and `copy_to_user`. The controller below is written
once against these operations; it is instantiated further down with the byte-level models of
`file_line_read` and `file_line_write`, and with readers and a writer that work on whole lines.
-/

/-- The operations of `xmergesort` on its files. A reader takes the state of an input file with
its `inputbuf` and the line buffer, and returns the value of `file_line_read` with the new line
buffer and state; it is given the state of `file_temp` as well, since nothing in the source
keeps an input file from being the file that is written. The writer takes the state of
`file_temp` with `outbuf`, the line, its length and `lastout`, and returns the value of
`file_line_write` with the new `lastout` and state. `none` stands for undefined behaviour in the
C function. -/
structure kernel_ops (ρ1 ρ2 ω : Type) where
  /-- The call `file_line_read(file_in1, inbuf1, inputbuf1)`. -/
  read1 : ω → ρ1 → List Nat → Option (Int × List Nat × ρ1)
  /-- The call `file_line_read(file_in2, inbuf2, inputbuf2)`. -/
  read2 : ω → ρ2 → List Nat → Option (Int × List Nat × ρ2)
  /-- The call `file_line_write(file_temp, buf, len, outbuf, lastout)`. -/
  line_write : ω → List Nat → Nat → List Nat → Option (Int × List Nat × ω)
  /-- The final `vfs_write(file_temp, outbuf->buffer, outbuf->currsize, ...)`. -/
  flush : ω → ω
  /-- The value of `copy_to_user(finput->data, &i, 2)` for the line count `i`. -/
  copy_to_user : Nat → Int

/-- The local variables of `xmergesort` that the merge uses, with the state of the three files. -/
structure locals (ρ1 ρ2 ω : Type) where
  /-- State of `file_in1` and `inputbuf1`. -/
  file_in1 : ρ1
  /-- State of `file_in2` and `inputbuf2`. -/
  file_in2 : ρ2
  /-- State of `file_temp` and `outbuf`. -/
  file_temp : ω
  /-- Line buffer of file 1. -/
  inbuf1 : List Nat
  /-- Line buffer of file 2. -/
  inbuf2 : List Nat
  /-- Last line written. -/
  lastout : List Nat
  /-- Which file is read next: 1, 2, or 0 for both. -/
  load : Nat
  /-- Which line buffer is written: 1, 2, or 0 for none. -/
  write : Nat
  /-- Which file is finished: 1, 2, or 0 for none. -/
  empty : Nat
  /-- Number of lines written. -/
  i : Nat
  /-- Whether the `vfs_rename` of the temporary file has been called. -/
  renamed : Bool

/-- How a block of `xmergesort` is left: by `goto OUT` with the value of `err`, by `break`, or by
falling through. -/
inductive flow (σ : Type) where
  | OUT (err : Int) (s : σ) : flow σ
  | brk (s : σ) : flow σ
  | go (s : σ) : flow σ

/-- Source: `xmergesort`, PART 1 of the main loop (the write/load decision table, conditions
1.1 to 3.3 and the first iteration). Returns the new `write` and `load`, or the error value with
which the function leaves through `OUT`. -/
def part1 (INSEN_FLAG SORT_FLAG UNIQ_FLAG : Int) (inbuf1 inbuf2 lastout : List Nat)
    (write load : Nat) : Except Int (Nat × Nat) :=
  if strcmputil inbuf1 inbuf2 INSEN_FLAG < 0 ∧ strlen lastout > 0 then
    if strcmputil inbuf1 lastout INSEN_FLAG > 0 then .ok (1, 1)
    else if strcmputil inbuf1 lastout INSEN_FLAG = 0 then
      if UNIQ_FLAG = 1 then .ok (0, 1) else .ok (1, 1)
    else if SORT_FLAG ≠ 0 then .error (-EINVAL) else .ok (0, 1)
  else if strcmputil inbuf2 inbuf1 INSEN_FLAG < 0 ∧ strlen lastout > 0 then
    if strcmputil inbuf2 lastout INSEN_FLAG > 0 then .ok (2, 2)
    else if strcmputil inbuf2 lastout INSEN_FLAG = 0 then
      if UNIQ_FLAG = 1 then .ok (0, 2) else .ok (2, 2)
    else if SORT_FLAG ≠ 0 then .error (-EINVAL) else .ok (0, 2)
  else if strcmputil inbuf2 inbuf1 INSEN_FLAG = 0 ∧ strlen lastout > 0 then
    if strcmputil inbuf1 lastout INSEN_FLAG > 0 then
      if strcmputil inbuf1 inbuf2 0 < 0 then .ok (1, 1) else .ok (2, 2)
    else if strcmputil inbuf1 lastout INSEN_FLAG = 0 then
      if UNIQ_FLAG = 1 then .ok (0, 0) else .ok (1, 1)
    else if SORT_FLAG ≠ 0 then .error (-EINVAL) else .ok (0, 0)
  else
    if strcmputil inbuf1 inbuf2 INSEN_FLAG < 0 then .ok (1, 1)
    else if strcmputil inbuf1 inbuf2 INSEN_FLAG > 0 then .ok (2, 2)
    else if strcmputil inbuf1 inbuf2 INSEN_FLAG = 0 then
      if strcmputil inbuf1 inbuf2 0 < 0 then .ok (1, 1) else .ok (2, 2)
    else .ok (write, load)

/-- Source: `xmergesort`, PART 2 of the main loop: write `inbuf1` or `inbuf2` as `write` says
and count the line. -/
def part2 {ρ1 ρ2 ω : Type} (K : kernel_ops ρ1 ρ2 ω) (s : locals ρ1 ρ2 ω) :
    Option (flow (locals ρ1 ρ2 ω)) :=
  if s.write = 1 then
    match K.line_write s.file_temp s.inbuf1 (strlen s.inbuf1) s.lastout with
    | none => none
    | some (err, lastout, ft) =>
      if err < 0 then some (.OUT (-EFAULT) { s with file_temp := ft, lastout := lastout })
      else some (.go { s with file_temp := ft, lastout := lastout, i := s.i + 1 })
  else if s.write = 2 then
    match K.line_write s.file_temp s.inbuf2 (strlen s.inbuf2) s.lastout with
    | none => none
    | some (err, lastout, ft) =>
      if err < 0 then some (.OUT (-EFAULT) { s with file_temp := ft, lastout := lastout })
      else some (.go { s with file_temp := ft, lastout := lastout, i := s.i + 1 })
  else some (.go s)

/-- Source: `xmergesort`, PART 3 of the main loop, second half: reload `inbuf2` when `load` is 0
or 2; at the end of file 2 set `empty = 2` and leave the loop. -/
def part3_file2 {ρ1 ρ2 ω : Type} (K : kernel_ops ρ1 ρ2 ω) (s : locals ρ1 ρ2 ω) :
    Option (flow (locals ρ1 ρ2 ω)) :=
  if s.load = 0 ∨ s.load = 2 then
    match K.read2 s.file_temp s.file_in2 s.inbuf2 with
    | none => none
    | some (err, buf, f) =>
      if err ≤ 0 then
        if err < 0 then some (.OUT (-EFAULT) { s with file_in2 := f, inbuf2 := buf })
        else some (.brk { s with file_in2 := f, inbuf2 := buf, empty := 2 })
      else some (.go { s with file_in2 := f, inbuf2 := buf })
  else some (.go s)

/-- Source: `xmergesort`, PART 3 of the main loop: reload `inbuf1` when `load` is 0 or 1 (at the
end of file 1 set `empty = 1` and leave the loop), then reload `inbuf2`. -/
def part3 {ρ1 ρ2 ω : Type} (K : kernel_ops ρ1 ρ2 ω) (s : locals ρ1 ρ2 ω) :
    Option (flow (locals ρ1 ρ2 ω)) :=
  if s.load = 0 ∨ s.load = 1 then
    match K.read1 s.file_temp s.file_in1 s.inbuf1 with
    | none => none
    | some (err, buf, f) =>
      if err ≤ 0 then
        if err < 0 then some (.OUT (-EFAULT) { s with file_in1 := f, inbuf1 := buf })
        else some (.brk { s with file_in1 := f, inbuf1 := buf, empty := 1 })
      else part3_file2 K { s with file_in1 := f, inbuf1 := buf }
  else part3_file2 K s

/-- Source: `xmergesort`, one pass through the body of `while (empty == 0)`. -/
def loop_body {ρ1 ρ2 ω : Type} (K : kernel_ops ρ1 ρ2 ω) (INSEN_FLAG SORT_FLAG UNIQ_FLAG : Int)
    (s : locals ρ1 ρ2 ω) : Option (flow (locals ρ1 ρ2 ω)) :=
  match part1 INSEN_FLAG SORT_FLAG UNIQ_FLAG s.inbuf1 s.inbuf2 s.lastout s.write s.load with
  | .error err => some (.OUT err s)
  | .ok (write, load) =>
    match part2 K { s with write := write, load := load } with
    | none => none
    | some (.OUT err s) => some (.OUT err s)
    | some (.brk s) => some (.brk s)
    | some (.go s) => part3 K s

/-- Source: `xmergesort`, the loop `while (empty == 0)`. The first argument bounds the number
of passes; `none` is returned when it is used up. The result is `go` when the loop is left
(by its condition or by `break`) and `OUT` when it is left by `goto OUT`. -/
def main_loop {ρ1 ρ2 ω : Type} (K : kernel_ops ρ1 ρ2 ω) (INSEN_FLAG SORT_FLAG UNIQ_FLAG : Int) :
    Nat → locals ρ1 ρ2 ω → Option (flow (locals ρ1 ρ2 ω))
  | 0, _ => none
  | fuel + 1, s =>
    if s.empty = 0 then
      match loop_body K INSEN_FLAG SORT_FLAG UNIQ_FLAG s with
      | none => none
      | some (.OUT err s) => some (.OUT err s)
      | some (.brk s) => some (.go s)
      | some (.go s) => main_loop K INSEN_FLAG SORT_FLAG UNIQ_FLAG fuel s
    else some (.go s)

/-- Source: `xmergesort`, PART 1 of a drain loop: the value of `write` for the candidate `inbuf`
of the remaining file, `w` being 1 for file 1 and 2 for file 2. -/
def drain_part1 (INSEN_FLAG SORT_FLAG UNIQ_FLAG : Int) (inbuf lastout : List Nat) (w : Nat) :
    Except Int Nat :=
  if strlen lastout > 0 ∧ strcmputil inbuf lastout INSEN_FLAG > 0 then .ok w
  else if strlen lastout > 0 ∧ strcmputil inbuf lastout INSEN_FLAG < 0 then
    if SORT_FLAG ≠ 0 then .error (-EINVAL) else .ok 0
  else if strlen lastout > 0 ∧ strcmputil inbuf lastout INSEN_FLAG = 0 then
    if UNIQ_FLAG = 1 then .ok 0 else .ok w
  else .ok w

/-- Source: `xmergesort`, one pass of the loop `do ... while (file_line_read(file_in1, ...) > 0)`
that writes what is left of file 1 when `empty == 2`: PART 1, PART 2, and the read of the loop
condition. The result is `go` when the loop goes on, `brk` when the read returned 0 and the loop
is left, `OUT` on an error (for a failed read, by the test of `err` that follows the loop). -/
def drain1_body {ρ1 ρ2 ω : Type} (K : kernel_ops ρ1 ρ2 ω) (INSEN_FLAG SORT_FLAG UNIQ_FLAG : Int)
    (s : locals ρ1 ρ2 ω) : Option (flow (locals ρ1 ρ2 ω)) :=
  match drain_part1 INSEN_FLAG SORT_FLAG UNIQ_FLAG s.inbuf1 s.lastout 1 with
  | .error err => some (.OUT err s)
  | .ok write =>
    match (if write = 1 then part2 K { s with write := write }
           else some (.go { s with write := write })) with
    | none => none
    | some (.OUT err s) => some (.OUT err s)
    | some (.brk s) => some (.brk s)
    | some (.go s) =>
      match K.read1 s.file_temp s.file_in1 s.inbuf1 with
      | none => none
      | some (err, buf, f) =>
        if err > 0 then some (.go { s with file_in1 := f, inbuf1 := buf })
        else if err < 0 then some (.OUT (-EFAULT) { s with file_in1 := f, inbuf1 := buf })
        else some (.brk { s with file_in1 := f, inbuf1 := buf })

/-- Source: `xmergesort`, the loop `do ... while (file_line_read(file_in1, ...) > 0)`. The first
argument bounds the number of passes; `none` is returned when it is used up. -/
def drain1 {ρ1 ρ2 ω : Type} (K : kernel_ops ρ1 ρ2 ω) (INSEN_FLAG SORT_FLAG UNIQ_FLAG : Int) :
    Nat → locals ρ1 ρ2 ω → Option (flow (locals ρ1 ρ2 ω))
  | 0, _ => none
  | fuel + 1, s =>
    match drain1_body K INSEN_FLAG SORT_FLAG UNIQ_FLAG s with
    | none => none
    | some (.OUT err s) => some (.OUT err s)
    | some (.brk s) => some (.go s)
    | some (.go s) => drain1 K INSEN_FLAG SORT_FLAG UNIQ_FLAG fuel s

/-- Source: `xmergesort`, one pass of the loop `do ... while (file_line_read(file_in2, ...) > 0)`
that writes what is left of file 2 when `empty == 1`; see `drain1_body`. -/
def drain2_body {ρ1 ρ2 ω : Type} (K : kernel_ops ρ1 ρ2 ω) (INSEN_FLAG SORT_FLAG UNIQ_FLAG : Int)
    (s : locals ρ1 ρ2 ω) : Option (flow (locals ρ1 ρ2 ω)) :=
  match drain_part1 INSEN_FLAG SORT_FLAG UNIQ_FLAG s.inbuf2 s.lastout 2 with
  | .error err => some (.OUT err s)
  | .ok write =>
    match (if write = 2 then part2 K { s with write := write }
           else some (.go { s with write := write })) with
    | none => none
    | some (.OUT err s) => some (.OUT err s)
    | some (.brk s) => some (.brk s)
    | some (.go s) =>
      match K.read2 s.file_temp s.file_in2 s.inbuf2 with
      | none => none
      | some (err, buf, f) =>
        if err > 0 then some (.go { s with file_in2 := f, inbuf2 := buf })
        else if err < 0 then some (.OUT (-EFAULT) { s with file_in2 := f, inbuf2 := buf })
        else some (.brk { s with file_in2 := f, inbuf2 := buf })

/-- Source: `xmergesort`, the loop `do ... while (file_line_read(file_in2, ...) > 0)`. The first
argument bounds the number of passes; `none` is returned when it is used up. -/
def drain2 {ρ1 ρ2 ω : Type} (K : kernel_ops ρ1 ρ2 ω) (INSEN_FLAG SORT_FLAG UNIQ_FLAG : Int) :
    Nat → locals ρ1 ρ2 ω → Option (flow (locals ρ1 ρ2 ω))
  | 0, _ => none
  | fuel + 1, s =>
    match drain2_body K INSEN_FLAG SORT_FLAG UNIQ_FLAG s with
    | none => none
    | some (.OUT err s) => some (.OUT err s)
    | some (.brk s) => some (.go s)
    | some (.go s) => drain2 K INSEN_FLAG SORT_FLAG UNIQ_FLAG fuel s

/-- Source: `xmergesort`, the two initial reads: an empty file 1 sets `empty = 1`, an empty
file 2 sets `empty = 2`. -/
def initial_reads {ρ1 ρ2 ω : Type} (K : kernel_ops ρ1 ρ2 ω) (s : locals ρ1 ρ2 ω) :
    Option (flow (locals ρ1 ρ2 ω)) :=
  match K.read1 s.file_temp s.file_in1 s.inbuf1 with
  | none => none
  | some (err1, buf1, f1) =>
    if err1 < 0 then some (.OUT (-EFAULT) { s with file_in1 := f1, inbuf1 := buf1 })
    else
      match K.read2 s.file_temp s.file_in2 s.inbuf2 with
      | none => none
      | some (err2, buf2, f2) =>
        if err2 < 0 then
          some (.OUT (-EFAULT) { s with file_in1 := f1, inbuf1 := buf1, file_in2 := f2,
                                        inbuf2 := buf2,
                                        empty := if err1 ≤ 0 then 1 else s.empty })
        else
          some (.go { s with file_in1 := f1, inbuf1 := buf1, file_in2 := f2, inbuf2 := buf2,
                             empty := if err2 ≤ 0 then 2 else if err1 ≤ 0 then 1 else s.empty })

/-- Source: `xmergesort`, what follows the drain loops: the final `vfs_write` of the output
buffer, `copy_to_user` of the line count, and the `vfs_rename`; `err` is then the value of
`copy_to_user`. -/
def finish {ρ1 ρ2 ω : Type} (K : kernel_ops ρ1 ρ2 ω) (s : locals ρ1 ρ2 ω) :
    Int × locals ρ1 ρ2 ω :=
  let s1 := { s with file_temp := K.flush s.file_temp }
  let err := K.copy_to_user s1.i
  if err ≠ 0 then (-EFAULT, s1) else (err, { s1 with renamed := true })

/-- Source: `xmergesort`, what follows the main loop: the drain of file 1 when `empty == 2`,
the drain of file 2 when `empty == 1`, and the end of the function. -/
def drain_phase {ρ1 ρ2 ω : Type} (K : kernel_ops ρ1 ρ2 ω) (INSEN_FLAG SORT_FLAG UNIQ_FLAG : Int)
    (fuel : Nat) (s : locals ρ1 ρ2 ω) : Option (Int × locals ρ1 ρ2 ω) :=
  match (if s.empty = 2 then drain1 K INSEN_FLAG SORT_FLAG UNIQ_FLAG fuel s
         else some (.go s)) with
  | none => none
  | some (.OUT err s) => some (err, s)
  | some (.brk s) => some (0, s)
  | some (.go s) =>
    match (if s.empty = 1 then drain2 K INSEN_FLAG SORT_FLAG UNIQ_FLAG fuel s
           else some (.go s)) with
    | none => none
    | some (.OUT err s) => some (err, s)
    | some (.brk s) => some (0, s)
    | some (.go s) => some (finish K s)

/-- Source: `xmergesort`, the local `INSEN_FLAG`: 1 when `-i` is given. -/
def INSEN_FLAG (flags : Nat) : Int := if flags &&& F_CASE_INSEN ≠ 0 then 1 else 0

/-- Source: `xmergesort`, the local `SORT_FLAG`: 1 when `-t` is given. -/
def SORT_FLAG (flags : Nat) : Int := if flags &&& F_CHECK_SORTED ≠ 0 then 1 else 0

/-- Source: `xmergesort`, the local `UNIQ_FLAG`: 1 when `-u` is given. -/
def UNIQ_FLAG (flags : Nat) : Int := if flags &&& F_OUTPUT_UNIQ ≠ 0 then 1 else 0

/-- Source: `xmergesort`, the main loop followed by the drain loops and the end of the function.
`fuel1` bounds the passes of the main loop and `fuel2` those of a drain loop. -/
def merge_phase {ρ1 ρ2 ω : Type} (K : kernel_ops ρ1 ρ2 ω) (INSEN_FLAG SORT_FLAG UNIQ_FLAG : Int)
    (fuel1 fuel2 : Nat) (s : locals ρ1 ρ2 ω) : Option (Int × locals ρ1 ρ2 ω) :=
  match main_loop K INSEN_FLAG SORT_FLAG UNIQ_FLAG fuel1 s with
  | none => none
  | some (.OUT err s) => some (err, s)
  | some (.brk s) => some (0, s)
  | some (.go s) => drain_phase K INSEN_FLAG SORT_FLAG UNIQ_FLAG fuel2 s

/-- What the buffers `inbuf1`, `inbuf2` and `lastout` of `xmergesort` hold when `kmalloc` has
returned them: the source stores nothing in them before the first read. -/
structure heap where
  /-- The bytes in `inbuf1 = kmalloc(PAGE_SIZE)`. -/
  inbuf1 : List Nat
  /-- The bytes in `inbuf2 = kmalloc(PAGE_SIZE)`. -/
  inbuf2 : List Nat
  /-- The bytes in `lastout = kmalloc(PAGE_SIZE)`. -/
  lastout : List Nat
deriving DecidableEq

/-- The three buffers as zero-filled memory gives them: each holds the empty string. -/
def heap.clean : heap := { inbuf1 := [], inbuf2 := [], lastout := [] }

/-- Source: `xmergesort`, from the first `file_line_read` (the files are open and the buffers
allocated) to `return err`; `m` is what the line buffers hold after their allocation. The result
is the returned value with the final state, or `none` when a callee has undefined behaviour or
`fuel` passes of a loop were not enough. -/
def xmergesort {ρ1 ρ2 ω : Type} (K : kernel_ops ρ1 ρ2 ω) (flags : Nat) (fuel : Nat) (m : heap)
    (file_in1 : ρ1) (file_in2 : ρ2) (file_temp : ω) : Option (Int × locals ρ1 ρ2 ω) :=
  match initial_reads K
      { file_in1 := file_in1, file_in2 := file_in2, file_temp := file_temp,
        inbuf1 := m.inbuf1, inbuf2 := m.inbuf2, lastout := m.lastout, load := 0, write := 0,
        empty := 0, i := 0, renamed := false } with
  | none => none
  | some (.OUT err s) => some (err, s)
  | some (.brk s) => some (0, s)
  | some (.go s) =>
    merge_phase K (INSEN_FLAG flags) (SORT_FLAG flags) (UNIQ_FLAG flags) fuel fuel s

/-! ## Readers and writer on whole lines

An input file is the list of the lines still to be read; `file_line_read` hands out the next
one. The output is the list of the lines written so far. -/

/-- The effect of `file_line_read` on a file given by its remaining lines: the next line is
copied to the line buffer as a C string and its length returned; at the end of the file the
result is 0 and the line buffer is left as it is. -/
def read_line (f : List (List Nat)) (buf : List Nat) : Option (Int × List Nat × List (List Nat)) :=
  match f with
  | [] => some (0, buf, [])
  | l :: r => some ((l.length : Int), cstr l, r)

/-- The bytes `buf[0]`, ..., `buf[len - 1]` that the copy loop of `file_line_write` reads; the
byte after the end of the list is the terminating NUL. -/
def copied (buf : List Nat) (len : Nat) : List Nat :=
  (List.range len).map (fun k => buf.getD k 0)

/-- The effect of `file_line_write` on an output given by the lines written so far: the `len`
bytes of the line are appended, `lastout` becomes the line, and the result is `len + 1`. -/
def write_line (out : List (List Nat)) (buf : List Nat) (len : Nat) (_lastout : List Nat) :
    Option (Int × List Nat × List (List Nat)) :=
  some ((len : Int) + 1, cstr buf, out ++ [copied buf len])

/-- The operations of `xmergesort` on whole lines, without I/O failure. -/
def line_ops : kernel_ops (List (List Nat)) (List (List Nat)) (List (List Nat)) where
  read1 := fun _ => read_line
  read2 := fun _ => read_line
  line_write := write_line
  flush := fun out => out
  copy_to_user := fun _ => 0

/-- The run of `xmergesort` on two files given as line sequences `A` and `B`, `m` being what the
line buffers hold at the start: the returned value, and the final state, whose `file_temp` is
the list of the lines written and whose `i` is the line count. -/
def xmergesort_lines (flags : Nat) (m : heap) (A B : List (List Nat)) :
    Option (Int × locals (List (List Nat)) (List (List Nat)) (List (List Nat))) :=
  xmergesort line_ops flags (A.length + B.length + 1) m A B []

/-! ## Lines and order -/

/-- A line: a byte string without NUL that ends with its only newline. -/
def is_line (l : List Nat) : Prop := l.getLast? = some 10 ∧ 10 ∉ l.dropLast ∧ 0 ∉ l

instance : DecidablePred is_line := fun l => by unfold is_line; infer_instance

/-- The key under which `strcmputil` orders a buffer: its string, case-folded when the
comparison is case-insensitive. -/
def ckey (F : Int) (s : List Nat) : List Nat :=
  if F = 1 then (cstr s).map tolower else cstr s

/-- Line `a` is not greater than line `b` under the comparator selected by `F`. -/
def line_le (F : Int) (a b : List Nat) : Prop := strcmputil a b F ≤ 0

/-- Line `a` is less than line `b` under the comparator selected by `F`. -/
def line_lt (F : Int) (a b : List Nat) : Prop := strcmputil a b F < 0

instance (F : Int) (a b : List Nat) : Decidable (line_le F a b) := by
  unfold line_le; infer_instance

instance (F : Int) (a b : List Nat) : Decidable (line_lt F a b) := by
  unfold line_lt; infer_instance

/-! ## The run on whole lines, described on lists -/

/-- The state of a run on whole lines. -/
abbrev lstate := locals (List (List Nat)) (List (List Nat)) (List (List Nat))

/-- The lines written when the lines of `M` are taken one after the other and each is written
or not as PART 1 of a drain loop (`drain_part1`) says, `lo` being the last line written before;
an error of `drain_part1` ends the run. -/
def filter_lines (F S U : Int) : List Nat → List (List Nat) → Except Int (List (List Nat))
  | _, [] => .ok []
  | lo, x :: xs =>
    match drain_part1 F S U x lo 1 with
    | .error e => .error e
    | .ok w =>
      if w = 1 then (filter_lines F S U x xs).map (fun E => x :: E)
      else filter_lines F S U lo xs

/-- The order in which the main loop and the drain loop take the lines of the files `A` and `B`:
`M` interleaves `A` and `B`, a line being taken from one file only when it is not greater than
the current line of the other file, or both current lines being taken, file 1 first, when they
compare equal. -/
inductive interleaved (F : Int) : List (List Nat) → List (List Nat) → List (List Nat) → Prop where
  | left_done (B : List (List Nat)) : interleaved F B [] B
  | right_done (A : List (List Nat)) : interleaved F A A []
  | left {M A B : List (List Nat)} {a b : List Nat} :
      line_le F a b → interleaved F M A (b :: B) → interleaved F (a :: M) (a :: A) (b :: B)
  | right {M A B : List (List Nat)} {a b : List Nat} :
      line_le F b a → interleaved F M (a :: A) B → interleaved F (b :: M) (a :: A) (b :: B)
  | both {M A B : List (List Nat)} {a b : List Nat} :
      strcmputil a b F = 0 → interleaved F M A B →
      interleaved F (a :: b :: M) (a :: A) (b :: B)

/-- The result `r` of a run that takes the lines of `M`, when `lo` is the last line written
before, `out` the lines written before and `i` their count: the error of `filter_lines`
without the rename, or success with the lines of `filter_lines` appended to the output and counted. -/
def run_matches (F S U : Int) (lo : List Nat) (M : List (List Nat)) (out : List (List Nat))
    (i : Nat) (r : Int × lstate) : Prop :=
  match filter_lines F S U lo M with
  | .error e => r.1 = e ∧ e = -EINVAL ∧ r.2.renamed = false
  | .ok E => r.1 = 0 ∧ r.2.file_temp = out ++ E ∧ r.2.i = i + E.length ∧ r.2.renamed = true

/-- Written from the spec ("post uniqueness policy"): the lines of a sequence that follow the
line `last`, each run of lines that compare equal collapsed to its first line, the lines equal
to `last` dropped. -/
def collapse_after (F : Int) : List Nat → List (List Nat) → List (List Nat)
  | _, [] => []
  | last, y :: ys =>
    if strcmputil y last F = 0 then collapse_after F last ys
    else y :: collapse_after F y ys

/-- Written from the spec ("post uniqueness policy"): a sequence of lines with each run of
consecutive lines that compare equal collapsed to its first line. -/
def collapse (F : Int) : List (List Nat) → List (List Nat)
  | [] => []
  | x :: xs => x :: collapse_after F x xs

/-- The bytes of a text. -/
def bytes (s : String) : List Nat := s.toList.map Char.toNat

/-! ## The files and `vfs_read`, `vfs_write`

`vfs_read` and `vfs_write` belong to the kernel. A file carries a script that says how its next
calls behave, so that short transfers and failures can be stated. -/

/-- How one call of `vfs_read` or `vfs_write` behaves: it transfers all the bytes it can, or at
most `k + 1` of them, or it fails and returns the negative value `-(errno + 1)`. -/
inductive vfs_step where
  | all : vfs_step
  | short (k : Nat) : vfs_step
  | fail (errno : Nat) : vfs_step
deriving DecidableEq

/-- An open file: for a file that is read, `data` holds the bytes from `f_pos` to the end of the
file; for a file that is written, `data` holds the bytes written so far. `script` gives the
behaviour of the next calls; when it is used up every call transfers all it can. -/
structure file where
  data : List Nat
  script : List vfs_step
deriving DecidableEq

/-- Model of `vfs_read(filp, dst, count, &filp->f_pos)`: the returned value, the bytes stored at
`dst`, and the file after the call. The value is 0 only at the end of the file or for
`count = 0`. -/
def vfs_read (filp : file) (count : Nat) : Int × List Nat × file :=
  match filp.script with
  | [] => ((min count filp.data.length : Nat), filp.data.take count,
      { filp with data := filp.data.drop count })
  | .all :: sc => ((min count filp.data.length : Nat), filp.data.take count,
      { data := filp.data.drop count, script := sc })
  | .short k :: sc => ((min (min (k + 1) count) filp.data.length : Nat),
      filp.data.take (min (k + 1) count),
      { data := filp.data.drop (min (k + 1) count), script := sc })
  | .fail errno :: sc => (-((errno : Int) + 1), [], { filp with script := sc })

/-- Model of `vfs_write(filp, src, count, &filp->f_pos)` for the `count` bytes `src`: the
returned value and the file after the call. -/
def vfs_write (filp : file) (src : List Nat) : Int × file :=
  match filp.script with
  | [] => ((src.length : Nat), { filp with data := filp.data ++ src })
  | .all :: sc => ((src.length : Nat), { data := filp.data ++ src, script := sc })
  | .short k :: sc => ((min (k + 1) src.length : Nat),
      { data := filp.data ++ src.take (k + 1), script := sc })
  | .fail errno :: sc => (-((errno : Int) + 1), { filp with script := sc })

/-- The buffer `buf` after the bytes `bs` have been stored from index `off` on. -/
def poke (buf : List Nat) (off : Nat) (bs : List Nat) : List Nat :=
  buf.take off ++ bs ++ buf.drop (off + bs.length)

/-! ## The line writer -/

/-- Source: `outputbuf`. -/
structure outputbuf where
  buffer : List Nat
  currsize : Nat
  availsize : Nat
deriving DecidableEq

/-- Source: `file_line_write`. When less than `len` bytes are free the buffer is written out and
reset; then the `len` bytes of `buf` are appended and `lastout` becomes the string in `buf`.
The result is the returned value, the new `lastout`, and the file and buffer after the call;
`none` when the copy loop would store outside the buffer. -/
def file_line_write (P : Nat) (filp : file) (buf : List Nat) (len : Nat) (outbuf : outputbuf)
    (lastout : List Nat) : Option (Int × List Nat × file × outputbuf) :=
  let flushed : Int × file × outputbuf :=
    if outbuf.availsize < len then
      let r := vfs_write filp (outbuf.buffer.take outbuf.currsize)
      if r.1 < 0 then (r.1, r.2, outbuf)
      else (r.1, r.2, { buffer := List.replicate (MAX_OUTBUF_SIZE P) 0, currsize := 0,
                        availsize := MAX_OUTBUF_SIZE P })
    else (0, filp, outbuf)
  if flushed.1 < 0 then some (flushed.1, lastout, flushed.2.1, flushed.2.2)
  else
    let ob := flushed.2.2
    if ob.buffer.length < ob.currsize + len then none
    else
      some ((len : Int) + 1, cstr buf, flushed.2.1,
        { buffer := poke ob.buffer ob.currsize (copied buf len),
          currsize := ob.currsize + len,
          availsize := ob.availsize - len })

/-! ## The line reader -/

/-- Source: `inputbuf`. -/
structure inputbuf where
  buffer : List Nat
  start : Int
  size : Nat
deriving DecidableEq

/-- Source: `fill_in_buffer`. Reads up to `MAX_INBUF_SIZE - size` bytes to `buffer + size`; the
caller updates `size`. -/
def fill_in_buffer (P : Nat) (filp : file) (inbuf : inputbuf) : Int × file × inputbuf :=
  let r := vfs_read filp (MAX_INBUF_SIZE P - inbuf.size)
  (r.1, r.2.2, { inbuf with buffer := poke inbuf.buffer inbuf.size r.2.1 })

/-- How the scan loop of `file_line_read` ends: at a newline found at index `i`, `data` holding
the line with its newline; or at the end of the window, `data` holding the bytes scanned. -/
inductive scan_result where
  | found (i : Nat) (data : List Nat) : scan_result
  | not_found (data : List Nat) : scan_result
deriving DecidableEq

/-- Source: `file_line_read`, the loop `while (i < inbuf->start + inbuf->size)` with `n` bytes of
the window left from index `i` on and `data[0 .. j)` filled. `data` has `PAGE_SIZE` bytes: a
store outside it, or a read outside the buffer, gives `none`. -/
def scan (P : Nat) (buffer : List Nat) : Nat → Nat → List Nat → Option scan_result
  | 0, _, data => some (.not_found data)
  | n + 1, i, data =>
    match buffer[i]? with
    | none => none
    | some c =>
      if c = 10 then
        if data.length + 2 ≤ P then some (.found i (data ++ [10])) else none
      else if data.length < P then scan P buffer n (i + 1) (data ++ [c])
      else none

/-- Source: `file_line_read` from the label `READ_START` on: scan the window for a newline; when
there is none, move the window to the front of the buffer, read more bytes behind it (at the end
of the file a newline is stored behind it) and scan again. The first argument bounds the number
of scans; `none` is returned when it is used up, or on undefined behaviour. -/
def read_start (P : Nat) : Nat → file → inputbuf → List Nat →
    Option (Int × List Nat × file × inputbuf)
  | 0, _, _, _ => none
  | fuel + 1, filp, inbuf, buf =>
    match (if inbuf.start < 0 then some (.not_found [])
           else scan P inbuf.buffer inbuf.size inbuf.start.toNat []) with
    | none => none
    | some (.found i data) =>
      some ((data.length : Int), cstr data, filp,
        { inbuf with
          start := if i + 1 = MAX_INBUF_SIZE P then -1 else (i : Int) + 1,
          size := ((inbuf.size : Int) - ((data.length : Int) + 1) + 1).toNat })
    | some (.not_found data) =>
      let r := fill_in_buffer P filp
        { buffer := poke inbuf.buffer 0 data, start := 0, size := data.length }
      if r.1 < 0 then some (r.1, buf, r.2.1, r.2.2)
      else if r.1 = 0 then
        if data.length < r.2.2.buffer.length then
          read_start P fuel r.2.1
            { r.2.2 with buffer := r.2.2.buffer.set data.length 10, size := r.2.2.size + 1 } buf
        else none
      else read_start P fuel r.2.1 { r.2.2 with size := r.2.2.size + r.1.toNat } buf

/-- Source: `file_line_read`. Returns the length of the line read into `buf`, 0 at the end of
the file, or a negative value when `vfs_read` fails; with the new line buffer and the file and
window after the call. -/
def file_line_read (P : Nat) (filp : file) (buf : List Nat) (inbuf : inputbuf) :
    Option (Int × List Nat × file × inputbuf) :=
  if inbuf.size = 0 then
    let r := fill_in_buffer P filp inbuf
    if r.1 ≤ 0 then some (r.1, buf, r.2.1, r.2.2)
    else read_start P (r.2.1.data.length + 2) r.2.1
      { r.2.2 with start := 0, size := r.2.2.size + r.1.toNat } buf
  else read_start P (filp.data.length + 2) filp inbuf buf

/-- The state of `inputbuf1` and `inputbuf2` when `xmergesort` starts to read: `start = -1`,
`size = 0`, over a buffer of `MAX_INBUF_SIZE` bytes. The bytes of the buffer are not initialised;
they are taken to be 0, none of them being read before it has been stored. -/
def inputbuf_init (P : Nat) : inputbuf :=
  { buffer := List.replicate (MAX_INBUF_SIZE P) 0, start := -1, size := 0 }

/-- The state of `outbuf` when `xmergesort` starts: empty, `MAX_OUTBUF_SIZE` bytes free. The
bytes of the buffer are not initialised; they are taken to be 0, none of them being written to
the file before it has been stored. -/
def outputbuf_init (P : Nat) : outputbuf :=
  { buffer := List.replicate (MAX_OUTBUF_SIZE P) 0, currsize := 0,
    availsize := MAX_OUTBUF_SIZE P }

/-- The successive calls `file_line_read(filp, buf, inbuf)`: the values returned by `n` calls,
each with the line buffer after the call. -/
def read_calls (P : Nat) : Nat → file → List Nat → inputbuf → Option (List (Int × List Nat))
  | 0, _, _, _ => some []
  | n + 1, filp, buf, inbuf =>
    match file_line_read P filp buf inbuf with
    | none => none
    | some r => (read_calls P n r.2.2.1 r.2.1 r.2.2.2).map (fun rs => (r.1, r.2.1) :: rs)

/-- Written from the spec: the lines of a stream, each with its newline; unterminated trailing
bytes make a last line with a newline appended. `cur` holds the bytes of the line begun. -/
def lines_from (cur : List Nat) : List Nat → List (List Nat)
  | [] => if cur = [] then [] else [cur ++ [10]]
  | c :: cs => if c = 10 then (cur ++ [10]) :: lines_from [] cs else lines_from (cur ++ [c]) cs

/-- Written from the spec: the lines of a stream. -/
def lines_of (s : List Nat) : List (List Nat) := lines_from [] s

/-- The operations of `xmergesort` on byte files, through `file_line_read` and
`file_line_write`, for three files that are different files: a read does not depend on what has
been written. `copy_to_user` succeeds. -/
def byte_ops (P : Nat) : kernel_ops (file × inputbuf) (file × inputbuf) (file × outputbuf) where
  read1 := fun _ st buf => file_line_read P st.1 buf st.2
  read2 := fun _ st buf => file_line_read P st.1 buf st.2
  line_write := fun st buf len lastout =>
    match file_line_write P st.1 buf len st.2 lastout with
    | none => none
    | some r => some (r.1, r.2.1, r.2.2)
  flush := fun st => ((vfs_write st.1 (st.2.buffer.take st.2.currsize)).2, st.2)
  copy_to_user := fun _ => 0

/-- The run of `xmergesort` on byte files: two files to read and the temporary file to write,
three different files, with fresh buffers; `m` is what the line buffers hold at the start. -/
def xmergesort_bytes (P : Nat) (flags : Nat) (m : heap) (file_in1 file_in2 file_temp : file) :
    Option (Int × locals (file × inputbuf) (file × inputbuf) (file × outputbuf)) :=
  xmergesort (byte_ops P) flags (file_in1.data.length + file_in2.data.length + 2) m
    (file_in1, inputbuf_init P) (file_in2, inputbuf_init P) (file_temp, outputbuf_init P)

/-- Whether a step of a script is a failing call. -/
def is_fail : vfs_step → Bool
  | .fail _ => true
  | _ => false

/-- The script of a file has no failing step. -/
def no_fail (script : List vfs_step) : Prop := ∀ e ∈ script, is_fail e = false

instance (script : List vfs_step) : Decidable (no_fail script) := by
  unfold no_fail; infer_instance

/-- The window of `inbuf` (the `size` bytes from index `start` on) holds the bytes `w`, in a
buffer of `MAX_INBUF_SIZE` bytes; an empty window may have any `start`. -/
def window_is (P : Nat) (inbuf : inputbuf) (w : List Nat) : Prop :=
  inbuf.buffer.length = MAX_INBUF_SIZE P ∧ inbuf.size = w.length ∧
  (w = [] ∨ ∃ pre post, inbuf.buffer = pre ++ w ++ post ∧ inbuf.start = (pre.length : Int))

/-- Every call of the script transfers all its bytes. -/
def complete (script : List vfs_step) : Prop := ∀ e ∈ script, e = vfs_step.all

instance (script : List vfs_step) : Decidable (complete script) := by
  unfold complete; infer_instance

/-- The input file `st.1` with its `inputbuf` `st.2` still delivers the lines `L`: the window
holds some bytes `w`, the reads do not fail, and the bytes of the window followed by the rest of
the file hold no NUL and form the lines `L`, each of length below `PAGE_SIZE`. -/
def reads_as (P : Nat) (st : file × inputbuf) (L : List (List Nat)) : Prop :=
  ∃ w, window_is P st.2 w ∧ no_fail st.1.script ∧ 0 ∉ w ++ st.1.data ∧
    (∀ l ∈ lines_of (w ++ st.1.data), l.length < P) ∧ lines_of (w ++ st.1.data) = L

/-- The temporary file `st.1` with its `outputbuf` `st.2` holds the lines `E` behind the bytes
`base` the file had before: what is written to the file followed by what is in the buffer is
`base` followed by the lines; the buffer counts are consistent and the writes complete. -/
def writes_as (P : Nat) (base : List Nat) (st : file × outputbuf) (E : List (List Nat)) : Prop :=
  complete st.1.script ∧ st.2.buffer.length = MAX_OUTBUF_SIZE P ∧
  st.2.currsize + st.2.availsize = MAX_OUTBUF_SIZE P ∧
  st.1.data ++ st.2.buffer.take st.2.currsize = base ++ E.flatten

/-- The state of a run on byte files. -/
abbrev bstate := locals (file × inputbuf) (file × inputbuf) (file × outputbuf)

/-- The state `s` of a run on byte files corresponds to the state `t` of a run on whole lines:
the input files still deliver the lines of `t`, the temporary file and its buffer hold the lines
written in `t` behind the bytes `base`, the local variables agree, the line buffers hold at most
`PAGE_SIZE` bytes and the rename has not been called. -/
def sim (P : Nat) (base : List Nat) (s : bstate) (t : lstate) : Prop :=
  reads_as P s.file_in1 t.file_in1 ∧ reads_as P s.file_in2 t.file_in2 ∧
  writes_as P base s.file_temp t.file_temp ∧
  s.inbuf1 = t.inbuf1 ∧ s.inbuf2 = t.inbuf2 ∧ s.lastout = t.lastout ∧ s.load = t.load ∧
  s.write = t.write ∧ s.empty = t.empty ∧ s.i = t.i ∧ s.renamed = t.renamed ∧
  t.renamed = false ∧ t.inbuf1.length ≤ P ∧ t.inbuf2.length ≤ P

/-- Two blocks are left the same way, in corresponding states. -/
def sim_flow (P : Nat) (base : List Nat) : flow bstate → flow lstate → Prop
  | .OUT e s, .OUT e2 t => e = e2 ∧ sim P base s t
  | .brk s, .brk t => sim P base s t
  | .go s, .go t => sim P base s t
  | _, _ => False

/-- Two runs end the same way: same returned value, same line count, and after the rename the
temporary file holds the bytes `base` followed by the lines written. -/
def sim_result (base : List Nat) (r : Int × bstate) (q : Int × lstate) : Prop :=
  r.1 = q.1 ∧ r.2.i = q.2.i ∧ r.2.renamed = q.2.renamed ∧
  (q.2.renamed = true → r.2.file_temp.1.data = base ++ q.2.file_temp.flatten)

/-! ## The system call

The request and its validation, and what `xmergesort` does before the first read and after the
last write: the files are opened, the line count is copied to the caller, the temporary file is
renamed. Memory allocations succeed and file permissions are left out. -/

/-- Source: `fileinput` (xmerge.h). A path is `none` for a NULL pointer; `data` is the value of
the `unsigned int` that the pointer `data` points to. -/
structure fileinput where
  infile1 : Option String
  infile2 : Option String
  outfile : Option String
  flags : Nat
  data : Nat

/-- Source: `validate`. `usrarg` is `none` for a NULL pointer, and `vfs_stat` gives the value
that the kernel's `vfs_stat` returns for a path. -/
def validate (vfs_stat : String → Int) (usrarg : Option fileinput) : Int :=
  match usrarg with
  | none => -EINVAL
  | some u =>
    if u.flags &&& F_OUTPUT_UNIQ = 0 ∧ u.flags &&& F_OUTPUT_ALL = 0 then -EINVAL
    else if u.flags &&& F_OUTPUT_UNIQ ≠ 0 ∧ u.flags &&& F_OUTPUT_ALL ≠ 0 then -EINVAL
    else
      match u.infile1, u.infile2, u.outfile with
      | some infile1, some infile2, some _ =>
        if vfs_stat infile1 ≠ 0 then -EINVAL
        else if vfs_stat infile2 ≠ 0 then -EINVAL
        else 0
      | _, _, _ => -EINVAL

/-- Source: `xmergesort`, `copy_to_user(finput->data, &i, 2)`: two bytes are copied. On a
little-endian machine they are the two low-order bytes of `i`; they replace the two low-order
bytes of the `unsigned int` at `data`, whose two high-order bytes stay as they were. -/
def copy_count (data i : Nat) : Nat := data / 65536 % 65536 * 65536 + i % 65536

/-- The files of the machine: the directory entries, each a path with the number of the inode
that it names (the first entry of a path counts), and the bytes that each inode holds. Two paths
may name the same inode. -/
structure disk where
  dir : List (String × Nat)
  data : Nat → List Nat

/-- The inode that the path `p` names, `none` where there is no file. -/
def disk.inode_of (d : disk) (p : String) : Option Nat := d.dir.lookup p

/-- An inode number that is not in use: one more than the greatest number in the directory. -/
def disk.free (d : disk) : Nat := (d.dir.map Prod.snd).foldr max 0 + 1

/-- The content of the file that the path `p` names. -/
def disk.read (d : disk) (p : String) : Option (List Nat) := (d.inode_of p).map d.data

/-- The files after a new file with the content `c` has been made at the path `p`. -/
def disk.add (d : disk) (p : String) (c : List Nat) : disk :=
  { dir := (p, d.free) :: d.dir,
    data := fun j => if j = d.free then c else d.data j }

/-- The paths `p` and `q` name the same file once both have been opened with `O_CREAT`: they are
the same path, or they name the same inode. -/
def same_file (d : disk) (p q : String) : Prop :=
  p = q ∨ ((d.inode_of p).isSome ∧ d.inode_of p = d.inode_of q)

instance (d : disk) (p q : String) : Decidable (same_file d p q) := by
  unfold same_file; infer_instance

/-- Source: `ENOENT` (errno). -/
def ENOENT : Int := 2

/-- Model of the kernel's `vfs_stat`: 0 for a path that names a file, `-ENOENT` otherwise. -/
def vfs_stat (d : disk) (p : String) : Int := if (d.inode_of p).isSome then 0 else -ENOENT

/-- Model of `filp_open(p, O_WRONLY | O_CREAT, 0)`: the inode of the file that is opened, and the
files after the call. Where there is no file an empty one is created; a file that is there keeps
its content (there is no `O_TRUNC`). -/
def open_creat (d : disk) (p : String) : Nat × disk :=
  match d.inode_of p with
  | some i => (i, d)
  | none => (d.free, d.add p [])

/-- The content of a file with the content `old` that was opened without `O_TRUNC` and to which
the bytes `written` were written from position 0 on. -/
def overwrite (old written : List Nat) : List Nat := written ++ old.drop written.length

/-- Model of the kernel's `vfs_rename` from the path `p`, which names a file, to the path `q`,
`ret` being the value it returns: when the two paths name the same inode nothing is done;
otherwise, when `ret` is 0, `q` names the inode that `p` named and `p` names no file, and when
`ret` is not 0 nothing has changed. -/
def vfs_rename (d : disk) (p q : String) (ret : Int) : disk :=
  if ret = 0 ∧ d.inode_of p ≠ d.inode_of q then
    match d.inode_of p with
    | some i => { d with dir := (q, i) :: d.dir.filter (fun e => e.1 ≠ p ∧ e.1 ≠ q) }
    | none => d
  else d

/-- What the kernel does during one call: how the calls of `vfs_read` on the two input files and
the calls of `vfs_write` on the temporary file behave, the value of `vfs_rename`, and what the
line buffers hold when `kmalloc` returns them. -/
structure kernel_env where
  script_in1 : List vfs_step
  script_in2 : List vfs_step
  script_temp : List vfs_step
  rename_ret : Int
  kmalloc : heap

/-- An input file of the system call, with its `inputbuf`. For a file other than the one that
`temp.txt` names, `shared` is `none` and `filp.data` holds the bytes from `f_pos` to the end of
the file. For the file that `temp.txt` names, `shared` is `some pos` with `pos` the value of
`f_pos`, and the bytes are read from the temporary file as the writes have left it. -/
structure input_file where
  shared : Option Nat
  filp : file
  inbuf : inputbuf

/-- The temporary file of the system call, with `outbuf`: `old` holds the bytes of the file when
it was opened, `filp.data` the bytes written since, from position 0 on. -/
structure temp_file where
  old : List Nat
  filp : file
  outbuf : outputbuf

/-- The bytes of the temporary file. -/
def temp_file.content (t : temp_file) : List Nat := overwrite t.old t.filp.data

/-- The call `file_line_read(filp, buf, inbuf)` on an input file of the system call: on the file
itself or, for the file that `temp.txt` names, on the bytes of the temporary file from `f_pos`
on, `f_pos` moving by the number of bytes that the calls of `vfs_read` have taken. -/
def shared_read (P : Nat) (t : temp_file) (f : input_file) (buf : List Nat) :
    Option (Int × List Nat × input_file) :=
  match f.shared with
  | none =>
    match file_line_read P f.filp buf f.inbuf with
    | none => none
    | some r => some (r.1, r.2.1, { shared := none, filp := r.2.2.1, inbuf := r.2.2.2 })
  | some pos =>
    match file_line_read P { data := t.content.drop pos, script := f.filp.script } buf f.inbuf with
    | none => none
    | some r =>
      some (r.1, r.2.1,
        { shared := some (pos + ((t.content.drop pos).length - r.2.2.1.data.length)),
          filp := r.2.2.1, inbuf := r.2.2.2 })

/-- The operations of `xmergesort` on the files of the system call, through `file_line_read` and
`file_line_write`: an input file may be the file that `temp.txt` names. `copy_to_user`
succeeds. -/
def shared_ops (P : Nat) : kernel_ops input_file input_file temp_file where
  read1 := shared_read P
  read2 := shared_read P
  line_write := fun t buf len lastout =>
    match file_line_write P t.filp buf len t.outbuf lastout with
    | none => none
    | some r => some (r.1, r.2.1, { old := t.old, filp := r.2.2.1, outbuf := r.2.2.2 })
  flush := fun t =>
    { t with filp := (vfs_write t.filp (t.outbuf.buffer.take t.outbuf.currsize)).2 }
  copy_to_user := fun _ => 0

/-- Source: `xmergesort`, the whole call. `arg` is `none` when `copy_from_user` fails. The result
is the returned value, the files after the call, and the value of the `unsigned int` at `data`
when `copy_to_user` has stored the line count there; it is `none` when the merge has undefined
behaviour or has not ended after `fuel` passes of a loop (the case of an input path that names
no file is not reached: `validate` has found both). The input files are opened, then `temp.txt`
and the output file, both with `O_CREAT`; the inodes of the input files and of the output file
are compared, the inode of `temp.txt` is not; the lines are written to `temp.txt`, which an
input file or the output file may be; on success `temp.txt` is renamed to the output path, and
the value of `vfs_rename` is not looked at. -/
def sys_xmergesort (P : Nat) (K : kernel_env) (fuel : Nat) (d : disk) (arg : Option fileinput) :
    Option (Int × disk × Option Nat) :=
  match arg with
  | none => some (-EFAULT, d, none)
  | some finput =>
    if validate (vfs_stat d) (some finput) ≠ 0 then some (-EINVAL, d, none)
    else
      match finput.infile1, finput.infile2, finput.outfile with
      | some infile1, some infile2, some outfile =>
        match d.inode_of infile1, d.inode_of infile2 with
        | some in1, some in2 =>
          let t := open_creat d "temp.txt"
          let o := open_creat t.2 outfile
          if in1 = in2 then some (-EINVAL, o.2, none)
          else if in1 = o.1 then some (-EINVAL, o.2, none)
          else if in2 = o.1 then some (-EINVAL, o.2, none)
          else
            match xmergesort (shared_ops P) finput.flags fuel K.kmalloc
                { shared := if in1 = t.1 then some 0 else none,
                  filp := ⟨o.2.data in1, K.script_in1⟩, inbuf := inputbuf_init P }
                { shared := if in2 = t.1 then some 0 else none,
                  filp := ⟨o.2.data in2, K.script_in2⟩, inbuf := inputbuf_init P }
                { old := o.2.data t.1, filp := ⟨[], K.script_temp⟩,
                  outbuf := outputbuf_init P } with
            | none => none
            | some (err, s) =>
              let d2 : disk :=
                { o.2 with data := fun j => if j = t.1 then s.file_temp.content
                                            else o.2.data j }
              if s.renamed then
                some (err, vfs_rename d2 "temp.txt" outfile K.rename_ret,
                  some (copy_count finput.data s.i))
              else some (err, d2, none)
        | _, _ => none
      | _, _, _ => none

/-- The states of a run carried to other file states. -/
def locals.map {ρ1 ρ2 ω σ1 σ2 τ : Type} (e1 : ρ1 → σ1) (e2 : ρ2 → σ2) (eo : ω → τ)
    (s : locals ρ1 ρ2 ω) : locals σ1 σ2 τ :=
  { file_in1 := e1 s.file_in1, file_in2 := e2 s.file_in2, file_temp := eo s.file_temp,
    inbuf1 := s.inbuf1, inbuf2 := s.inbuf2, lastout := s.lastout, load := s.load,
    write := s.write, empty := s.empty, i := s.i, renamed := s.renamed }

/-- The way a block is left, with its state carried to other file states. -/
def flow.map {σ τ : Type} (e : σ → τ) : flow σ → flow τ
  | .OUT err s => .OUT err (e s)
  | .brk s => .brk (e s)
  | .go s => .go (e s)

/-- The operations `K2` on the file states `e1 f`, `e2 f`, `eo w` do what the operations `K` do on
`f` and `w`. -/
def embeds {ρ1 ρ2 ω σ1 σ2 τ : Type} (K : kernel_ops ρ1 ρ2 ω) (K2 : kernel_ops σ1 σ2 τ)
    (e1 : ρ1 → σ1) (e2 : ρ2 → σ2) (eo : ω → τ) : Prop :=
  (∀ w f b, K2.read1 (eo w) (e1 f) b = (K.read1 w f b).map (fun r => (r.1, r.2.1, e1 r.2.2))) ∧
  (∀ w f b, K2.read2 (eo w) (e2 f) b = (K.read2 w f b).map (fun r => (r.1, r.2.1, e2 r.2.2))) ∧
  (∀ w b n lo, K2.line_write (eo w) b n lo =
    (K.line_write w b n lo).map (fun r => (r.1, r.2.1, eo r.2.2))) ∧
  (∀ w, K2.flush (eo w) = eo (K.flush w)) ∧
  (∀ n, K2.copy_to_user n = K.copy_to_user n)

/-- An input file of the run on three different byte files, as an input file of the system
call. -/
def private_input (st : file × inputbuf) : input_file :=
  { shared := none, filp := st.1, inbuf := st.2 }

/-- The temporary file of the run on byte files, as the temporary file of the system call, `old`
being the bytes the file had when it was opened. -/
def temp_over (old : List Nat) (st : file × outputbuf) : temp_file :=
  { old := old, filp := st.1, outbuf := st.2 }

/-- The state in which a block is left. -/
def flow.st {σ : Type} : flow σ → σ
  | .OUT _ s => s
  | .brk s => s
  | .go s => s

/-- The files of a machine with `c1` at the path `in1` (inode 1), `c2` at the path `in2`
(inode 2), and nothing else. -/
def two_files (c1 c2 : List Nat) : disk :=
  { dir := [("in1", 1), ("in2", 2)],
    data := fun j => if j = 1 then c1 else if j = 2 then c2 else [] }

/-- The request with the paths `in1`, `in2` and `out` and the given flags. -/
def request (flags : Nat) (data : Nat) : fileinput :=
  { infile1 := some "in1", infile2 := some "in2", outfile := some "out", flags := flags,
    data := data }

/-- The successive calls `file_line_write(filp, l, strlen(l), outbuf, lastout)` for the lines `l`
of a list, made the way `xmergesort` makes them; a call that fails is the last. The result is 0
when every call has succeeded, or else the negative value of the call that failed, with
`lastout`, the file and the buffer after the last call. -/
def write_calls (P : Nat) : List (List Nat) → file → outputbuf → List Nat →
    Option (Int × List Nat × file × outputbuf)
  | [], filp, outbuf, lastout => some (0, lastout, filp, outbuf)
  | l :: ls, filp, outbuf, lastout =>
    match file_line_write P filp l (strlen l) outbuf lastout with
    | none => none
    | some (err, lastout2, filp2, outbuf2) =>
      if err < 0 then some (err, lastout2, filp2, outbuf2)
      else write_calls P ls filp2 outbuf2 lastout2

/-- The successive calls `file_line_read(filp, buf, inbuf)`: the file, the line buffer and the
window after `n` calls. -/
def read_state (P : Nat) : Nat → file → List Nat → inputbuf → Option (file × List Nat × inputbuf)
  | 0, filp, buf, inbuf => some (filp, buf, inbuf)
  | n + 1, filp, buf, inbuf =>
    match file_line_read P filp buf inbuf with
    | none => none
    | some r => read_state P n r.2.2.1 r.2.1 r.2.2.2

/-- The bounds that `start` and `size` of an input buffer keep: the window lies in the buffer of
`MAX_INBUF_SIZE` bytes, or `start` is the marker `-1` of an empty buffer and `size` is 0. -/
def inbuf_ok (P : Nat) (inbuf : inputbuf) : Prop :=
  inbuf.buffer.length = MAX_INBUF_SIZE P ∧
  ((inbuf.start = -1 ∧ inbuf.size = 0) ∨
    (0 ≤ inbuf.start ∧ inbuf.start + (inbuf.size : Int) ≤ (MAX_INBUF_SIZE P : Nat)))

/-- Source: `xmergesort`, the loop `while (empty == 0)`: the state at the start of a pass that
follows `k` passes from the state `s`, each of which has gone on to the next pass; `none` when
the loop has been left before. -/
def main_loop_state {ρ1 ρ2 ω : Type} (K : kernel_ops ρ1 ρ2 ω) (INSEN_FLAG SORT_FLAG UNIQ_FLAG : Int) :
    Nat → locals ρ1 ρ2 ω → Option (locals ρ1 ρ2 ω)
  | 0, s => some s
  | k + 1, s =>
    if s.empty = 0 then
      match loop_body K INSEN_FLAG SORT_FLAG UNIQ_FLAG s with
      | some (.go t) => main_loop_state K INSEN_FLAG SORT_FLAG UNIQ_FLAG k t
      | _ => none
    else none

/-! ## Counting the passes of the loops -/

/-- Source: `xmergesort`, the loop `while (empty == 0)`, as `main_loop`, with the number of
passes through its body. -/
def main_loop_count {ρ1 ρ2 ω : Type} (K : kernel_ops ρ1 ρ2 ω) (INSEN_FLAG SORT_FLAG UNIQ_FLAG : Int) :
    Nat → locals ρ1 ρ2 ω → Option (Nat × flow (locals ρ1 ρ2 ω))
  | 0, _ => none
  | fuel + 1, s =>
    if s.empty = 0 then
      match loop_body K INSEN_FLAG SORT_FLAG UNIQ_FLAG s with
      | none => none
      | some (.OUT err s) => some (1, .OUT err s)
      | some (.brk s) => some (1, .go s)
      | some (.go s) =>
        (main_loop_count K INSEN_FLAG SORT_FLAG UNIQ_FLAG fuel s).map (fun r => (r.1 + 1, r.2))
    else some (0, .go s)

/-- Source: `xmergesort`, the loop `do ... while (file_line_read(file_in1, ...) > 0)`, as
`drain1`, with the number of passes through its body. -/
def drain1_count {ρ1 ρ2 ω : Type} (K : kernel_ops ρ1 ρ2 ω) (INSEN_FLAG SORT_FLAG UNIQ_FLAG : Int) :
    Nat → locals ρ1 ρ2 ω → Option (Nat × flow (locals ρ1 ρ2 ω))
  | 0, _ => none
  | fuel + 1, s =>
    match drain1_body K INSEN_FLAG SORT_FLAG UNIQ_FLAG s with
    | none => none
    | some (.OUT err s) => some (1, .OUT err s)
    | some (.brk s) => some (1, .go s)
    | some (.go s) =>
      (drain1_count K INSEN_FLAG SORT_FLAG UNIQ_FLAG fuel s).map (fun r => (r.1 + 1, r.2))

/-- Source: `xmergesort`, the loop `do ... while (file_line_read(file_in2, ...) > 0)`, as
`drain2`, with the number of passes through its body. -/
def drain2_count {ρ1 ρ2 ω : Type} (K : kernel_ops ρ1 ρ2 ω) (INSEN_FLAG SORT_FLAG UNIQ_FLAG : Int) :
    Nat → locals ρ1 ρ2 ω → Option (Nat × flow (locals ρ1 ρ2 ω))
  | 0, _ => none
  | fuel + 1, s =>
    match drain2_body K INSEN_FLAG SORT_FLAG UNIQ_FLAG s with
    | none => none
    | some (.OUT err s) => some (1, .OUT err s)
    | some (.brk s) => some (1, .go s)
    | some (.go s) =>
      (drain2_count K INSEN_FLAG SORT_FLAG UNIQ_FLAG fuel s).map (fun r => (r.1 + 1, r.2))

/-- Source: `xmergesort`, what follows the main loop, as `drain_phase`, with the number of
passes through the bodies of the drain loops. -/
def drain_phase_count {ρ1 ρ2 ω : Type} (K : kernel_ops ρ1 ρ2 ω)
    (INSEN_FLAG SORT_FLAG UNIQ_FLAG : Int) (fuel : Nat) (s : locals ρ1 ρ2 ω) :
    Option (Nat × Int × locals ρ1 ρ2 ω) :=
  match (if s.empty = 2 then drain1_count K INSEN_FLAG SORT_FLAG UNIQ_FLAG fuel s
         else some (0, .go s)) with
  | none => none
  | some (n, .OUT err s) => some (n, err, s)
  | some (n, .brk s) => some (n, 0, s)
  | some (n, .go s) =>
    match (if s.empty = 1 then drain2_count K INSEN_FLAG SORT_FLAG UNIQ_FLAG fuel s
           else some (0, .go s)) with
    | none => none
    | some (m, .OUT err s) => some (n + m, err, s)
    | some (m, .brk s) => some (n + m, 0, s)
    | some (m, .go s) => some (n + m, finish K s)

/-- Source: `xmergesort`, the main loop followed by the drain loops and the end of the function,
as `merge_phase`, with the number of passes through the bodies of the loops. -/
def merge_phase_count {ρ1 ρ2 ω : Type} (K : kernel_ops ρ1 ρ2 ω)
    (INSEN_FLAG SORT_FLAG UNIQ_FLAG : Int) (fuel1 fuel2 : Nat) (s : locals ρ1 ρ2 ω) :
    Option (Nat × Int × locals ρ1 ρ2 ω) :=
  match main_loop_count K INSEN_FLAG SORT_FLAG UNIQ_FLAG fuel1 s with
  | none => none
  | some (n, .OUT err s) => some (n, err, s)
  | some (n, .brk s) => some (n, 0, s)
  | some (n, .go s) =>
    (drain_phase_count K INSEN_FLAG SORT_FLAG UNIQ_FLAG fuel2 s).map (fun r => (n + r.1, r.2))

/-- Source: `xmergesort`, as the definition `xmergesort`, with the number of passes through the
bodies of the main loop and of the drain loops. -/
def xmergesort_count {ρ1 ρ2 ω : Type} (K : kernel_ops ρ1 ρ2 ω) (flags : Nat) (fuel : Nat)
    (m : heap) (file_in1 : ρ1) (file_in2 : ρ2) (file_temp : ω) :
    Option (Nat × Int × locals ρ1 ρ2 ω) :=
  match initial_reads K
      { file_in1 := file_in1, file_in2 := file_in2, file_temp := file_temp,
        inbuf1 := m.inbuf1, inbuf2 := m.inbuf2, lastout := m.lastout, load := 0, write := 0,
        empty := 0, i := 0, renamed := false } with
  | none => none
  | some (.OUT err s) => some (0, err, s)
  | some (.brk s) => some (0, 0, s)
  | some (.go s) =>
    merge_phase_count K (INSEN_FLAG flags) (SORT_FLAG flags) (UNIQ_FLAG flags) fuel fuel s

/-! ## C strings without NUL -/

theorem cstr_eq_self (l : List Nat) (h : 0 ∉ l) : cstr l = l := by
  induction l with
  | nil => rfl
  | cons c cs ih =>
    have hc : c ≠ 0 := fun e => h (by simp [e])
    have hcs : 0 ∉ cs := fun e => h (by simp [e])
    simp [cstr, hc, ih hcs]

theorem copied_self (l : List Nat) : copied l l.length = l := by
  unfold copied
  apply List.ext_getElem
  · simp
  · intro n h1 h2
    simp at h1
    simp [List.getD_eq_getElem?_getD, List.getElem?_eq_getElem h1]

/-! ## The comparators as a linear order on keys -/

theorem lex_cons_lt_cons (a b : Nat) (l k : List Nat) :
    (a :: l) < (b :: k) ↔ a < b ∨ (a = b ∧ l < k) := by
  constructor
  · intro h
    cases h with
    | cons h => exact Or.inr ⟨rfl, h⟩
    | rel h => exact Or.inl h
  · rintro (h | ⟨rfl, h⟩)
    · exact List.Lex.rel h
    · exact List.Lex.cons h

theorem lex_not_lt_nil (l : List Nat) : ¬ l < [] := by
  intro h; cases h

theorem tolower_eq_zero (c : Nat) : tolower c = 0 ↔ c = 0 := by
  unfold tolower
  split
  · rename_i h
    simp only [isupper, Bool.or_eq_true, Bool.and_eq_true, decide_eq_true_eq] at h
    omega
  · simp

theorem strcmp_lt_iff (a b : List Nat) : strcmp a b < 0 ↔ cstr a < cstr b := by
  induction a generalizing b with
  | nil =>
    cases b with
    | nil => simp [strcmp, cstr]
    | cons c2 ct =>
      by_cases h : c2 = 0
      · simp [strcmp, cstr, h]
      · simp [strcmp, cstr, h, List.nil_lt_cons]
  | cons c1 cs ih =>
    cases b with
    | nil =>
      by_cases h : c1 = 0
      · simp [strcmp, cstr, h]
      · simp [strcmp, cstr, h, lex_not_lt_nil]
    | cons c2 ct =>
      by_cases h1 : c1 = 0 <;> by_cases h2 : c2 = 0 <;> by_cases h : c1 = c2 <;>
        by_cases hlt : c1 < c2 <;>
        simp_all [strcmp, cstr, lex_not_lt_nil, lex_cons_lt_cons, List.nil_lt_cons]
      all_goals omega

theorem strcmp_eq_iff (a b : List Nat) : strcmp a b = 0 ↔ cstr a = cstr b := by
  induction a generalizing b with
  | nil =>
    cases b with
    | nil => simp [strcmp, cstr]
    | cons c2 ct =>
      by_cases h : c2 = 0
      · simp [strcmp, cstr, h]
      · simp [strcmp, cstr, h]
  | cons c1 cs ih =>
    cases b with
    | nil =>
      by_cases h : c1 = 0
      · simp [strcmp, cstr, h]
      · simp [strcmp, cstr, h]
    | cons c2 ct =>
      by_cases h1 : c1 = 0 <;> by_cases h2 : c2 = 0 <;> by_cases h : c1 = c2 <;>
        by_cases hlt : c1 < c2 <;>
        simp_all [strcmp, cstr]
      all_goals omega

theorem strcasecmp_lt_iff (a b : List Nat) :
    strcasecmp a b < 0 ↔ (cstr a).map tolower < (cstr b).map tolower := by
  induction a generalizing b with
  | nil =>
    cases b with
    | nil => simp [strcasecmp, cstr]
    | cons c2 ct =>
      have := tolower_eq_zero c2
      by_cases h : c2 = 0
      · simp_all [strcasecmp, cstr]
      · simp_all [strcasecmp, cstr, List.nil_lt_cons]
        omega
  | cons c1 cs ih =>
    cases b with
    | nil =>
      have := tolower_eq_zero c1
      by_cases h : c1 = 0
      · simp_all [strcasecmp, cstr]
      · simp_all [strcasecmp, cstr, lex_not_lt_nil]
    | cons c2 ct =>
      have t1 := tolower_eq_zero c1
      have t2 := tolower_eq_zero c2
      by_cases h1 : c1 = 0 <;> by_cases h2 : c2 = 0 <;>
        by_cases h : tolower c1 = tolower c2 <;>
        simp_all [strcasecmp, cstr, lex_not_lt_nil, lex_cons_lt_cons, List.nil_lt_cons]
      all_goals omega

theorem strcasecmp_eq_iff (a b : List Nat) :
    strcasecmp a b = 0 ↔ (cstr a).map tolower = (cstr b).map tolower := by
  induction a generalizing b with
  | nil =>
    cases b with
    | nil => simp [strcasecmp, cstr]
    | cons c2 ct =>
      have := tolower_eq_zero c2
      by_cases h : c2 = 0
      · simp_all [strcasecmp, cstr]
      · simp_all [strcasecmp, cstr]
  | cons c1 cs ih =>
    cases b with
    | nil =>
      have := tolower_eq_zero c1
      by_cases h : c1 = 0
      · simp_all [strcasecmp, cstr]
      · simp_all [strcasecmp, cstr]
    | cons c2 ct =>
      have t1 := tolower_eq_zero c1
      have t2 := tolower_eq_zero c2
      by_cases h1 : c1 = 0 <;> by_cases h2 : c2 = 0 <;>
        by_cases h : tolower c1 = tolower c2 <;>
        simp_all [strcasecmp, cstr]
      all_goals omega

theorem strcmputil_lt_iff (F : Int) (a b : List Nat) :
    strcmputil a b F < 0 ↔ ckey F a < ckey F b := by
  unfold strcmputil ckey
  split
  · exact strcasecmp_lt_iff a b
  · exact strcmp_lt_iff a b

theorem strcmputil_eq_iff (F : Int) (a b : List Nat) :
    strcmputil a b F = 0 ↔ ckey F a = ckey F b := by
  unfold strcmputil ckey
  split
  · exact strcasecmp_eq_iff a b
  · exact strcmp_eq_iff a b

theorem strcmputil_gt_iff (F : Int) (a b : List Nat) :
    strcmputil a b F > 0 ↔ ckey F b < ckey F a := by
  have h1 := strcmputil_lt_iff F a b
  have h2 := strcmputil_eq_iff F a b
  rcases lt_trichotomy (ckey F a) (ckey F b) with h | h | h
  · have : strcmputil a b F < 0 := h1.mpr h
    constructor
    · intro; omega
    · intro h3; exact absurd h (lt_asymm h3)
  · have : strcmputil a b F = 0 := h2.mpr h
    constructor
    · intro; omega
    · intro h3; rw [h] at h3; exact absurd h3 (lt_irrefl _)
  · have n1 : ¬ strcmputil a b F < 0 := fun h3 => lt_asymm h (h1.mp h3)
    have n2 : ¬ strcmputil a b F = 0 := fun h3 => by
      rw [h2.mp h3] at h; exact lt_irrefl _ h
    constructor
    · intro; exact h
    · intro; omega

theorem strcmputil_le_iff (F : Int) (a b : List Nat) :
    strcmputil a b F ≤ 0 ↔ ckey F a ≤ ckey F b := by
  rw [← not_lt, ← not_lt]
  exact not_congr (strcmputil_gt_iff F a b)

/-! ## Loop rules -/

theorem main_loop_rule {ρ1 ρ2 ω : Type} (K : kernel_ops ρ1 ρ2 ω) (F S U : Int)
    (Inv : locals ρ1 ρ2 ω → Prop) (m : locals ρ1 ρ2 ω → Nat)
    (Q : flow (locals ρ1 ρ2 ω) → Prop)
    (hstep : ∀ s, Inv s → s.empty = 0 → ∃ r, loop_body K F S U s = some r ∧
      match r with
      | .go t => Inv t ∧ t.empty = 0 ∧ m t < m s
      | .brk t => Q (.go t)
      | .OUT e t => Q (.OUT e t)) :
    ∀ fuel s, Inv s → s.empty = 0 → m s < fuel → ∃ r, main_loop K F S U fuel s = some r ∧ Q r := by
  intro fuel
  induction fuel with
  | zero => intro s _ _ h; omega
  | succ n ih =>
    intro s hI he hm
    obtain ⟨r, hr, hq⟩ := hstep s hI he
    cases r with
    | OUT e t => exact ⟨.OUT e t, by simp [main_loop, he, hr], hq⟩
    | brk t => exact ⟨.go t, by simp [main_loop, he, hr], hq⟩
    | go t =>
      obtain ⟨hI2, he2, hm2⟩ := hq
      obtain ⟨r2, hr2, hq2⟩ := ih t hI2 he2 (by omega)
      exact ⟨r2, by simp [main_loop, he, hr, hr2], hq2⟩

theorem drain1_rule {ρ1 ρ2 ω : Type} (K : kernel_ops ρ1 ρ2 ω) (F S U : Int)
    (Inv : locals ρ1 ρ2 ω → Prop) (m : locals ρ1 ρ2 ω → Nat)
    (Q : flow (locals ρ1 ρ2 ω) → Prop)
    (hstep : ∀ s, Inv s → ∃ r, drain1_body K F S U s = some r ∧
      match r with
      | .go t => Inv t ∧ m t < m s
      | .brk t => Q (.go t)
      | .OUT e t => Q (.OUT e t)) :
    ∀ fuel s, Inv s → m s < fuel → ∃ r, drain1 K F S U fuel s = some r ∧ Q r := by
  intro fuel
  induction fuel with
  | zero => intro s _ h; omega
  | succ n ih =>
    intro s hI hm
    obtain ⟨r, hr, hq⟩ := hstep s hI
    cases r with
    | OUT e t => exact ⟨.OUT e t, by simp [drain1, hr], hq⟩
    | brk t => exact ⟨.go t, by simp [drain1, hr], hq⟩
    | go t =>
      obtain ⟨hI2, hm2⟩ := hq
      obtain ⟨r2, hr2, hq2⟩ := ih t hI2 (by omega)
      exact ⟨r2, by simp [drain1, hr, hr2], hq2⟩

theorem drain2_rule {ρ1 ρ2 ω : Type} (K : kernel_ops ρ1 ρ2 ω) (F S U : Int)
    (Inv : locals ρ1 ρ2 ω → Prop) (m : locals ρ1 ρ2 ω → Nat)
    (Q : flow (locals ρ1 ρ2 ω) → Prop)
    (hstep : ∀ s, Inv s → ∃ r, drain2_body K F S U s = some r ∧
      match r with
      | .go t => Inv t ∧ m t < m s
      | .brk t => Q (.go t)
      | .OUT e t => Q (.OUT e t)) :
    ∀ fuel s, Inv s → m s < fuel → ∃ r, drain2 K F S U fuel s = some r ∧ Q r := by
  intro fuel
  induction fuel with
  | zero => intro s _ h; omega
  | succ n ih =>
    intro s hI hm
    obtain ⟨r, hr, hq⟩ := hstep s hI
    cases r with
    | OUT e t => exact ⟨.OUT e t, by simp [drain2, hr], hq⟩
    | brk t => exact ⟨.go t, by simp [drain2, hr], hq⟩
    | go t =>
      obtain ⟨hI2, hm2⟩ := hq
      obtain ⟨r2, hr2, hq2⟩ := ih t hI2 (by omega)
      exact ⟨r2, by simp [drain2, hr, hr2], hq2⟩

/-- The values `part1` can give to `write` and `load`. -/
theorem part1_range (F S U : Int) (a b lo : List Nat) (w0 l0 : Nat) :
    (part1 F S U a b lo w0 l0 = .error (-EINVAL) ∧ S ≠ 0) ∨
    part1 F S U a b lo w0 l0 = .ok (1, 1) ∨ part1 F S U a b lo w0 l0 = .ok (2, 2) ∨
    part1 F S U a b lo w0 l0 = .ok (0, 1) ∨ part1 F S U a b lo w0 l0 = .ok (0, 2) ∨
    part1 F S U a b lo w0 l0 = .ok (0, 0) := by
  unfold part1
  split_ifs <;> simp_all
  omega

/-! ## Order facts on the values of `strcmputil` -/

theorem cmp_swap_lt (F : Int) (a b : List Nat) : strcmputil b a F < 0 ↔ strcmputil a b F > 0 := by
  rw [strcmputil_lt_iff, strcmputil_gt_iff]

theorem cmp_swap_eq (F : Int) (a b : List Nat) : strcmputil b a F = 0 ↔ strcmputil a b F = 0 := by
  rw [strcmputil_eq_iff, strcmputil_eq_iff]; exact eq_comm

theorem cmp_self (F : Int) (a : List Nat) : strcmputil a a F = 0 := by
  rw [strcmputil_eq_iff]

theorem cmp_tie (F : Int) (a b c : List Nat) (h : strcmputil a b F = 0) :
    (strcmputil a c F < 0 ↔ strcmputil b c F < 0) ∧
    (strcmputil a c F = 0 ↔ strcmputil b c F = 0) ∧
    (strcmputil a c F > 0 ↔ strcmputil b c F > 0) := by
  rw [strcmputil_eq_iff] at h
  simp only [strcmputil_lt_iff, strcmputil_eq_iff, strcmputil_gt_iff, h, and_self]

theorem cmp_le_trans (F : Int) (a b c : List Nat) (h1 : strcmputil a b F ≤ 0)
    (h2 : strcmputil b c F ≤ 0) : strcmputil a c F ≤ 0 := by
  rw [strcmputil_le_iff] at *
  exact le_trans h1 h2

theorem cmp_lt_of_lt_of_le (F : Int) (a b c : List Nat) (h1 : strcmputil a b F < 0)
    (h2 : strcmputil b c F ≤ 0) : strcmputil a c F < 0 := by
  rw [strcmputil_le_iff] at h2
  rw [strcmputil_lt_iff] at *
  exact lt_of_lt_of_le h1 h2

theorem cmp_lt_of_le_of_lt (F : Int) (a b c : List Nat) (h1 : strcmputil a b F ≤ 0)
    (h2 : strcmputil b c F < 0) : strcmputil a c F < 0 := by
  rw [strcmputil_le_iff] at h1
  rw [strcmputil_lt_iff] at *
  exact lt_of_le_of_lt h1 h2

/-! ## The decision table and the rule of the drain loops -/

theorem drain_part1_eq (F S U : Int) (x lo : List Nat) (w : Nat) :
    drain_part1 F S U x lo w =
      if strlen lo = 0 ∨ strcmputil x lo F > 0 then .ok w
      else if strcmputil x lo F < 0 then (if S = 0 then .ok 0 else .error (-EINVAL))
      else if U = 1 then .ok 0 else .ok w := by
  unfold drain_part1
  generalize strcmputil x lo F = u
  generalize strlen lo = n
  by_cases hn : n = 0
  · subst hn; simp
  · have hn2 : n > 0 := by omega
    rcases lt_trichotomy u 0 with hu | hu | hu
    · have : ¬ u > 0 := by omega
      have : ¬ 0 < u := by omega
      have : u ≠ 0 := by omega
      by_cases hS : S = 0 <;> simp [*]
    · subst hu; simp [hn, hn2]
    · have : ¬ u < 0 := by omega
      simp [*]

theorem part1_policy_first (F S U : Int) (a b lo : List Nat) (w0 l0 : Nat)
    (hn : strlen lo = 0) :
    match part1 F S U a b lo w0 l0 with
    | .ok (w, l) =>
      (l = 1 ∧ (w = 0 ∨ w = 1) ∧ line_le F a b ∧ drain_part1 F S U a lo 1 = .ok w) ∨
      (l = 2 ∧ (w = 0 ∨ w = 2) ∧ line_le F b a ∧ drain_part1 F S U b lo 1 = .ok (w / 2)) ∨
      (l = 0 ∧ w = 0 ∧ strcmputil a b F = 0 ∧
        drain_part1 F S U a lo 1 = .ok 0 ∧ drain_part1 F S U b lo 1 = .ok 0)
    | .error e => e = -EINVAL ∧
      ((line_le F a b ∧ drain_part1 F S U a lo 1 = .error (-EINVAL)) ∨
       (line_le F b a ∧ drain_part1 F S U b lo 1 = .error (-EINVAL))) := by
  have h1 := cmp_swap_lt F a b
  have h2 := cmp_swap_eq F a b
  have h3 : strcmputil a b F = 0 → _ := cmp_tie F a b lo
  simp only [drain_part1_eq]
  unfold part1 line_le
  generalize strcmputil a b F = x at *
  generalize strcmputil b a F = y at *
  generalize strcmputil a lo F = u at *
  generalize strcmputil b lo F = v at *
  generalize strcmputil a b 0 = t at *
  generalize strlen lo = n at *
  subst hn
  rcases lt_trichotomy x 0 with hx | hx | hx
  · simp [hx]; omega
  · subst hx; simp; split_ifs <;> simp
    omega
  · have : ¬ x < 0 := by omega
    have : ¬ y = 0 := by omega
    simp [*]; omega

theorem part1_policy_lt (F S U : Int) (a b lo : List Nat) (w0 l0 : Nat)
    (hn : strlen lo > 0) (hx : strcmputil a b F < 0) :
    match part1 F S U a b lo w0 l0 with
    | .ok (w, l) =>
      (l = 1 ∧ (w = 0 ∨ w = 1) ∧ line_le F a b ∧ drain_part1 F S U a lo 1 = .ok w) ∨
      (l = 2 ∧ (w = 0 ∨ w = 2) ∧ line_le F b a ∧ drain_part1 F S U b lo 1 = .ok (w / 2)) ∨
      (l = 0 ∧ w = 0 ∧ strcmputil a b F = 0 ∧
        drain_part1 F S U a lo 1 = .ok 0 ∧ drain_part1 F S U b lo 1 = .ok 0)
    | .error e => e = -EINVAL ∧
      ((line_le F a b ∧ drain_part1 F S U a lo 1 = .error (-EINVAL)) ∨
       (line_le F b a ∧ drain_part1 F S U b lo 1 = .error (-EINVAL))) := by
  have h1 := cmp_swap_lt F a b
  have h2 := cmp_swap_eq F a b
  have h3 : strcmputil a b F = 0 → _ := cmp_tie F a b lo
  simp only [drain_part1_eq]
  unfold part1 line_le
  generalize strcmputil a b F = x at *
  generalize strcmputil b a F = y at *
  generalize strcmputil a lo F = u at *
  generalize strcmputil b lo F = v at *
  generalize strcmputil a b 0 = t at *
  generalize strlen lo = n at *
  have hn2 : n ≠ 0 := by omega
  have : x ≤ 0 := by omega
  simp only [hx, hn2, hn, and_self, if_true, false_or]
  split_ifs <;> simp_all <;> omega

theorem part1_policy_gt (F S U : Int) (a b lo : List Nat) (w0 l0 : Nat)
    (hn : strlen lo > 0) (hx : strcmputil a b F > 0) :
    match part1 F S U a b lo w0 l0 with
    | .ok (w, l) =>
      (l = 1 ∧ (w = 0 ∨ w = 1) ∧ line_le F a b ∧ drain_part1 F S U a lo 1 = .ok w) ∨
      (l = 2 ∧ (w = 0 ∨ w = 2) ∧ line_le F b a ∧ drain_part1 F S U b lo 1 = .ok (w / 2)) ∨
      (l = 0 ∧ w = 0 ∧ strcmputil a b F = 0 ∧
        drain_part1 F S U a lo 1 = .ok 0 ∧ drain_part1 F S U b lo 1 = .ok 0)
    | .error e => e = -EINVAL ∧
      ((line_le F a b ∧ drain_part1 F S U a lo 1 = .error (-EINVAL)) ∨
       (line_le F b a ∧ drain_part1 F S U b lo 1 = .error (-EINVAL))) := by
  have h1 := cmp_swap_lt F a b
  have h2 := cmp_swap_eq F a b
  have h3 : strcmputil a b F = 0 → _ := cmp_tie F a b lo
  simp only [drain_part1_eq]
  unfold part1 line_le
  generalize strcmputil a b F = x at *
  generalize strcmputil b a F = y at *
  generalize strcmputil a lo F = u at *
  generalize strcmputil b lo F = v at *
  generalize strcmputil a b 0 = t at *
  generalize strlen lo = n at *
  have hn2 : n ≠ 0 := by omega
  have hy : y < 0 := by omega
  have hx2 : ¬ x < 0 := by omega
  have hy2 : y ≤ 0 := by omega
  simp only [hy, hn2, hn, and_self, if_true, false_or, hx2, false_and, if_false]
  split_ifs <;> simp_all <;> omega

theorem part1_policy_eq (F S U : Int) (a b lo : List Nat) (w0 l0 : Nat)
    (hn : strlen lo > 0) (hx : strcmputil a b F = 0) :
    match part1 F S U a b lo w0 l0 with
    | .ok (w, l) =>
      (l = 1 ∧ (w = 0 ∨ w = 1) ∧ line_le F a b ∧ drain_part1 F S U a lo 1 = .ok w) ∨
      (l = 2 ∧ (w = 0 ∨ w = 2) ∧ line_le F b a ∧ drain_part1 F S U b lo 1 = .ok (w / 2)) ∨
      (l = 0 ∧ w = 0 ∧ strcmputil a b F = 0 ∧
        drain_part1 F S U a lo 1 = .ok 0 ∧ drain_part1 F S U b lo 1 = .ok 0)
    | .error e => e = -EINVAL ∧
      ((line_le F a b ∧ drain_part1 F S U a lo 1 = .error (-EINVAL)) ∨
       (line_le F b a ∧ drain_part1 F S U b lo 1 = .error (-EINVAL))) := by
  have h1 := cmp_swap_lt F a b
  have h2 := cmp_swap_eq F a b
  have h3 : strcmputil a b F = 0 → _ := cmp_tie F a b lo
  simp only [drain_part1_eq]
  unfold part1 line_le
  generalize strcmputil a b F = x at *
  generalize strcmputil b a F = y at *
  generalize strcmputil a lo F = u at *
  generalize strcmputil b lo F = v at *
  generalize strcmputil a b 0 = t at *
  generalize strlen lo = n at *
  have hn2 : n ≠ 0 := by omega
  subst hx
  have hy : y = 0 := by omega
  subst hy
  have h4 := h3 rfl
  simp only [lt_irrefl, false_and, if_false, hn2, hn, and_self, if_true, false_or]
  split_ifs <;> simp_all <;> omega

/-- What the decision table `part1` decides, seen through the rule `drain_part1` of the drain
loops applied to the line that is taken. -/
theorem part1_policy (F S U : Int) (a b lo : List Nat) (w0 l0 : Nat) :
    match part1 F S U a b lo w0 l0 with
    | .ok (w, l) =>
      (l = 1 ∧ (w = 0 ∨ w = 1) ∧ line_le F a b ∧ drain_part1 F S U a lo 1 = .ok w) ∨
      (l = 2 ∧ (w = 0 ∨ w = 2) ∧ line_le F b a ∧ drain_part1 F S U b lo 1 = .ok (w / 2)) ∨
      (l = 0 ∧ w = 0 ∧ strcmputil a b F = 0 ∧
        drain_part1 F S U a lo 1 = .ok 0 ∧ drain_part1 F S U b lo 1 = .ok 0)
    | .error e => e = -EINVAL ∧
      ((line_le F a b ∧ drain_part1 F S U a lo 1 = .error (-EINVAL)) ∨
       (line_le F b a ∧ drain_part1 F S U b lo 1 = .error (-EINVAL))) := by
  by_cases hn : strlen lo = 0
  · exact part1_policy_first F S U a b lo w0 l0 hn
  · have hn2 : strlen lo > 0 := by omega
    rcases lt_trichotomy (strcmputil a b F) 0 with hx | hx | hx
    · exact part1_policy_lt F S U a b lo w0 l0 hn2 hx
    · exact part1_policy_eq F S U a b lo w0 l0 hn2 hx
    · exact part1_policy_gt F S U a b lo w0 l0 hn2 hx

/-! ## Lines as C strings -/

theorem is_line_ne_nil (l : List Nat) (h : is_line l) : l ≠ [] := by
  intro e; subst e; simp [is_line] at h

theorem is_line_cstr (l : List Nat) (h : is_line l) : cstr l = l := cstr_eq_self l h.2.2

theorem is_line_strlen (l : List Nat) (h : is_line l) : strlen l = l.length := by
  unfold strlen; rw [is_line_cstr l h]

theorem is_line_length_pos (l : List Nat) (h : is_line l) : 0 < l.length :=
  List.length_pos.mpr (is_line_ne_nil l h)

theorem is_line_copied (l : List Nat) (h : is_line l) : copied l (strlen l) = l := by
  rw [is_line_strlen l h, copied_self]

/-! ## The rule of the drain loops -/

theorem drain_part1_range (F S U : Int) (x lo : List Nat) :
    drain_part1 F S U x lo 1 = .error (-EINVAL) ∨ drain_part1 F S U x lo 1 = .ok 0 ∨
      drain_part1 F S U x lo 1 = .ok 1 := by
  rw [drain_part1_eq]
  split_ifs <;> simp

theorem drain_part1_two (F S U : Int) (x lo : List Nat) :
    drain_part1 F S U x lo 2 =
      match drain_part1 F S U x lo 1 with
      | .error e => .error e
      | .ok w => .ok (2 * w) := by
  rw [drain_part1_eq, drain_part1_eq]
  split_ifs <;> simp

theorem cmp_total (F : Int) (a b : List Nat) : line_le F a b ∨ line_le F b a := by
  unfold line_le
  have := cmp_swap_lt F a b
  omega

theorem interleaved_exists (F : Int) (A B : List (List Nat)) : ∃ M, interleaved F M A B := by
  induction A generalizing B with
  | nil => exact ⟨B, .left_done B⟩
  | cons a A ihA =>
    induction B with
    | nil => exact ⟨a :: A, .right_done _⟩
    | cons b B ihB =>
      rcases cmp_total F a b with h | h
      · obtain ⟨M, hM⟩ := ihA (b :: B)
        exact ⟨a :: M, .left h hM⟩
      · obtain ⟨M, hM⟩ := ihB
        exact ⟨b :: M, .right h hM⟩

/-! ## The drain loops on whole lines -/

theorem line_ops_read1 (w : List (List Nat)) : line_ops.read1 w = read_line := rfl
theorem line_ops_read2 (w : List (List Nat)) : line_ops.read2 w = read_line := rfl
theorem line_ops_line_write : line_ops.line_write = write_line := rfl
theorem line_ops_flush (out : List (List Nat)) : line_ops.flush out = out := rfl
theorem line_ops_copy_to_user (i : Nat) : line_ops.copy_to_user i = 0 := rfl

theorem part2_lines_zero {f1 f2 ft : List (List Nat)} {a b lo : List Nat} {ld e i : Nat}
    {rn : Bool} : part2 line_ops ⟨f1, f2, ft, a, b, lo, ld, 0, e, i, rn⟩ =
      some (.go ⟨f1, f2, ft, a, b, lo, ld, 0, e, i, rn⟩) := by
  simp [part2]

theorem part2_lines_one {f1 f2 ft : List (List Nat)} {a b lo : List Nat} {ld e i : Nat}
    {rn : Bool} (hl : is_line a) : part2 line_ops ⟨f1, f2, ft, a, b, lo, ld, 1, e, i, rn⟩ =
      some (.go ⟨f1, f2, ft ++ [a], a, b, a, ld, 1, e, i + 1, rn⟩) := by
  have : ¬ ((strlen a : Int) + 1 < 0) := by omega
  simp [part2, line_ops_line_write, write_line, is_line_copied _ hl, is_line_cstr _ hl, this]

theorem part2_lines_two {f1 f2 ft : List (List Nat)} {a b lo : List Nat} {ld e i : Nat}
    {rn : Bool} (hl : is_line b) : part2 line_ops ⟨f1, f2, ft, a, b, lo, ld, 2, e, i, rn⟩ =
      some (.go ⟨f1, f2, ft ++ [b], a, b, b, ld, 2, e, i + 1, rn⟩) := by
  have : ¬ ((strlen b : Int) + 1 < 0) := by omega
  simp [part2, line_ops_line_write, write_line, is_line_copied _ hl, is_line_cstr _ hl, this]

theorem read_line_nil (buf : List Nat) : read_line [] buf = some (0, buf, []) := rfl

theorem read_line_cons (x : List Nat) (r : List (List Nat)) (buf : List Nat) (hx : is_line x) :
    read_line (x :: r) buf = some ((x.length : Int), x, r) := by
  simp [read_line, is_line_cstr x hx]

theorem filter_lines_error {F S U : Int} {lo x : List Nat} (xs : List (List Nat))
    (h : drain_part1 F S U x lo 1 = .error (-EINVAL)) :
    filter_lines F S U lo (x :: xs) = .error (-EINVAL) := by
  simp [filter_lines, h]

theorem filter_lines_skip {F S U : Int} {lo x : List Nat} (xs : List (List Nat))
    (h : drain_part1 F S U x lo 1 = .ok 0) :
    filter_lines F S U lo (x :: xs) = filter_lines F S U lo xs := by
  simp [filter_lines, h]

theorem filter_lines_keep {F S U : Int} {lo x : List Nat} (xs : List (List Nat))
    (h : drain_part1 F S U x lo 1 = .ok 1) :
    filter_lines F S U lo (x :: xs) = (filter_lines F S U x xs).map (fun E => x :: E) := by
  simp [filter_lines, h]

theorem drain1_lines (F S U : Int) : ∀ (fuel : Nat) (s : lstate), is_line s.inbuf1 →
    (∀ l ∈ s.file_in1, is_line l) → s.file_in1.length < fuel →
    ∃ t, drain1 line_ops F S U fuel s = some t ∧
      match filter_lines F S U s.lastout (s.inbuf1 :: s.file_in1) with
      | .error e => e = -EINVAL ∧ ∃ u, t = .OUT e u ∧ u.renamed = s.renamed
      | .ok E => ∃ u, t = .go u ∧ u.file_temp = s.file_temp ++ E ∧ u.i = s.i + E.length ∧
          u.empty = s.empty ∧ u.renamed = s.renamed := by
  intro fuel
  induction fuel with
  | zero => intro s _ _ h; omega
  | succ n ih =>
    rintro ⟨f1, f2, ft, a, b, lo, ld, w, e, i, rn⟩ h1 h2 hf
    simp only at h1 h2 hf ⊢
    rcases drain_part1_range F S U a lo with hp | hp | hp
    · simp [drain1, drain1_body, filter_lines_error _ hp, hp]
    · rw [filter_lines_skip _ hp]
      rcases f1 with _ | ⟨x, r⟩
      · simp [drain1, drain1_body, filter_lines, hp, line_ops_read1, read_line_nil]
      · have hx : is_line x := h2 x (by simp)
        have hxl := is_line_length_pos x hx
        have hr : ∀ l ∈ r, is_line l := fun l hl => h2 l (by simp [hl])
        obtain ⟨t, ht, hm⟩ := ih ⟨r, f2, ft, x, b, lo, ld, 0, e, i, rn⟩ hx hr
          (by simpa using hf)
        refine ⟨t, ?_, hm⟩
        simp [drain1, drain1_body, hp, line_ops_read1, read_line_cons _ _ _ hx, hxl]
        exact ht
    · rw [filter_lines_keep _ hp]
      rcases f1 with _ | ⟨x, r⟩
      · simp [drain1, drain1_body, filter_lines, hp, line_ops_read1, read_line_nil,
          part2_lines_one h1, Except.map]
      · have hx : is_line x := h2 x (by simp)
        have hxl := is_line_length_pos x hx
        have hr : ∀ l ∈ r, is_line l := fun l hl => h2 l (by simp [hl])
        obtain ⟨t, ht, hm⟩ := ih ⟨r, f2, ft ++ [a], x, b, a, ld, 1, e, i + 1, rn⟩ hx hr
          (by simpa using hf)
        refine ⟨t, ?_, ?_⟩
        · simp [drain1, drain1_body, hp, line_ops_read1, read_line_cons _ _ _ hx, hxl,
            part2_lines_one h1]
          exact ht
        · simp only at hm
          cases hfl : filter_lines F S U a (x :: r) with
          | error e2 => simpa [hfl, Except.map] using hm
          | ok E =>
            simp only [hfl, Except.map] at hm ⊢
            obtain ⟨u, hu1, hu2, hu3, hu4⟩ := hm
            exact ⟨u, hu1, by simp [hu2], by simp [hu3]; omega, hu4⟩

theorem drain2_lines (F S U : Int) : ∀ (fuel : Nat) (s : lstate), is_line s.inbuf2 →
    (∀ l ∈ s.file_in2, is_line l) → s.file_in2.length < fuel →
    ∃ t, drain2 line_ops F S U fuel s = some t ∧
      match filter_lines F S U s.lastout (s.inbuf2 :: s.file_in2) with
      | .error e => e = -EINVAL ∧ ∃ u, t = .OUT e u ∧ u.renamed = s.renamed
      | .ok E => ∃ u, t = .go u ∧ u.file_temp = s.file_temp ++ E ∧ u.i = s.i + E.length ∧
          u.empty = s.empty ∧ u.renamed = s.renamed := by
  intro fuel
  induction fuel with
  | zero => intro s _ _ h; omega
  | succ n ih =>
    rintro ⟨f1, f2, ft, a, b, lo, ld, w, e, i, rn⟩ h1 h2 hf
    have h12 := drain_part1_two F S U b lo
    simp only at h1 h2 hf ⊢
    rcases drain_part1_range F S U b lo with hp | hp | hp <;> simp only [hp] at h12
    · simp [drain2, drain2_body, filter_lines_error _ hp, h12, hp, h12]
    · rw [filter_lines_skip _ hp]
      rcases f2 with _ | ⟨x, r⟩
      · simp [drain2, drain2_body, filter_lines, hp, h12, line_ops_read2, read_line_nil]
      · have hx : is_line x := h2 x (by simp)
        have hxl := is_line_length_pos x hx
        have hr : ∀ l ∈ r, is_line l := fun l hl => h2 l (by simp [hl])
        obtain ⟨t, ht, hm⟩ := ih ⟨f1, r, ft, a, x, lo, ld, 0, e, i, rn⟩ hx hr
          (by simpa using hf)
        refine ⟨t, ?_, hm⟩
        simp [drain2, drain2_body, hp, h12, line_ops_read2, read_line_cons _ _ _ hx, hxl]
        exact ht
    · rw [filter_lines_keep _ hp]
      rcases f2 with _ | ⟨x, r⟩
      · simp [drain2, drain2_body, filter_lines, hp, h12, line_ops_read2, read_line_nil,
          part2_lines_two h1, Except.map]
      · have hx : is_line x := h2 x (by simp)
        have hxl := is_line_length_pos x hx
        have hr : ∀ l ∈ r, is_line l := fun l hl => h2 l (by simp [hl])
        obtain ⟨t, ht, hm⟩ := ih ⟨f1, r, ft ++ [b], a, x, b, ld, 2, e, i + 1, rn⟩ hx hr
          (by simpa using hf)
        refine ⟨t, ?_, ?_⟩
        · simp [drain2, drain2_body, hp, h12, line_ops_read2, read_line_cons _ _ _ hx, hxl,
            part2_lines_two h1]
          exact ht
        · simp only at hm
          cases hfl : filter_lines F S U b (x :: r) with
          | error e2 => simpa [hfl, Except.map] using hm
          | ok E =>
            simp only [hfl, Except.map] at hm ⊢
            obtain ⟨u, hu1, hu2, hu3, hu4⟩ := hm
            exact ⟨u, hu1, by simp [hu2], by simp [hu3]; omega, hu4⟩

/-! ## The whole run on whole lines -/

theorem run_matches_keep {F S U : Int} {lo x : List Nat} {M out : List (List Nat)} {i : Nat}
    {r : Int × lstate} (h : drain_part1 F S U x lo 1 = .ok 1)
    (hr : run_matches F S U x M (out ++ [x]) (i + 1) r) :
    run_matches F S U lo (x :: M) out i r := by
  unfold run_matches at *
  rw [filter_lines_keep _ h]
  cases hfl : filter_lines F S U x M with
  | error e => simpa [hfl, Except.map] using hr
  | ok E =>
    simp only [hfl, Except.map] at hr ⊢
    obtain ⟨h1, h2, h3, h4⟩ := hr
    exact ⟨h1, by simp [h2], by simp [h3]; omega, h4⟩

theorem run_matches_skip {F S U : Int} {lo x : List Nat} {M out : List (List Nat)} {i : Nat}
    {r : Int × lstate} (h : drain_part1 F S U x lo 1 = .ok 0)
    (hr : run_matches F S U lo M out i r) :
    run_matches F S U lo (x :: M) out i r := by
  unfold run_matches at *
  rw [filter_lines_skip _ h]
  exact hr

theorem run_matches_error {F S U : Int} {lo x : List Nat} {M out : List (List Nat)} {i : Nat}
    {r : Int × lstate} (h : drain_part1 F S U x lo 1 = .error (-EINVAL))
    (hr : r.1 = -EINVAL) (hn : r.2.renamed = false) :
    run_matches F S U lo (x :: M) out i r := by
  unfold run_matches
  rw [filter_lines_error _ h]
  exact ⟨hr, rfl, hn⟩

theorem drain_phase_file1 (F S U : Int) (fuel : Nat) (s : lstate) (he : s.empty = 2)
    (h1 : is_line s.inbuf1) (h2 : ∀ l ∈ s.file_in1, is_line l) (hf : s.file_in1.length < fuel)
    (hrn : s.renamed = false) :
    ∃ r, drain_phase line_ops F S U fuel s = some r ∧
      run_matches F S U s.lastout (s.inbuf1 :: s.file_in1) s.file_temp s.i r := by
  obtain ⟨t, ht, hm⟩ := drain1_lines F S U fuel s h1 h2 hf
  unfold run_matches
  cases hfl : filter_lines F S U s.lastout (s.inbuf1 :: s.file_in1) with
  | error e =>
    simp only [hfl] at hm
    obtain ⟨he2, u, hu, hu2⟩ := hm
    subst hu
    exact ⟨(e, u), by simp [drain_phase, he, ht], rfl, he2, by simp [hu2, hrn]⟩
  | ok E =>
    simp only [hfl] at hm
    obtain ⟨u, hu, hu1, hu2, hu3, hu4⟩ := hm
    subst hu
    refine ⟨finish line_ops u, ?_, ?_⟩
    · simp [drain_phase, he, ht, hu3]
    · simp [finish, line_ops_flush, line_ops_copy_to_user, hu1, hu2]

theorem drain_phase_file2 (F S U : Int) (fuel : Nat) (s : lstate) (he : s.empty = 1)
    (h1 : is_line s.inbuf2) (h2 : ∀ l ∈ s.file_in2, is_line l) (hf : s.file_in2.length < fuel)
    (hrn : s.renamed = false) :
    ∃ r, drain_phase line_ops F S U fuel s = some r ∧
      run_matches F S U s.lastout (s.inbuf2 :: s.file_in2) s.file_temp s.i r := by
  obtain ⟨t, ht, hm⟩ := drain2_lines F S U fuel s h1 h2 hf
  unfold run_matches
  cases hfl : filter_lines F S U s.lastout (s.inbuf2 :: s.file_in2) with
  | error e =>
    simp only [hfl] at hm
    obtain ⟨he2, u, hu, hu2⟩ := hm
    subst hu
    exact ⟨(e, u), by simp [drain_phase, he, ht], rfl, he2, by simp [hu2, hrn]⟩
  | ok E =>
    simp only [hfl] at hm
    obtain ⟨u, hu, hu1, hu2, hu3, hu4⟩ := hm
    subst hu
    refine ⟨finish line_ops u, ?_, ?_⟩
    · simp [drain_phase, he, ht, hu3]
    · simp [finish, line_ops_flush, line_ops_copy_to_user, hu1, hu2]

theorem merge_phase_lines (F S U : Int) (fuel2 : Nat) : ∀ (fuel1 : Nat) (s : lstate),
    s.empty = 0 → is_line s.inbuf1 → is_line s.inbuf2 →
    (∀ l ∈ s.file_in1, is_line l) → (∀ l ∈ s.file_in2, is_line l) →
    s.file_in1.length + s.file_in2.length < fuel1 →
    s.file_in1.length + s.file_in2.length < fuel2 → s.renamed = false →
    ∃ M r, interleaved F M (s.inbuf1 :: s.file_in1) (s.inbuf2 :: s.file_in2) ∧
      merge_phase line_ops F S U fuel1 fuel2 s = some r ∧
      run_matches F S U s.lastout M s.file_temp s.i r := by
  intro fuel1
  induction fuel1 with
  | zero => intro s _ _ _ _ _ h; omega
  | succ n ih =>
    rintro ⟨f1, f2, ft, a, b, lo, ld, w, e, i, rn⟩ he ha hb h1 h2 hf1 hf2 hrn
    simp only at he ha hb h1 h2 hf1 hf2 hrn ⊢
    subst he
    subst hrn
    have hp := part1_policy F S U a b lo w ld
    cases hp1 : part1 F S U a b lo w ld with
    | error err =>
      rw [hp1] at hp
      simp only at hp
      obtain ⟨herr, hcase⟩ := hp
      rcases hcase with ⟨hle, hd⟩ | ⟨hle, hd⟩
      · obtain ⟨M0, hM0⟩ := interleaved_exists F f1 (b :: f2)
        refine ⟨a :: M0, (err, ⟨f1, f2, ft, a, b, lo, ld, w, 0, i, false⟩), .left hle hM0, ?_,
          run_matches_error hd herr rfl⟩
        simp [merge_phase, main_loop, loop_body, hp1]
      · obtain ⟨M0, hM0⟩ := interleaved_exists F (a :: f1) f2
        refine ⟨b :: M0, (err, ⟨f1, f2, ft, a, b, lo, ld, w, 0, i, false⟩), .right hle hM0, ?_,
          run_matches_error hd herr rfl⟩
        simp [merge_phase, main_loop, loop_body, hp1]
    | ok p =>
      obtain ⟨w', l'⟩ := p
      rw [hp1] at hp
      simp only at hp
      rcases hp with ⟨rfl, hw, hle, hd⟩ | ⟨rfl, hw, hle, hd⟩ | ⟨rfl, rfl, heq, hda, hdb⟩
      · rcases hw with rfl | rfl
        · rcases f1 with _ | ⟨x, r⟩
          · obtain ⟨r, hr, hm⟩ := drain_phase_file2 F S U fuel2
              ⟨[], f2, ft, a, b, lo, 1, 0, 1, i, false⟩ rfl hb h2 (by simpa using hf2) rfl
            refine ⟨a :: b :: f2, r, .left hle (.left_done _), ?_, run_matches_skip hd hm⟩
            simp [merge_phase, main_loop, loop_body, hp1, part2_lines_zero, part3,
              line_ops_read1, read_line_nil]
            exact hr
          · have hx : is_line x := h1 x (by simp)
            have hxl := is_line_length_pos x hx
            have hxs : ∀ l ∈ r, is_line l := fun l hl => h1 l (by simp [hl])
            obtain ⟨M, q, hM, hq, hm⟩ := ih ⟨r, f2, ft, x, b, lo, 1, 0, 0, i, false⟩ rfl hx hb hxs h2
              (by simp at hf1 ⊢; omega) (by simp at hf2 ⊢; omega) rfl
            refine ⟨a :: M, q, .left hle hM, ?_, run_matches_skip hd hm⟩
            simp [merge_phase, main_loop, loop_body, hp1, part2_lines_zero, part3, part3_file2,
              line_ops_read1, read_line_cons _ _ _ hx, hxl, is_line_ne_nil _ hx]
            simpa [merge_phase] using hq
        · rcases f1 with _ | ⟨x, r⟩
          · obtain ⟨r, hr, hm⟩ := drain_phase_file2 F S U fuel2
              ⟨[], f2, ft ++ [a], a, b, a, 1, 1, 1, i + 1, false⟩ rfl hb h2 (by simpa using hf2) rfl
            refine ⟨a :: b :: f2, r, .left hle (.left_done _), ?_, run_matches_keep hd hm⟩
            simp [merge_phase, main_loop, loop_body, hp1, part2_lines_one ha, part3,
              line_ops_read1, read_line_nil]
            exact hr
          · have hx : is_line x := h1 x (by simp)
            have hxl := is_line_length_pos x hx
            have hxs : ∀ l ∈ r, is_line l := fun l hl => h1 l (by simp [hl])
            obtain ⟨M, q, hM, hq, hm⟩ := ih ⟨r, f2, ft ++ [a], x, b, a, 1, 1, 0, i + 1, false⟩
              rfl hx hb hxs h2 (by simp at hf1 ⊢; omega) (by simp at hf2 ⊢; omega) rfl
            refine ⟨a :: M, q, .left hle hM, ?_, run_matches_keep hd hm⟩
            simp [merge_phase, main_loop, loop_body, hp1, part2_lines_one ha, part3, part3_file2,
              line_ops_read1, read_line_cons _ _ _ hx, hxl, is_line_ne_nil _ hx]
            simpa [merge_phase] using hq
      · rcases hw with rfl | rfl
        · rcases f2 with _ | ⟨x, r⟩
          · obtain ⟨r, hr, hm⟩ := drain_phase_file1 F S U fuel2
              ⟨f1, [], ft, a, b, lo, 2, 0, 2, i, false⟩ rfl ha h1 (by simpa using hf2) rfl
            refine ⟨b :: a :: f1, r, .right hle (.right_done _), ?_, run_matches_skip hd hm⟩
            simp [merge_phase, main_loop, loop_body, hp1, part2_lines_zero, part3, part3_file2,
              line_ops_read2, read_line_nil]
            exact hr
          · have hx : is_line x := h2 x (by simp)
            have hxl := is_line_length_pos x hx
            have hxs : ∀ l ∈ r, is_line l := fun l hl => h2 l (by simp [hl])
            obtain ⟨M, q, hM, hq, hm⟩ := ih ⟨f1, r, ft, a, x, lo, 2, 0, 0, i, false⟩ rfl ha hx h1 hxs
              (by simp at hf1 ⊢; omega) (by simp at hf2 ⊢; omega) rfl
            refine ⟨b :: M, q, .right hle hM, ?_, run_matches_skip hd hm⟩
            simp [merge_phase, main_loop, loop_body, hp1, part2_lines_zero, part3, part3_file2,
              line_ops_read2, read_line_cons _ _ _ hx, hxl, is_line_ne_nil _ hx]
            simpa [merge_phase] using hq
        · rcases f2 with _ | ⟨x, r⟩
          · obtain ⟨r, hr, hm⟩ := drain_phase_file1 F S U fuel2
              ⟨f1, [], ft ++ [b], a, b, b, 2, 2, 2, i + 1, false⟩ rfl ha h1 (by simpa using hf2) rfl
            refine ⟨b :: a :: f1, r, .right hle (.right_done _), ?_, run_matches_keep hd hm⟩
            simp [merge_phase, main_loop, loop_body, hp1, part2_lines_two hb, part3, part3_file2,
              line_ops_read2, read_line_nil]
            exact hr
          · have hx : is_line x := h2 x (by simp)
            have hxl := is_line_length_pos x hx
            have hxs : ∀ l ∈ r, is_line l := fun l hl => h2 l (by simp [hl])
            obtain ⟨M, q, hM, hq, hm⟩ := ih ⟨f1, r, ft ++ [b], a, x, b, 2, 2, 0, i + 1, false⟩
              rfl ha hx h1 hxs (by simp at hf1 ⊢; omega) (by simp at hf2 ⊢; omega) rfl
            refine ⟨b :: M, q, .right hle hM, ?_, run_matches_keep hd hm⟩
            simp [merge_phase, main_loop, loop_body, hp1, part2_lines_two hb, part3, part3_file2,
              line_ops_read2, read_line_cons _ _ _ hx, hxl, is_line_ne_nil _ hx]
            simpa [merge_phase] using hq
      · have hle : line_le F a b := by unfold line_le; omega
        rcases f1 with _ | ⟨x, r⟩
        · obtain ⟨r, hr, hm⟩ := drain_phase_file2 F S U fuel2
            ⟨[], f2, ft, a, b, lo, 0, 0, 1, i, false⟩ rfl hb h2 (by simpa using hf2) rfl
          refine ⟨a :: b :: f2, r, .left hle (.left_done _), ?_, run_matches_skip hda hm⟩
          simp [merge_phase, main_loop, loop_body, hp1, part2_lines_zero, part3,
            line_ops_read1, read_line_nil]
          exact hr
        · have hx : is_line x := h1 x (by simp)
          have hxl := is_line_length_pos x hx
          have hxs : ∀ l ∈ r, is_line l := fun l hl => h1 l (by simp [hl])
          rcases f2 with _ | ⟨y, r2⟩
          · obtain ⟨q, hq, hm⟩ := drain_phase_file1 F S U fuel2
              ⟨r, [], ft, x, b, lo, 0, 0, 2, i, false⟩ rfl hx hxs (by simp at hf2 ⊢; omega) rfl
            refine ⟨a :: b :: x :: r, q, .both heq (.right_done _), ?_,
              run_matches_skip hda (run_matches_skip hdb hm)⟩
            simp [merge_phase, main_loop, loop_body, hp1, part2_lines_zero, part3, part3_file2,
              line_ops_read1, line_ops_read2, read_line_cons _ _ _ hx, hxl, is_line_ne_nil _ hx, read_line_nil]
            exact hq
          · have hy : is_line y := h2 y (by simp)
            have hyl := is_line_length_pos y hy
            have hys : ∀ l ∈ r2, is_line l := fun l hl => h2 l (by simp [hl])
            obtain ⟨M, q, hM, hq, hm⟩ := ih ⟨r, r2, ft, x, y, lo, 0, 0, 0, i, false⟩
              rfl hx hy hxs hys (by simp at hf1 ⊢; omega) (by simp at hf2 ⊢; omega) rfl
            refine ⟨a :: b :: M, q, .both heq hM, ?_,
              run_matches_skip hda (run_matches_skip hdb hm)⟩
            simp [merge_phase, main_loop, loop_body, hp1, part2_lines_zero, part3, part3_file2,
              line_ops_read1, line_ops_read2, read_line_cons _ _ _ hx, hxl, is_line_ne_nil _ hx,
              read_line_cons _ _ _ hy, hyl, is_line_ne_nil _ hy]
            simpa [merge_phase] using hq

/-- The run on two empty files: the second initial read sets `empty = 2`, and the drain loop of
file 1 is entered with the line buffer of file 1 as it was allocated. PART 1 of the drain loop
compares it with `lastout` as it was allocated; when it says to write, the buffer is written as a
line and counted. -/
theorem xmergesort_lines_empty (flags : Nat) (m : heap) :
    xmergesort_lines flags m [] [] =
      match drain_part1 (INSEN_FLAG flags) (SORT_FLAG flags) (UNIQ_FLAG flags) m.inbuf1
          m.lastout 1 with
      | .error e => some (e, ⟨[], [], [], m.inbuf1, m.inbuf2, m.lastout, 0, 0, 2, 0, false⟩)
      | .ok w =>
        if w = 1 then
          some (0, ⟨[], [], [copied m.inbuf1 (strlen m.inbuf1)], m.inbuf1, m.inbuf2,
            cstr m.inbuf1, 0, 1, 2, 1, true⟩)
        else some (0, ⟨[], [], [], m.inbuf1, m.inbuf2, m.lastout, 0, w, 2, 0, true⟩) := by
  simp only [xmergesort_lines, xmergesort, initial_reads, line_ops_read1, line_ops_read2,
    read_line_nil, lt_irrefl, if_false, le_refl, if_true, merge_phase, main_loop,
    List.length_nil, OfNat.ofNat_ne_zero, drain_phase, drain1, drain1_body]
  cases hd : drain_part1 (INSEN_FLAG flags) (SORT_FLAG flags) (UNIQ_FLAG flags) m.inbuf1
      m.lastout 1 with
  | error e => simp
  | ok w =>
    have hn : ¬ ((strlen m.inbuf1 : Int) + 1 < 0) := by omega
    by_cases hw : w = 1
    · subst hw
      simp [part2, line_ops, write_line, read_line, finish, hn, drain2]
    · simp [hw, line_ops, read_line, finish, drain2]

/-- The run on two empty files when `lastout` holds the empty string at the start: the line
buffer of file 1, which holds no line of a file, is written and counted. -/
theorem xmergesort_lines_empty_clean (flags : Nat) (m : heap) (h : strlen m.lastout = 0) :
    xmergesort_lines flags m [] [] =
      some (0, ⟨[], [], [copied m.inbuf1 (strlen m.inbuf1)], m.inbuf1, m.inbuf2,
        cstr m.inbuf1, 0, 1, 2, 1, true⟩) := by
  rw [xmergesort_lines_empty, drain_part1_eq]
  simp [h]

/-- The run on two files of lines, one of them at least not empty: the lines are taken in an
order `M` that interleaves the files, and written as `filter_lines` says. -/
theorem xmergesort_lines_spec (flags : Nat) (m : heap) (A B : List (List Nat))
    (hA : ∀ l ∈ A, is_line l) (hB : ∀ l ∈ B, is_line l) (hne : A ≠ [] ∨ B ≠ []) :
    ∃ M r, interleaved (INSEN_FLAG flags) M A B ∧ xmergesort_lines flags m A B = some r ∧
      run_matches (INSEN_FLAG flags) (SORT_FLAG flags) (UNIQ_FLAG flags) m.lastout M [] 0
        r := by
  rcases A with _ | ⟨a, A⟩
  · rcases B with _ | ⟨b, B⟩
    · simp at hne
    · have hb : is_line b := hB b (by simp)
      have hbs : ∀ l ∈ B, is_line l := fun l hl => hB l (by simp [hl])
      obtain ⟨r, hr, hm⟩ := drain_phase_file2 (INSEN_FLAG flags) (SORT_FLAG flags)
        (UNIQ_FLAG flags) (B.length + 1 + 1) ⟨[], B, [], m.inbuf1, b, m.lastout, 0, 0, 1, 0, false⟩ rfl hb hbs
        (by simp; omega) rfl
      refine ⟨b :: B, r, .left_done _, ?_, hm⟩
      simp [xmergesort_lines, xmergesort, initial_reads, line_ops_read1, line_ops_read2,
        read_line_nil, read_line_cons _ _ _ hb, is_line_ne_nil _ hb, merge_phase, main_loop]
      exact hr
  · have ha : is_line a := hA a (by simp)
    have has : ∀ l ∈ A, is_line l := fun l hl => hA l (by simp [hl])
    rcases B with _ | ⟨b, B⟩
    · obtain ⟨r, hr, hm⟩ := drain_phase_file1 (INSEN_FLAG flags) (SORT_FLAG flags)
        (UNIQ_FLAG flags) (A.length + 1 + 1) ⟨A, [], [], a, m.inbuf2, m.lastout, 0, 0, 2, 0, false⟩ rfl ha has
        (by simp; omega) rfl
      refine ⟨a :: A, r, .right_done _, ?_, hm⟩
      simp [xmergesort_lines, xmergesort, initial_reads, line_ops_read1, line_ops_read2,
        read_line_nil, read_line_cons _ _ _ ha, is_line_ne_nil _ ha, merge_phase, main_loop]
      exact hr
    · have hb : is_line b := hB b (by simp)
      have hbs : ∀ l ∈ B, is_line l := fun l hl => hB l (by simp [hl])
      obtain ⟨M, r, hM, hr, hm⟩ := merge_phase_lines (INSEN_FLAG flags) (SORT_FLAG flags)
        (UNIQ_FLAG flags) (A.length + 1 + (B.length + 1) + 1) (A.length + 1 + (B.length + 1) + 1)
        ⟨A, B, [], a, b, m.lastout, 0, 0, 0, 0, false⟩ rfl ha hb has hbs
        (by simp; omega) (by simp; omega) rfl
      refine ⟨M, r, hM, ?_, hm⟩
      simp [xmergesort_lines, xmergesort, initial_reads, line_ops_read1, line_ops_read2,
        read_line_cons _ _ _ ha, is_line_ne_nil _ ha, read_line_cons _ _ _ hb,
        is_line_ne_nil _ hb]
      exact hr

/-! ## Interleavings -/

theorem interleaved_head {F : Int} {M A B : List (List Nat)} (h : interleaved F M A B) :
    ∀ x ∈ M.head?, x ∈ A.head? ∨ x ∈ B.head? := by
  cases h <;> simp

theorem interleaved_perm {F : Int} {M A B : List (List Nat)} (h : interleaved F M A B) :
    M.Perm (A ++ B) := by
  induction h with
  | left_done B => simp
  | right_done A => simp
  | left _ _ ih => simp [ih]
  | @right M A B a b _ _ ih =>
    have h1 : (b :: M).Perm (b :: (a :: A ++ B)) := List.Perm.cons b ih
    have h2 : (a :: A ++ b :: B).Perm (b :: (a :: A ++ B)) :=
      @List.perm_middle _ b (a :: A) B
    exact h1.trans h2.symm
  | @both M A B a b _ _ ih =>
    have h1 : (a :: b :: M).Perm (a :: b :: (A ++ B)) := (ih.cons b).cons a
    have h2 : (a :: A ++ b :: B).Perm (a :: b :: (A ++ B)) :=
      List.Perm.cons a (@List.perm_middle _ b A B)
    exact h1.trans h2.symm

theorem interleaved_sublist {F : Int} {M A B : List (List Nat)} (h : interleaved F M A B) :
    A.Sublist M ∧ B.Sublist M := by
  induction h with
  | left_done B => simp
  | right_done A => simp
  | left _ _ ih => exact ⟨ih.1.cons₂ _, ih.2.cons _⟩
  | right _ _ ih => exact ⟨ih.1.cons _, ih.2.cons₂ _⟩
  | both _ _ ih => exact ⟨(ih.1.cons _).cons₂ _, (ih.2.cons₂ _).cons _⟩

instance line_le_trans (F : Int) : IsTrans (List Nat) (line_le F) :=
  ⟨fun a b c h1 h2 => cmp_le_trans F a b c h1 h2⟩

theorem interleaved_sorted {F : Int} {M A B : List (List Nat)} (h : interleaved F M A B)
    (hA : A.Chain' (line_le F)) (hB : B.Chain' (line_le F)) : M.Chain' (line_le F) := by
  induction h with
  | left_done B => exact hB
  | right_done A => exact hA
  | @left M A B a b hle hM ih =>
    rw [List.chain'_cons'] at hA ⊢
    refine ⟨fun y hy => ?_, ih hA.2 hB⟩
    rcases interleaved_head hM y hy with h1 | h1
    · exact hA.1 y h1
    · simp at h1; subst h1; exact hle
  | @right M A B a b hle hM ih =>
    rw [List.chain'_cons'] at hB ⊢
    refine ⟨fun y hy => ?_, ih hA hB.2⟩
    rcases interleaved_head hM y hy with h1 | h1
    · simp at h1; subst h1; exact hle
    · exact hB.1 y h1
  | @both M A B a b heq hM ih =>
    rw [List.chain'_cons'] at hA hB
    have hab : line_le F a b := by unfold line_le; omega
    have hba : line_le F b a := by
      have := (cmp_swap_eq F a b).mpr heq
      unfold line_le; omega
    rw [List.chain'_cons', List.chain'_cons']
    refine ⟨fun y hy => ?_, fun y hy => ?_, ih hA.2 hB.2⟩
    · simp at hy; subst hy; exact hab
    · rcases interleaved_head hM y hy with h1 | h1
      · exact cmp_le_trans F _ _ _ hba (hA.1 y h1)
      · exact hB.1 y h1

theorem sorted_of_interleaved_sorted {F : Int} {M A B : List (List Nat)}
    (h : interleaved F M A B) (hM : M.Chain' (line_le F)) :
    A.Chain' (line_le F) ∧ B.Chain' (line_le F) := by
  have hs := interleaved_sublist h
  rw [List.chain'_iff_pairwise] at hM ⊢
  rw [List.chain'_iff_pairwise]
  exact ⟨hM.sublist hs.1, hM.sublist hs.2⟩

/-! ## What `filter_lines` writes -/

theorem filter_lines_all {F S U : Int} (hU : U ≠ 1) : ∀ (M : List (List Nat)) (lo : List Nat),
    M.Chain' (line_le F) → (strlen lo = 0 ∨ ∀ x ∈ M.head?, line_le F lo x) →
    filter_lines F S U lo M = .ok M := by
  intro M
  induction M with
  | nil => intro lo _ _; rfl
  | cons x M ih =>
    intro lo hM hlo
    rw [List.chain'_cons'] at hM
    have hk : drain_part1 F S U x lo 1 = .ok 1 := by
      rw [drain_part1_eq]
      rcases hlo with h | h
      · simp [h]
      · have h2 := h x (by simp)
        unfold line_le at h2
        have h3 := cmp_swap_lt F lo x
        have h4 : ¬ strcmputil x lo F < 0 := by omega
        simp [h4, hU]
    rw [filter_lines_keep _ hk, ih x hM.2 (Or.inr hM.1)]
    rfl

theorem filter_lines_nosort {F U : Int} : ∀ (M : List (List Nat)) (lo : List Nat),
    ∃ E, filter_lines F 0 U lo M = .ok E := by
  intro M
  induction M with
  | nil => intro lo; exact ⟨[], rfl⟩
  | cons x M ih =>
    intro lo
    rcases drain_part1_range F 0 U x lo with h | h | h
    · rw [drain_part1_eq] at h
      split_ifs at h
      all_goals simp_all
    · rw [filter_lines_skip _ h]; exact ih lo
    · rw [filter_lines_keep _ h]
      obtain ⟨E, hE⟩ := ih x
      exact ⟨x :: E, by rw [hE]; rfl⟩

theorem filter_lines_sorted_of_ok {F S U : Int} (hS : S ≠ 0) :
    ∀ (M : List (List Nat)) (lo : List Nat) (E : List (List Nat)), (∀ l ∈ M, is_line l) →
    filter_lines F S U lo M = .ok E →
    M.Chain' (line_le F) ∧ (strlen lo > 0 → ∀ x ∈ M.head?, line_le F lo x) := by
  intro M
  induction M with
  | nil => intro lo E _ _; simp
  | cons x M ih =>
    intro lo E hl hE
    have hx : is_line x := hl x (by simp)
    have hxs : ∀ l ∈ M, is_line l := fun l h => hl l (by simp [h])
    have hxl : strlen x > 0 := by
      rw [is_line_strlen x hx]; exact is_line_length_pos x hx
    have hge : strlen lo > 0 → line_le F lo x := by
      intro hlo
      have h3 := cmp_swap_lt F lo x
      unfold line_le
      by_contra hc
      have h4 : strcmputil x lo F < 0 := by omega
      have : drain_part1 F S U x lo 1 = .error (-EINVAL) := by
        rw [drain_part1_eq]
        have h5 : ¬ strcmputil x lo F > 0 := by omega
        have h6 : strlen lo ≠ 0 := by omega
        simp [h4, h5, h6, hS]
      rw [filter_lines_error _ this] at hE
      exact absurd hE (by simp)
    rcases drain_part1_range F S U x lo with h | h | h
    · rw [filter_lines_error _ h] at hE
      exact absurd hE (by simp)
    · rw [filter_lines_skip _ h] at hE
      obtain ⟨h1, h2⟩ := ih lo E hxs hE
      have hlo : strlen lo > 0 ∧ strcmputil x lo F = 0 := by
        rw [drain_part1_eq] at h
        split_ifs at h with c1 c2 c3 <;> simp_all
        omega
      refine ⟨?_, fun hlo2 y hy => ?_⟩
      · rw [List.chain'_cons']
        refine ⟨fun y hy => ?_, h1⟩
        have hxlo : line_le F x lo := by unfold line_le; omega
        exact cmp_le_trans F _ _ _ hxlo (h2 hlo.1 y hy)
      · simp at hy; subst hy; exact hge hlo2
    · rw [filter_lines_keep _ h] at hE
      cases hE2 : filter_lines F S U x M with
      | error e => rw [hE2] at hE; exact absurd hE (by simp [Except.map])
      | ok E2 =>
        obtain ⟨h1, h2⟩ := ih x E2 hxs hE2
        refine ⟨?_, fun hlo2 y hy => ?_⟩
        · rw [List.chain'_cons']
          exact ⟨h2 hxl, h1⟩
        · simp at hy; subst hy; exact hge hlo2

theorem filter_lines_unique {F S : Int} : ∀ (M : List (List Nat)) (lo : List Nat),
    (∀ l ∈ M, is_line l) → M.Chain' (line_le F) →
    (strlen lo = 0 ∨ ∀ x ∈ M.head?, line_le F lo x) →
    ∃ E, filter_lines F S 1 lo M = .ok E ∧ E.Chain' (line_lt F) ∧
      (∀ y ∈ E.head?, strlen lo = 0 ∨ line_lt F lo y) ∧ (∀ y ∈ E, y ∈ M) ∧
      (∀ x ∈ M, (strlen lo > 0 ∧ strcmputil x lo F = 0) ∨ ∃ y ∈ E, strcmputil x y F = 0) := by
  intro M
  induction M with
  | nil => intro lo _ _ _; exact ⟨[], rfl, by simp, by simp, by simp, by simp⟩
  | cons x M ih =>
    intro lo hl hM hlo
    have hx : is_line x := hl x (by simp)
    have hxs : ∀ l ∈ M, is_line l := fun l h => hl l (by simp [h])
    have hxl : strlen x > 0 := by
      rw [is_line_strlen x hx]; exact is_line_length_pos x hx
    rw [List.chain'_cons'] at hM
    have h3 := cmp_swap_lt F lo x
    by_cases hk : strlen lo = 0 ∨ strcmputil x lo F > 0
    · have hd : drain_part1 F S 1 x lo 1 = .ok 1 := by
        rw [drain_part1_eq]; simp [hk]
      obtain ⟨E, hE, hc, hh, hsub, hcov⟩ := ih x hxs hM.2 (Or.inr hM.1)
      refine ⟨x :: E, by rw [filter_lines_keep _ hd, hE]; rfl, ?_, ?_, ?_, ?_⟩
      · rw [List.chain'_cons']
        refine ⟨fun y hy => ?_, hc⟩
        rcases hh y hy with h | h
        · omega
        · exact h
      · intro y hy
        simp at hy; subst hy
        rcases hk with h | h
        · exact Or.inl h
        · right
          have h4 := cmp_swap_lt F x lo
          unfold line_lt; omega
      · intro y hy
        rcases List.mem_cons.mp hy with h | h
        · simp [h]
        · exact List.mem_cons_of_mem _ (hsub y h)
      · intro z hz
        right
        rcases List.mem_cons.mp hz with h | h
        · exact ⟨x, by simp, by rw [h]; exact cmp_self F x⟩
        · rcases hcov z h with ⟨_, h2⟩ | ⟨y, hy, h2⟩
          · exact ⟨x, by simp, h2⟩
          · exact ⟨y, List.mem_cons_of_mem _ hy, h2⟩
    · have hlo2 : strlen lo > 0 := by
        by_contra hc; exact hk (Or.inl (by omega))
      have hle : line_le F lo x := by
        rcases hlo with h | h
        · omega
        · exact h x (by simp)
      have heq : strcmputil x lo F = 0 := by
        unfold line_le at hle
        have : ¬ strcmputil x lo F > 0 := fun h => hk (Or.inr h)
        omega
      have hd : drain_part1 F S 1 x lo 1 = .ok 0 := by
        rw [drain_part1_eq]
        have : strlen lo ≠ 0 := by omega
        simp [heq, this]
      have hxlo : line_le F lo x := hle
      obtain ⟨E, hE, hc, hh, hsub, hcov⟩ := ih lo hxs hM.2
        (Or.inr (fun y hy => cmp_le_trans F _ _ _ hxlo (hM.1 y hy)))
      refine ⟨E, by rw [filter_lines_skip _ hd, hE], hc, hh, ?_, ?_⟩
      · intro y hy; exact List.mem_cons_of_mem _ (hsub y hy)
      · intro z hz
        rcases List.mem_cons.mp hz with h | h
        · left; rw [h]; exact ⟨hlo2, heq⟩
        · exact hcov z h

theorem filter_lines_collapse {F S : Int} : ∀ (M : List (List Nat)) (x : List Nat),
    is_line x → (∀ l ∈ M, is_line l) → (x :: M).Chain' (line_le F) →
    filter_lines F S 1 x M = .ok (collapse_after F x M) := by
  intro M
  induction M with
  | nil => intro x _ _ _; rfl
  | cons y M ih =>
    intro x hx hl hM
    have hxl : strlen x > 0 := by
      rw [is_line_strlen x hx]; exact is_line_length_pos x hx
    rw [List.chain'_cons'] at hM
    have hxy : line_le F x y := hM.1 y (by simp)
    have h3 := cmp_swap_lt F x y
    unfold line_le at hxy
    by_cases heq : strcmputil y x F = 0
    · have hd : drain_part1 F S 1 y x 1 = .ok 0 := by
        rw [drain_part1_eq]
        have : strlen x ≠ 0 := by omega
        simp [heq, this]
      rw [filter_lines_skip _ hd]
      simp only [collapse_after, heq, if_true]
      apply ih x hx (fun l h => hl l (by simp [h]))
      have hM2 := hM.2
      rw [List.chain'_cons'] at hM2 ⊢
      refine ⟨fun z hz => ?_, hM2.2⟩
      exact cmp_le_trans F _ _ _ (by omega) (hM2.1 z hz)
    · have hd : drain_part1 F S 1 y x 1 = .ok 1 := by
        rw [drain_part1_eq]
        have : strcmputil y x F > 0 := by omega
        simp [this]
      rw [filter_lines_keep _ hd]
      simp only [collapse_after, heq, if_false]
      have hy : is_line y := hl y (by simp)
      rw [ih y hy (fun l h => hl l (by simp [h])) hM.2]
      rfl

/-! ## The claims on the merge -/

theorem interleaved_nil_right {F : Int} {M A : List (List Nat)} (h : interleaved F M A []) :
    M = A := by
  cases h <;> rfl

theorem interleaved_nil_left {F : Int} {M B : List (List Nat)} (h : interleaved F M [] B) :
    M = B := by
  cases h <;> rfl

theorem chain_of_split {R : List Nat → List Nat → Prop} :
    ∀ (l1 : List (List Nat)) (x y : List Nat) (l2 : List (List Nat)),
    (l1 ++ x :: y :: l2).Chain' R → R x y := by
  intro l1
  induction l1 with
  | nil => intro x y l2 h; exact (List.chain'_cons.mp h).1
  | cons z l1 ih => intro x y l2 h; exact ih x y l2 (List.Chain'.tail h)

instance line_lt_trans (F : Int) : IsTrans (List Nat) (line_lt F) :=
  ⟨fun a b c h1 h2 => cmp_lt_of_lt_of_le F a b c h1 (by unfold line_lt at h2; omega)⟩

theorem flag_all {flags : Nat} (h : flags &&& F_OUTPUT_UNIQ = 0) : UNIQ_FLAG flags ≠ 1 := by
  simp [UNIQ_FLAG, h]

theorem flag_uniq {flags : Nat} (h : flags &&& F_OUTPUT_UNIQ ≠ 0) : UNIQ_FLAG flags = 1 := by
  simp [UNIQ_FLAG, h]

/-- When `lastout` holds the empty string at the start: for line sequences `A` and `B` that are
each non-decreasing under the active comparator, in mode All (the `-u` bit clear) and without I/O
failure, `xmergesort` returns 0 and the bytes it has written are the concatenation of a sequence
of lines `L` that is a permutation of `A ++ B`, is non-decreasing under the active comparator and
has `|A| + |B|` lines; one of `A` and `B` is not empty. -/
theorem clean_merge_all_sorted (flags : Nat) (m : heap) (A B : List (List Nat))
    (hlo : strlen m.lastout = 0) (hne : A ≠ [] ∨ B ≠ [])
    (hA : ∀ l ∈ A, is_line l) (hB : ∀ l ∈ B, is_line l)
    (hmode : flags &&& F_OUTPUT_UNIQ = 0)
    (sA : A.Chain' (line_le (INSEN_FLAG flags))) (sB : B.Chain' (line_le (INSEN_FLAG flags))) :
    ∃ s, xmergesort_lines flags m A B = some (0, s) ∧
      ∃ L : List (List Nat), s.file_temp.flatten = L.flatten ∧ L.Perm (A ++ B) ∧
        L.Chain' (line_le (INSEN_FLAG flags)) ∧ L.length = A.length + B.length := by
  obtain ⟨M, r, hM, hr, hm⟩ := xmergesort_lines_spec flags m A B hA hB hne
  have hs := interleaved_sorted hM sA sB
  have hp := interleaved_perm hM
  unfold run_matches at hm
  rw [filter_lines_all (flag_all hmode) M m.lastout hs (Or.inl hlo)] at hm
  obtain ⟨e, s⟩ := r
  simp only at hm
  obtain ⟨h1, h2, _, _⟩ := hm
  subst h1
  refine ⟨s, hr, M, by simp [h2], hp, hs, ?_⟩
  simpa using hp.length_eq

/-- When `lastout` holds the empty string at the start: for line sequences `A` and `B` that are
each non-decreasing under the active comparator, in mode Unique (the `-u` bit set) and without
I/O failure, `xmergesort` returns 0 and the bytes it has written are the concatenation of a
sequence of lines `L` in which no two consecutive lines compare equal, which is strictly
increasing, whose lines all come from `A` or `B`, and which holds a line equal under the
comparator to each line of `A` and `B`; one of `A` and `B` is not empty. -/
theorem clean_merge_unique_sorted (flags : Nat) (m : heap) (A B : List (List Nat))
    (hlo : strlen m.lastout = 0) (hne : A ≠ [] ∨ B ≠ [])
    (hA : ∀ l ∈ A, is_line l) (hB : ∀ l ∈ B, is_line l)
    (hmode : flags &&& F_OUTPUT_UNIQ ≠ 0)
    (sA : A.Chain' (line_le (INSEN_FLAG flags))) (sB : B.Chain' (line_le (INSEN_FLAG flags))) :
    ∃ s, xmergesort_lines flags m A B = some (0, s) ∧
      ∃ L : List (List Nat), s.file_temp.flatten = L.flatten ∧
        L.Chain' (fun a b => strcmputil a b (INSEN_FLAG flags) ≠ 0) ∧
        L.Pairwise (line_lt (INSEN_FLAG flags)) ∧
        (∀ y ∈ L, y ∈ A ++ B) ∧
        (∀ x ∈ A ++ B, ∃ y ∈ L, strcmputil x y (INSEN_FLAG flags) = 0) := by
  obtain ⟨M, r, hM, hr, hm⟩ := xmergesort_lines_spec flags m A B hA hB hne
  have hs := interleaved_sorted hM sA sB
  have hp := interleaved_perm hM
  have hl : ∀ l ∈ M, is_line l := by
    intro l h
    rcases List.mem_append.mp (hp.mem_iff.mp h) with h | h
    · exact hA l h
    · exact hB l h
  obtain ⟨E, hE, hc, _, hsub, hcov⟩ :=
    filter_lines_unique (F := INSEN_FLAG flags) (S := SORT_FLAG flags) M m.lastout hl hs
      (Or.inl hlo)
  unfold run_matches at hm
  rw [flag_uniq hmode, hE] at hm
  obtain ⟨e, s⟩ := r
  simp only at hm
  obtain ⟨h1, h2, _, _⟩ := hm
  subst h1
  refine ⟨s, hr, E, by simp [h2], ?_, List.chain'_iff_pairwise.mp hc, ?_, ?_⟩
  · exact hc.imp (fun a b h => by unfold line_lt at h; omega)
  · intro y hy; exact hp.mem_iff.mp (hsub y hy)
  · intro x hx
    rcases hcov x (hp.mem_iff.mpr hx) with ⟨h, _⟩ | h
    · omega
    · exact h

theorem sort_flag_cases (flags : Nat) : SORT_FLAG flags = 0 ∨ SORT_FLAG flags = 1 := by
  unfold SORT_FLAG; split <;> simp

/-- When the line buffers hold the empty string at the start: for
`A = ["apple\n", "banana\n", "cherry\n"]` and `B = ["banana\n", "date\n"]` with the
case-sensitive comparator, mode All writes the five lines apple, banana, banana, cherry, date
and counts 5, and mode Unique writes the four lines apple, banana, cherry, date and counts 4. -/
theorem clean_concrete_scenario (flags : Nat) (hci : flags &&& F_CASE_INSEN = 0) :
    (flags &&& F_OUTPUT_UNIQ = 0 →
      ∃ s, xmergesort_lines flags heap.clean
          [bytes "apple\n", bytes "banana\n", bytes "cherry\n"]
          [bytes "banana\n", bytes "date\n"] = some (0, s) ∧
        s.file_temp = [bytes "apple\n", bytes "banana\n", bytes "banana\n", bytes "cherry\n",
          bytes "date\n"] ∧ s.i = 5) ∧
    (flags &&& F_OUTPUT_UNIQ ≠ 0 →
      ∃ s, xmergesort_lines flags heap.clean
          [bytes "apple\n", bytes "banana\n", bytes "cherry\n"]
          [bytes "banana\n", bytes "date\n"] = some (0, s) ∧
        s.file_temp = [bytes "apple\n", bytes "banana\n", bytes "cherry\n", bytes "date\n"] ∧
        s.i = 4) := by
  have hF : INSEN_FLAG flags = 0 := by simp [INSEN_FLAG, hci]
  constructor
  · intro hU
    have hU2 : UNIQ_FLAG flags = 0 := by simp [UNIQ_FLAG, hU]
    simp only [xmergesort_lines, xmergesort, hF, hU2]
    rcases sort_flag_cases flags with hS | hS <;> rw [hS] <;> exact ⟨_, rfl, rfl, rfl⟩
  · intro hU
    have hU2 : UNIQ_FLAG flags = 1 := by simp [UNIQ_FLAG, hU]
    simp only [xmergesort_lines, xmergesort, hF, hU2]
    rcases sort_flag_cases flags with hS | hS <;> rw [hS] <;> exact ⟨_, rfl, rfl, rfl⟩

/-- When `lastout` holds the empty string at the start: when exactly one input is empty and the
other is a non-empty sequence `X` of lines that is non-decreasing under the active comparator,
`xmergesort` returns 0; in mode All it writes `X` as it is and counts its lines; in mode Unique
it writes `X` with each run of lines that compare equal collapsed to its first line and counts
the lines kept. This holds whichever of the two files is the empty one. -/
theorem clean_one_input_empty (flags : Nat) (m : heap) (X : List (List Nat))
    (hlo : strlen m.lastout = 0) (hX : ∀ l ∈ X, is_line l) (hne : X ≠ [])
    (sX : X.Chain' (line_le (INSEN_FLAG flags))) :
    (∃ s, xmergesort_lines flags m X [] = some (0, s) ∧
      s.file_temp = (if flags &&& F_OUTPUT_UNIQ = 0 then X else collapse (INSEN_FLAG flags) X) ∧
      s.i = s.file_temp.length) ∧
    (∃ s, xmergesort_lines flags m [] X = some (0, s) ∧
      s.file_temp = (if flags &&& F_OUTPUT_UNIQ = 0 then X else collapse (INSEN_FLAG flags) X) ∧
      s.i = s.file_temp.length) := by
  have key : filter_lines (INSEN_FLAG flags) (SORT_FLAG flags) (UNIQ_FLAG flags) m.lastout X =
      .ok (if flags &&& F_OUTPUT_UNIQ = 0 then X else collapse (INSEN_FLAG flags) X) := by
    by_cases hU : flags &&& F_OUTPUT_UNIQ = 0
    · rw [if_pos hU]
      exact filter_lines_all (flag_all hU) X m.lastout sX (Or.inl hlo)
    · rw [if_neg hU, flag_uniq hU]
      rcases X with _ | ⟨x, M⟩
      · exact absurd rfl hne
      · have hx : is_line x := hX x (by simp)
        have hd : drain_part1 (INSEN_FLAG flags) (SORT_FLAG flags) 1 x m.lastout 1 = .ok 1 := by
          rw [drain_part1_eq]; simp [hlo]
        rw [filter_lines_keep _ hd,
          filter_lines_collapse M x hx (fun l h => hX l (by simp [h])) sX]
        rfl
  have hemp : ∀ l ∈ ([] : List (List Nat)), is_line l := by simp
  constructor
  · obtain ⟨M, r, hM, hr, hm⟩ := xmergesort_lines_spec flags m X [] hX hemp (Or.inl hne)
    have := interleaved_nil_right hM
    subst this
    unfold run_matches at hm
    rw [key] at hm
    obtain ⟨e, s⟩ := r
    simp only at hm
    obtain ⟨h1, h2, h3, _⟩ := hm
    subst h1
    exact ⟨s, hr, by simpa using h2, by rw [h3, h2]; simp⟩
  · obtain ⟨M, r, hM, hr, hm⟩ := xmergesort_lines_spec flags m [] X hemp hX (Or.inr hne)
    have := interleaved_nil_left hM
    subst this
    unfold run_matches at hm
    rw [key] at hm
    obtain ⟨e, s⟩ := r
    simp only at hm
    obtain ⟨h1, h2, h3, _⟩ := hm
    subst h1
    exact ⟨s, hr, by simpa using h2, by rw [h3, h2]; simp⟩

/-- C7 (the code departs from the claim): on two empty files, the line buffers holding the empty
string at the start (zero-filled memory), `xmergesort` returns 0 and no byte is written, but the
line counter is 1 and not 0: the second initial read sets `empty = 2` even though file 1 is empty
too, and the `do ... while` drain of file 1 writes and counts the line buffer of file 1, which
holds no line of a file, before it reads. (For other contents of the buffers see
`xmergesort_lines_empty`: the string that the line buffer of file 1 held when it was allocated
is written as a line, or is compared with what `lastout` held.) -/
theorem both_empty_counts_one (flags : Nat) :
    ∃ s, xmergesort_lines flags heap.clean [] [] = some (0, s) ∧ s.file_temp.flatten = [] ∧
      s.i = 1 ∧ s.file_temp = [[]] :=
  ⟨_, xmergesort_lines_empty_clean flags heap.clean rfl, rfl, rfl, rfl⟩

theorem filter_first {F S U : Int} (lo x : List Nat) (M : List (List Nat))
    (hlo : strlen lo = 0) :
    filter_lines F S U lo (x :: M) = (filter_lines F S U x M).map (fun E => x :: E) := by
  have hd : drain_part1 F S U x lo 1 = .ok 1 := by
    rw [drain_part1_eq]; simp [hlo]
  rw [filter_lines_keep _ hd]

theorem filter_pair_equal {F S : Int} {lo x y : List Nat} (hlo : strlen lo = 0)
    (hx : is_line x) (h : strcmputil y x F = 0) : filter_lines F S 1 lo [x, y] = .ok [x] := by
  have hxl : strlen x ≠ 0 := by
    have := is_line_length_pos x hx
    rw [is_line_strlen x hx]; omega
  have hd : drain_part1 F S 1 y x 1 = .ok 0 := by
    rw [drain_part1_eq]; simp [h, hxl]
  rw [filter_first lo x _ hlo, filter_lines_skip _ hd]
  rfl

theorem filter_pair_less {F S U : Int} {lo x y : List Nat} (hlo : strlen lo = 0)
    (h : strcmputil y x F > 0) : filter_lines F S U lo [x, y] = .ok [x, y] := by
  have hd : drain_part1 F S U y x 1 = .ok 1 := by
    rw [drain_part1_eq]; simp [h]
  rw [filter_first lo x _ hlo, filter_lines_keep _ hd]
  rfl

/-- When `lastout` holds the empty string at the start: for two lines `x` and `y` that differ
only in letter case (they differ as byte strings and are equal after `tolower`), merging
`A = [x]` and `B = [y]` in mode Unique writes exactly one line when the case-insensitive flag
`-i` is set, and writes both lines when it is not set. -/
theorem clean_case_pair_unique (flags : Nat) (m : heap) (x y : List Nat)
    (hlo : strlen m.lastout = 0) (hx : is_line x) (hy : is_line y)
    (hne : x ≠ y) (hcase : x.map tolower = y.map tolower)
    (hU : flags &&& F_OUTPUT_UNIQ ≠ 0) :
    (flags &&& F_CASE_INSEN ≠ 0 →
      ∃ s, xmergesort_lines flags m [x] [y] = some (0, s) ∧ s.file_temp.length = 1 ∧
        s.i = 1) ∧
    (flags &&& F_CASE_INSEN = 0 →
      ∃ s, xmergesort_lines flags m [x] [y] = some (0, s) ∧ s.file_temp.Perm [x, y] ∧
        s.i = 2) := by
  have hA : ∀ l ∈ [x], is_line l := by simpa using hx
  have hB : ∀ l ∈ [y], is_line l := by simpa using hy
  obtain ⟨M, r, hM, hr, hm⟩ := xmergesort_lines_spec flags m [x] [y] hA hB (Or.inl (by simp))
  obtain ⟨e, s⟩ := r
  unfold run_matches at hm
  rw [flag_uniq hU] at hm
  have hsw := cmp_swap_lt (INSEN_FLAG flags) x y
  have hsw2 := cmp_swap_lt (INSEN_FLAG flags) y x
  have hse := cmp_swap_eq (INSEN_FLAG flags) x y
  constructor
  · intro hci
    have hF : INSEN_FLAG flags = 1 := by simp [INSEN_FLAG, hci]
    have heq : strcmputil x y (INSEN_FLAG flags) = 0 := by
      rw [strcmputil_eq_iff, hF]
      simp [ckey, is_line_cstr x hx, is_line_cstr y hy, hcase]
    have heq2 : strcmputil y x (INSEN_FLAG flags) = 0 := hse.mpr heq
    cases hM with
    | left hle h =>
      have := interleaved_nil_left h
      subst this
      rw [filter_pair_equal hlo hx heq2] at hm
      simp only at hm
      obtain ⟨h1, h2, h3, _⟩ := hm
      subst h1
      exact ⟨s, hr, by simp [h2], by simp [h3]⟩
    | right hle h =>
      have := interleaved_nil_right h
      subst this
      rw [filter_pair_equal hlo hy heq] at hm
      simp only at hm
      obtain ⟨h1, h2, h3, _⟩ := hm
      subst h1
      exact ⟨s, hr, by simp [h2], by simp [h3]⟩
    | both _ h =>
      have := interleaved_nil_left h
      subst this
      rw [filter_pair_equal hlo hx heq2] at hm
      simp only at hm
      obtain ⟨h1, h2, h3, _⟩ := hm
      subst h1
      exact ⟨s, hr, by simp [h2], by simp [h3]⟩
  · intro hci
    have hF : INSEN_FLAG flags = 0 := by simp [INSEN_FLAG, hci]
    have hneq : strcmputil x y (INSEN_FLAG flags) ≠ 0 := by
      rw [Ne, strcmputil_eq_iff, hF]
      simpa [ckey, is_line_cstr x hx, is_line_cstr y hy] using hne
    cases hM with
    | left hle h =>
      have := interleaved_nil_left h
      subst this
      unfold line_le at hle
      rw [filter_pair_less hlo (by omega)] at hm
      simp only at hm
      obtain ⟨h1, h2, h3, _⟩ := hm
      subst h1
      exact ⟨s, hr, by simp [h2], by simp [h3]⟩
    | right hle h =>
      have := interleaved_nil_right h
      subst this
      unfold line_le at hle
      rw [filter_pair_less hlo (by omega)] at hm
      simp only at hm
      obtain ⟨h1, h2, h3, _⟩ := hm
      subst h1
      exact ⟨s, hr, by simp [h2]; exact List.Perm.swap x y [], by simp [h3]⟩
    | both heq _ => exact absurd heq hneq

/-- C9 fails as stated: in case-insensitive mode All, with both candidates `b`, `B` equal to the
last written line `b` case-insensitively, condition 3.2 writes the candidate of file 1, `b`,
although the candidate of file 2, `B`, is the smaller one under the case-sensitive comparison.
The step occurs in the run on `A = [b, b]`, `B = [B, B]`, which writes `B, b, b, B`. -/
theorem tie_break_counterexample :
    strcmputil (bytes "b\n") (bytes "B\n") 1 = 0 ∧
    strcmputil (bytes "B\n") (bytes "b\n") 0 < 0 ∧
    part1 1 0 0 (bytes "b\n") (bytes "B\n") (bytes "B\n") 2 2 = .ok (1, 1) ∧
    (xmergesort_lines 6 heap.clean [bytes "b\n", bytes "b\n"] [bytes "B\n", bytes "B\n"]).map
      (fun r => (r.1, r.2.file_temp)) =
      some (0, [bytes "B\n", bytes "b\n", bytes "b\n", bytes "B\n"]) :=
  ⟨by decide, by decide, rfl, by decide⟩

/-- C9 as amended: in case-insensitive mode, at a step of the main loop in which the two
candidates compare equal case-insensitively, differ under the case-sensitive comparison, and a
line is written: when no line has been written yet or the candidates are greater than the last
written line, the line written is the candidate that is smaller under the case-sensitive
comparison; when the candidates equal the last written line case-insensitively, the mode is All
and the line written is the candidate of file 1. -/
theorem tie_break_amended (S U : Int) (a b lo : List Nat) (w0 l0 w l : Nat)
    (htie : strcmputil a b 1 = 0) (hdiff : strcmputil a b 0 ≠ 0)
    (hstep : part1 1 S U a b lo w0 l0 = .ok (w, l)) (hw : w ≠ 0) :
    ((strlen lo = 0 ∨ strcmputil a lo 1 > 0) →
      (w = 1 ∧ strcmputil a b 0 < 0) ∨ (w = 2 ∧ strcmputil b a 0 < 0)) ∧
    ((strlen lo > 0 ∧ strcmputil a lo 1 = 0) → w = 1 ∧ U ≠ 1) ∧
    ¬ (strlen lo > 0 ∧ strcmputil a lo 1 < 0) := by
  have h1 := cmp_swap_lt 0 a b
  have h2 := cmp_swap_eq 1 a b
  have h3 := cmp_swap_lt 1 a b
  have hba : strcmputil b a 1 = 0 := h2.mpr htie
  have hn1 : ¬ strcmputil a b 1 < 0 := by omega
  have hn2 : ¬ strcmputil b a 1 < 0 := by omega
  have hn3 : ¬ strcmputil a b 1 > 0 := by omega
  have hinj : ∀ {p q : Nat × Nat}, (Except.ok p : Except Int (Nat × Nat)) = .ok q → p = q :=
    fun h => Except.ok.inj h
  by_cases hlo : strlen lo = 0
  · simp only [part1, hlo, htie, hba, lt_irrefl, gt_iff_lt, and_false, if_false, if_true] at hstep
    refine ⟨fun _ => ?_, fun h => by omega, fun h => by omega⟩
    split_ifs at hstep with c1
    · have := hinj hstep
      simp only [Prod.mk.injEq] at this
      left; exact ⟨this.1.symm, c1⟩
    · have := hinj hstep
      simp only [Prod.mk.injEq] at this
      right; exact ⟨this.1.symm, by omega⟩
  · have hlo2 : strlen lo > 0 := by omega
    simp only [part1, hlo2, htie, hba, lt_irrefl, gt_iff_lt, and_true, false_and, if_false,
      if_true] at hstep
    split_ifs at hstep with c1 c2 c3 c4 c5
    · have := hinj hstep
      simp only [Prod.mk.injEq] at this
      exact ⟨fun _ => Or.inl ⟨this.1.symm, c2⟩, fun h => by omega, fun h => by omega⟩
    · have := hinj hstep
      simp only [Prod.mk.injEq] at this
      exact ⟨fun _ => Or.inr ⟨this.1.symm, by omega⟩, fun h => by omega, fun h => by omega⟩
    · have := hinj hstep
      simp only [Prod.mk.injEq] at this
      omega
    · have := hinj hstep
      simp only [Prod.mk.injEq] at this
      exact ⟨fun h => by omega, fun _ => ⟨this.1.symm, c4⟩, fun h => by omega⟩
    · have := hinj hstep
      simp only [Prod.mk.injEq] at this
      omega

theorem tie_break_amended_witness :
    ((strlen (bytes "B\n") = 0 ∨ strcmputil (bytes "b\n") (bytes "B\n") 1 > 0) →
      (1 = 1 ∧ strcmputil (bytes "b\n") (bytes "B\n") 0 < 0) ∨
      (1 = 2 ∧ strcmputil (bytes "B\n") (bytes "b\n") 0 < 0)) ∧
    ((strlen (bytes "B\n") > 0 ∧ strcmputil (bytes "b\n") (bytes "B\n") 1 = 0) →
      1 = 1 ∧ (0 : Int) ≠ 1) ∧
    ¬ (strlen (bytes "B\n") > 0 ∧ strcmputil (bytes "b\n") (bytes "B\n") 1 < 0) :=
  tie_break_amended 0 0 (bytes "b\n") (bytes "B\n") (bytes "B\n") 2 2 1 1 (by decide)
    (by decide) rfl (by decide)

/-! ## The merge when `lastout` is not empty at the start

`lastout` is read by the first pass of the merge (`strlen(lastout) > 0`) before anything has been
stored in it. When the memory that `kmalloc` returns for it holds a string, for instance the last
line of an earlier call whose buffer has been freed, the first lines are compared with that
string as if it had been written. -/

/-- C1 (the code departs from the claim): `A` holds the lines `a`, `c` and `B` the line `b`,
both sorted, the mode is All, and `lastout` holds the line `b` when it is allocated. The run
returns 0 and writes the two lines `b`, `c`, counting 2: the line `a` compares less than
`lastout` and is skipped (condition 1.3). The whole call leaves these two lines in the output
file. With `lastout` empty at the start the three lines `a`, `b`, `c` are written. -/
theorem merge_all_drops_lines :
    (xmergesort_lines 0x02 ⟨[], [], bytes "b\n"⟩ [bytes "a\n", bytes "c\n"] [bytes "b\n"]).map
        (fun r => (r.1, r.2.file_temp, r.2.i)) = some (0, [bytes "b\n", bytes "c\n"], 2) ∧
    (sys_xmergesort 8 ⟨[], [], [], 0, ⟨[], [], bytes "b\n"⟩⟩ 10
        (two_files (bytes "a\nc\n") (bytes "b\n")) (some (request 0x22 0))).map
        (fun r => (r.1, r.2.1.read "out", r.2.2)) = some (0, some (bytes "b\nc\n"), some 2) ∧
    (xmergesort_lines 0x02 heap.clean [bytes "a\n", bytes "c\n"] [bytes "b\n"]).map
        (fun r => (r.1, r.2.file_temp, r.2.i)) =
      some (0, [bytes "a\n", bytes "b\n", bytes "c\n"], 3) :=
  ⟨by decide, rfl, by decide⟩

/-- C2 (the code departs from the claim): `A` holds the lines `a`, `b` and `B` the line `b`,
both sorted, the mode is Unique, and `lastout` holds the line `a` when it is allocated. The run
returns 0 and writes the one line `b`, counting 1: the line `a` compares equal to `lastout` and
is not written (condition 1.2), so no line of the class of `a` is in the output. The whole call
leaves this one line in the output file. With `lastout` empty at the start the lines `a`, `b`
are written. -/
theorem merge_unique_drops_class :
    (xmergesort_lines 0x01 ⟨[], [], bytes "a\n"⟩ [bytes "a\n", bytes "b\n"] [bytes "b\n"]).map
        (fun r => (r.1, r.2.file_temp, r.2.i)) = some (0, [bytes "b\n"], 1) ∧
    (sys_xmergesort 8 ⟨[], [], [], 0, ⟨[], [], bytes "a\n"⟩⟩ 10
        (two_files (bytes "a\nb\n") (bytes "b\n")) (some (request 0x21 0))).map
        (fun r => (r.1, r.2.1.read "out", r.2.2)) = some (0, some (bytes "b\n"), some 1) ∧
    (xmergesort_lines 0x01 heap.clean [bytes "a\n", bytes "b\n"] [bytes "b\n"]).map
        (fun r => (r.1, r.2.file_temp, r.2.i)) = some (0, [bytes "a\n", bytes "b\n"], 2) :=
  ⟨by decide, rfl, by decide⟩

/-- C5 (the code departs from the claim): for `A = ["apple\n", "banana\n", "cherry\n"]` and
`B = ["banana\n", "date\n"]` with the case-sensitive comparator, when `lastout` holds the string
`zzzzzzz` when it is allocated, mode All and mode Unique both return 0, write no line and count
0: every line compares less than `lastout` and is skipped. The whole call leaves an empty output
file and stores the count 0. With `lastout` empty at the start mode All writes the five lines
and mode Unique the four lines of the claim. -/
theorem scenario_writes_nothing :
    (xmergesort_lines 0x02 ⟨[], [], bytes "zzzzzzz"⟩
        [bytes "apple\n", bytes "banana\n", bytes "cherry\n"]
        [bytes "banana\n", bytes "date\n"]).map (fun r => (r.1, r.2.file_temp, r.2.i)) =
      some (0, [], 0) ∧
    (xmergesort_lines 0x01 ⟨[], [], bytes "zzzzzzz"⟩
        [bytes "apple\n", bytes "banana\n", bytes "cherry\n"]
        [bytes "banana\n", bytes "date\n"]).map (fun r => (r.1, r.2.file_temp, r.2.i)) =
      some (0, [], 0) ∧
    (sys_xmergesort 8 ⟨[], [], [], 0, ⟨[], [], bytes "zzzzzzz"⟩⟩ 10
        (two_files (bytes "apple\nbanana\ncherry\n") (bytes "banana\ndate\n"))
        (some (request 0x22 7))).map (fun r => (r.1, r.2.1.read "out", r.2.2)) =
      some (0, some [], some 0) ∧
    (xmergesort_lines 0x02 heap.clean [bytes "apple\n", bytes "banana\n", bytes "cherry\n"]
        [bytes "banana\n", bytes "date\n"]).map (fun r => (r.1, r.2.file_temp, r.2.i)) =
      some (0, [bytes "apple\n", bytes "banana\n", bytes "banana\n", bytes "cherry\n",
        bytes "date\n"], 5) ∧
    (xmergesort_lines 0x01 heap.clean [bytes "apple\n", bytes "banana\n", bytes "cherry\n"]
        [bytes "banana\n", bytes "date\n"]).map (fun r => (r.1, r.2.file_temp, r.2.i)) =
      some (0, [bytes "apple\n", bytes "banana\n", bytes "cherry\n", bytes "date\n"], 4) :=
  ⟨by decide, by decide, rfl, by decide, by decide⟩

/-- C6 (the code departs from the claim): one file holds the sorted lines `a`, `b`, `c`, the
other file is empty, the mode is All, and `lastout` holds the line `b` when it is allocated. The
drain loop skips the line `a`, which compares less than `lastout`: the run returns 0 and writes
the two lines `b`, `c`, counting 2, whichever file is the empty one. With `lastout` empty at the
start the three lines are written. -/
theorem one_input_not_verbatim :
    (xmergesort_lines 0x02 ⟨[], [], bytes "b\n"⟩ [bytes "a\n", bytes "b\n", bytes "c\n"] []).map
        (fun r => (r.1, r.2.file_temp, r.2.i)) = some (0, [bytes "b\n", bytes "c\n"], 2) ∧
    (xmergesort_lines 0x02 ⟨[], [], bytes "b\n"⟩ [] [bytes "a\n", bytes "b\n", bytes "c\n"]).map
        (fun r => (r.1, r.2.file_temp, r.2.i)) = some (0, [bytes "b\n", bytes "c\n"], 2) ∧
    (sys_xmergesort 8 ⟨[], [], [], 0, ⟨[], [], bytes "b\n"⟩⟩ 10
        (two_files (bytes "a\nb\nc\n") []) (some (request 0x22 0))).map
        (fun r => (r.1, r.2.1.read "out", r.2.2)) = some (0, some (bytes "b\nc\n"), some 2) ∧
    (xmergesort_lines 0x02 heap.clean [bytes "a\n", bytes "b\n", bytes "c\n"] []).map
        (fun r => (r.1, r.2.file_temp, r.2.i)) =
      some (0, [bytes "a\n", bytes "b\n", bytes "c\n"], 3) :=
  ⟨by decide, by decide, rfl, by decide⟩

/-- C8 (the code departs from the claim): `A` holds the line `a` and `B` the line `A`, which
differ only in letter case, the mode is Unique, and `lastout` holds the string `zzz` when it is
allocated. With the case-insensitive flag and without it the run returns 0 and writes no line,
counting 0: both lines compare less than `lastout`. With `lastout` empty at the start one line is
written with the flag and two without it. -/
theorem case_pair_not_written :
    (xmergesort_lines 0x05 ⟨[], [], bytes "zzz"⟩ [bytes "a\n"] [bytes "A\n"]).map
        (fun r => (r.1, r.2.file_temp, r.2.i)) = some (0, [], 0) ∧
    (xmergesort_lines 0x01 ⟨[], [], bytes "zzz"⟩ [bytes "a\n"] [bytes "A\n"]).map
        (fun r => (r.1, r.2.file_temp, r.2.i)) = some (0, [], 0) ∧
    (sys_xmergesort 8 ⟨[], [], [], 0, ⟨[], [], bytes "zzz"⟩⟩ 10
        (two_files (bytes "a\n") (bytes "A\n")) (some (request 0x25 0))).map
        (fun r => (r.1, r.2.1.read "out", r.2.2)) = some (0, some [], some 0) ∧
    (xmergesort_lines 0x05 heap.clean [bytes "a\n"] [bytes "A\n"]).map
        (fun r => (r.1, r.2.file_temp, r.2.i)) = some (0, [bytes "A\n"], 1) ∧
    (xmergesort_lines 0x01 heap.clean [bytes "a\n"] [bytes "A\n"]).map
        (fun r => (r.1, r.2.file_temp, r.2.i)) = some (0, [bytes "A\n", bytes "a\n"], 2) :=
  ⟨by decide, by decide, rfl, by decide, by decide⟩

/-- C22 (the code departs from the claim): `A` holds the line `a` and `B` the line `b`, both
sorted, and `lastout` holds the string `zzz` when it is allocated. With the check-sorted flag
`-t` the run returns `-EINVAL`, the value for input that is not sorted, before a line is written
(condition 1.3: the line `a` compares less than `lastout`), and the whole call returns `-EINVAL`
and stores no count; without `-t` the run returns 0. With `lastout` empty at the start the run
with `-t` returns 0 and writes the lines `a`, `b`, as the run without `-t` does. -/
theorem check_sorted_rejects_sorted :
    (xmergesort_lines 0x12 ⟨[], [], bytes "zzz"⟩ [bytes "a\n"] [bytes "b\n"]).map
        (fun r => (r.1, r.2.file_temp, r.2.i, r.2.renamed)) = some (-EINVAL, [], 0, false) ∧
    (xmergesort_lines 0x02 ⟨[], [], bytes "zzz"⟩ [bytes "a\n"] [bytes "b\n"]).map
        (fun r => (r.1, r.2.file_temp, r.2.i, r.2.renamed)) = some (0, [], 0, true) ∧
    (sys_xmergesort 8 ⟨[], [], [], 0, ⟨[], [], bytes "zzz"⟩⟩ 10
        (two_files (bytes "a\n") (bytes "b\n")) (some (request 0x32 0))).map
        (fun r => (r.1, r.2.1.read "out", r.2.2)) = some (-EINVAL, some [], none) ∧
    (xmergesort_lines 0x12 heap.clean [bytes "a\n"] [bytes "b\n"]).map
        (fun r => (r.1, r.2.file_temp, r.2.i, r.2.renamed)) =
      some (0, [bytes "a\n", bytes "b\n"], 2, true) ∧
    (xmergesort_lines 0x02 heap.clean [bytes "a\n"] [bytes "b\n"]).map
        (fun r => (r.1, r.2.file_temp, r.2.i, r.2.renamed)) =
      some (0, [bytes "a\n", bytes "b\n"], 2, true) :=
  ⟨by decide, by decide, rfl, by decide, by decide⟩

/-! ## The line reader on bytes -/

theorem lines_from_newline (u v : List Nat) (hu : 10 ∉ u) : ∀ cur : List Nat,
    lines_from cur (u ++ 10 :: v) = (cur ++ u ++ [10]) :: lines_from [] v := by
  induction u with
  | nil => intro cur; simp [lines_from]
  | cons c u ih =>
    intro cur
    have hc : c ≠ 10 := fun e => hu (by simp [e])
    have hu2 : 10 ∉ u := fun e => hu (by simp [e])
    simp [lines_from, hc, ih hu2]

theorem lines_from_unterminated (u : List Nat) (hu : 10 ∉ u) : ∀ cur : List Nat, cur ++ u ≠ [] →
    lines_from cur u = [cur ++ u ++ [10]] := by
  induction u with
  | nil => intro cur h; simp at h; simp [lines_from, h]
  | cons c u ih =>
    intro cur _
    have hc : c ≠ 10 := fun e => hu (by simp [e])
    have hu2 : 10 ∉ u := fun e => hu (by simp [e])
    simp [lines_from, hc, ih hu2 (cur ++ [c]) (by simp)]

theorem lines_of_newline (u v : List Nat) (hu : 10 ∉ u) :
    lines_of (u ++ 10 :: v) = (u ++ [10]) :: lines_of v := by
  simpa [lines_of] using lines_from_newline u v hu []

theorem lines_of_unterminated (u : List Nat) (hu : 10 ∉ u) (hne : u ≠ []) :
    lines_of u = [u ++ [10]] := by
  simpa [lines_of] using lines_from_unterminated u hu [] (by simpa using hne)

theorem lines_of_nil : lines_of [] = [] := rfl

/-- A byte string either has no newline or splits at its first newline. -/
theorem split_first_newline (B : List Nat) :
    10 ∉ B ∨ ∃ u v, B = u ++ 10 :: v ∧ 10 ∉ u := by
  induction B with
  | nil => left; simp
  | cons c B ih =>
    by_cases hc : c = 10
    · right; exact ⟨[], B, by simp [hc], by simp⟩
    · rcases ih with h | ⟨u, v, h1, h2⟩
      · left; simp [h]; exact fun e => hc e.symm
      · right
        refine ⟨c :: u, v, by simp [h1], ?_⟩
        simp [h2]; exact fun e => hc e.symm

theorem poke_zero (buf bs : List Nat) : poke buf 0 bs = bs ++ buf.drop bs.length := by
  simp [poke]

theorem poke_append (w rest bs : List Nat) :
    poke (w ++ rest) w.length bs = w ++ bs ++ rest.drop bs.length := by
  simp [poke, List.take_append_eq_append_take, List.drop_append_eq_append_drop]

theorem vfs_read_ok (d : List Nat) (script : List vfs_step) (count : Nat)
    (h : no_fail script) :
    ∃ bs rest script2, vfs_read ⟨d, script⟩ count = ((bs.length : Int), bs, ⟨rest, script2⟩) ∧
      bs ++ rest = d ∧ bs.length ≤ count ∧ (0 < count → d ≠ [] → bs ≠ []) ∧
      no_fail script2 := by
  rcases script with _ | ⟨e, sc⟩
  · refine ⟨d.take count, d.drop count, [], ?_, by simp, by simp, ?_, h⟩
    · simp [vfs_read]
    · intro hc hd; cases d <;> simp_all; omega
  · have hsc : no_fail sc := fun e2 h2 => h e2 (by simp [h2])
    rcases e with _ | k | n
    · refine ⟨d.take count, d.drop count, sc, ?_, by simp, by simp, ?_, hsc⟩
      · simp [vfs_read]
      · intro hc hd; cases d <;> simp_all; omega
    · refine ⟨d.take (min (k + 1) count), d.drop (min (k + 1) count), sc, ?_, by simp, ?_, ?_,
        hsc⟩
      · simp [vfs_read]
      · simp
      · intro hc hd; cases d <;> simp_all; omega
    · exact absurd (h (.fail n) (by simp)) (by simp [is_fail])

theorem scan_step (P : Nat) (pre : List Nat) (c : Nat) (rest : List Nat) (n : Nat)
    (data : List Nat) :
    scan P (pre ++ c :: rest) (n + 1) pre.length data =
      if c = 10 then
        if data.length + 2 ≤ P then some (.found pre.length (data ++ [10])) else none
      else if data.length < P then scan P (pre ++ c :: rest) n (pre.length + 1) (data ++ [c])
      else none := by
  have h : (pre ++ c :: rest)[pre.length]? = some c := by
    rw [List.getElem?_append_right (le_refl _)]
    simp
  rw [scan, h]

theorem scan_found (P : Nat) (u post : List Nat) (hu : 10 ∉ u) :
    ∀ (pre data : List Nat) (n : Nat), u.length < n → data.length + u.length + 2 ≤ P →
    scan P (pre ++ u ++ 10 :: post) n pre.length data =
      some (.found (pre.length + u.length) (data ++ u ++ [10])) := by
  induction u with
  | nil =>
    intro pre data n hn hP
    obtain ⟨m, rfl⟩ : ∃ m, n = m + 1 := ⟨n - 1, by simp at hn; omega⟩
    simp at hP
    rw [List.append_nil, scan_step]
    simp [hP]
  | cons c u ih =>
    intro pre data n hn hP
    have hc : c ≠ 10 := fun e => hu (by simp [e])
    have hu2 : 10 ∉ u := fun e => hu (by simp [e])
    obtain ⟨m, rfl⟩ : ∃ m, n = m + 1 := ⟨n - 1, by simp at hn; omega⟩
    simp at hP hn
    have hd : data.length < P := by omega
    have := ih hu2 (pre ++ [c]) (data ++ [c]) m (by omega) (by simp; omega)
    simp at this
    have e : pre ++ c :: u ++ 10 :: post = pre ++ c :: (u ++ 10 :: post) := by simp
    rw [e, scan_step]
    simp only [hc, hd, if_false, if_true, this]
    simp
    omega

theorem scan_not_found (P : Nat) (w post : List Nat) (hw : 10 ∉ w) :
    ∀ (pre data : List Nat), data.length + w.length ≤ P →
    scan P (pre ++ w ++ post) w.length pre.length data = some (.not_found (data ++ w)) := by
  induction w with
  | nil => intro pre data _; simp [scan]
  | cons c w ih =>
    intro pre data hP
    have hc : c ≠ 10 := fun e => hw (by simp [e])
    have hw2 : 10 ∉ w := fun e => hw (by simp [e])
    simp at hP
    have hd : data.length < P := by omega
    have := ih hw2 (pre ++ [c]) (data ++ [c]) (by simp; omega)
    simp at this
    have e : pre ++ c :: w ++ post = pre ++ c :: (w ++ post) := by simp
    rw [e, List.length_cons, scan_step]
    simp only [hc, hd, if_false, if_true, this]

theorem read_start_found (P : Nat) (fuel : Nat) (filp : file) (inbuf : inputbuf)
    (buf u v : List Nat) (hw : window_is P inbuf (u ++ 10 :: v)) (hu : 10 ∉ u) (h0 : 0 ∉ u)
    (hP : u.length + 2 ≤ P) :
    ∃ inbuf2, read_start P (fuel + 1) filp inbuf buf =
        some (((u ++ [10]).length : Int), u ++ [10], filp, inbuf2) ∧
      window_is P inbuf2 v := by
  obtain ⟨hlen, hsize, hdec⟩ := hw
  rcases hdec with h | ⟨pre, post, hb, hs⟩
  · simp at h
  · have hs2 : ¬ inbuf.start < 0 := by omega
    simp only [List.length_append, List.length_cons] at hsize
    have hsc : scan P inbuf.buffer inbuf.size inbuf.start.toNat [] =
        some (.found (pre.length + u.length) (u ++ [10])) := by
      have := scan_found P u (v ++ post) hu pre [] inbuf.size
        (by rw [hsize]; omega) (by simpa using hP)
      rw [hs, hb]
      simpa using this
    have hc : cstr (u ++ [10]) = u ++ [10] := cstr_eq_self _ (by simp [h0])
    have hbl : pre.length + (u.length + (v.length + 1)) + post.length = MAX_INBUF_SIZE P := by
      rw [← hlen, hb]; simp; omega
    refine ⟨{ inbuf with
        start := if pre.length + u.length + 1 = MAX_INBUF_SIZE P then -1
          else ((pre.length + u.length : Nat) : Int) + 1,
        size := ((inbuf.size : Int) - (((u ++ [10]).length : Int) + 1) + 1).toNat },
      by simp only [read_start, hs2, if_false, hsc, hc], hlen, ?_, ?_⟩
    · simp [hsize]; omega
    · by_cases hv : v = []
      · exact Or.inl hv
      · right
        refine ⟨pre ++ u ++ [10], post, by simp [hb], ?_⟩
        have hvl : 0 < v.length := List.length_pos.mpr hv
        have : pre.length + u.length + 1 ≠ MAX_INBUF_SIZE P := by omega
        simp [this]
        omega

theorem window_is_refill (P : Nat) (buffer w bs : List Nat) (hlen : buffer.length = MAX_INBUF_SIZE P)
    (hfit : w.length + bs.length ≤ MAX_INBUF_SIZE P) :
    window_is P { buffer := poke (poke buffer 0 w) w.length bs, start := 0,
                  size := w.length + bs.length } (w ++ bs) := by
  have e : poke (poke buffer 0 w) w.length bs =
      [] ++ (w ++ bs) ++ (buffer.drop w.length).drop bs.length := by
    rw [poke_zero, poke_append]; simp
  refine ⟨?_, by simp, Or.inr ⟨[], (buffer.drop w.length).drop bs.length, e, rfl⟩⟩
  rw [e]; simp; omega

theorem first_line_bound (P : Nat) (w d : List Nat) (hw : 10 ∉ w)
    (hfit : ∀ l ∈ lines_of (w ++ d), l.length < P) (hne : w ≠ []) : w.length + 1 < P := by
  rcases split_first_newline d with h | ⟨u, v, h1, h2⟩
  · have h3 : lines_of (w ++ d) = [w ++ d ++ [10]] :=
      lines_of_unterminated _ (by simp [hw, h]) (by simp [hne])
    have := hfit (w ++ d ++ [10]) (by simp [h3])
    simp at this; omega
  · have h3 : lines_of (w ++ d) = (w ++ u ++ [10]) :: lines_of v := by
      rw [h1, ← List.append_assoc]
      exact lines_of_newline (w ++ u) v (by simp [hw, h2])
    have := hfit (w ++ u ++ [10]) (by simp [h3])
    simp at this; omega

theorem window_is_eof (P : Nat) (buffer w : List Nat) (hlen : buffer.length = MAX_INBUF_SIZE P)
    (hfit : w.length < MAX_INBUF_SIZE P) :
    window_is P { buffer := (poke (poke buffer 0 w) w.length []).set w.length 10, start := 0,
                  size := w.length + 1 } (w ++ 10 :: []) := by
  have e : poke (poke buffer 0 w) w.length [] = w ++ buffer.drop w.length := by
    rw [poke_zero, poke_append]; simp
  obtain ⟨c, post, hp⟩ : ∃ c post, buffer.drop w.length = c :: post := by
    cases h : buffer.drop w.length with
    | nil => simp at h; omega
    | cons c post => exact ⟨c, post, rfl⟩
  have hpl : post.length + 1 + w.length = MAX_INBUF_SIZE P := by
    have := congrArg List.length hp
    simp at this; omega
  have e2 : (poke (poke buffer 0 w) w.length []).set w.length 10 =
      [] ++ (w ++ 10 :: []) ++ post := by
    rw [e, hp, List.set_append_right _ _ (le_refl _)]; simp
  refine ⟨?_, by simp, Or.inr ⟨[], post, e2, rfl⟩⟩
  rw [e2]; simp; omega

theorem read_start_refill (P n : Nat) (d : List Nat) (script : List vfs_step) (inbuf : inputbuf)
    (buf w pre post : List Nat) (hb : inbuf.buffer = pre ++ w ++ post)
    (hs : inbuf.start = (pre.length : Int)) (hsize : inbuf.size = w.length) (hnl : 10 ∉ w)
    (hwP : w.length ≤ P) (bs rest : List Nat) (script2 : List vfs_step)
    (hvr : vfs_read ⟨d, script⟩ (MAX_INBUF_SIZE P - w.length) =
      ((bs.length : Int), bs, ⟨rest, script2⟩)) :
    read_start P (n + 1) ⟨d, script⟩ inbuf buf =
      if bs = [] then
        if w.length < (poke (poke inbuf.buffer 0 w) w.length []).length then
          read_start P n ⟨rest, script2⟩
            { buffer := (poke (poke inbuf.buffer 0 w) w.length []).set w.length 10, start := 0,
              size := w.length + 1 } buf
        else none
      else
        read_start P n ⟨rest, script2⟩
          { buffer := poke (poke inbuf.buffer 0 w) w.length bs, start := 0,
            size := w.length + bs.length } buf := by
  have hs2 : ¬ inbuf.start < 0 := by omega
  have hsc : scan P inbuf.buffer inbuf.size inbuf.start.toNat [] = some (.not_found w) := by
    have := scan_not_found P w post hnl pre [] (by simpa using hwP)
    rw [hs, hb, hsize]
    simpa using this
  simp only [read_start, hs2, if_false, hsc, fill_in_buffer, hvr]
  by_cases hbs : bs = []
  · subst hbs
    simp
  · have : ¬ ((bs.length : Int) < 0) := by omega
    have h2 : ¬ ((bs.length : Int) = 0) := by
      have := List.length_pos.mpr hbs; omega
    simp [hbs, this, h2]

theorem read_start_line (P : Nat) (buf : List Nat) : ∀ (fuel : Nat) (d : List Nat)
    (script : List vfs_step) (inbuf : inputbuf) (w : List Nat),
    window_is P inbuf w → w ≠ [] → no_fail script → 0 ∉ w ++ d →
    (∀ l ∈ lines_of (w ++ d), l.length < P) → d.length + 2 ≤ fuel →
    ∃ l w2 d2 script2 inbuf2,
      read_start P fuel ⟨d, script⟩ inbuf buf =
        some ((l.length : Int), l, ⟨d2, script2⟩, inbuf2) ∧
      window_is P inbuf2 w2 ∧ no_fail script2 ∧ lines_of (w ++ d) = l :: lines_of (w2 ++ d2) ∧
      0 ∉ w2 ++ d2 := by
  intro fuel
  induction fuel with
  | zero => intro d _ _ _ _ _ _ _ _ h; omega
  | succ n ih =>
    intro d script inbuf w hw hne hnf h0 hfit hfuel
    rcases split_first_newline w with hnl | ⟨u, v, h1, h2⟩
    · have hwP := first_line_bound P w d hnl hfit hne
      obtain ⟨hlen, hsize, hdec⟩ := hw
      rcases hdec with h | ⟨pre, post, hb, hs⟩
      · exact absurd h hne
      · have hM : MAX_INBUF_SIZE P = 2 * P := rfl
        obtain ⟨bs, rest, script2, hvr, hcat, hle, hnz, hnf2⟩ :=
          vfs_read_ok d script (MAX_INBUF_SIZE P - w.length) hnf
        rw [read_start_refill P n d script inbuf buf w pre post hb hs hsize hnl (by omega)
          bs rest script2 hvr]
        by_cases hbs : bs = []
        · subst hbs
          have hd : d = [] := by
            by_contra hd
            exact hnz (by omega) hd rfl
          subst hd
          have hrest : rest = [] := by simpa using hcat
          subst hrest
          obtain ⟨m, rfl⟩ : ∃ m, n = m + 1 := ⟨n - 1, by simp at hfuel; omega⟩
          have hwin := window_is_eof P inbuf.buffer w hlen (by omega)
          obtain ⟨inbuf2, hr, hw2⟩ := read_start_found P m ⟨[], script2⟩ _ buf w [] hwin hnl
            (fun h => h0 (by simp [h])) (by omega)
          have hlt : w.length < (poke (poke inbuf.buffer 0 w) w.length []).length := by
            rw [poke_zero, poke_append]; simp; omega
          refine ⟨w ++ [10], [], [], script2, inbuf2, ?_, hw2, hnf2, ?_, by simp⟩
          · simp only [if_true, hlt]
            exact hr
          · simpa [lines_of_nil] using lines_of_unterminated w hnl hne
        · have hbl := List.length_pos.mpr hbs
          have hdl : d.length = bs.length + rest.length := by rw [← hcat]; simp
          have hwin := window_is_refill P inbuf.buffer w bs hlen (by omega)
          have hassoc : w ++ bs ++ rest = w ++ d := by rw [List.append_assoc, hcat]
          obtain ⟨l, w2, d2, script3, inbuf2, hr, hw2, hnf3, hl, h02⟩ :=
            ih rest script2 _ (w ++ bs) hwin (by simp [hne]) hnf2 (by rw [hassoc]; exact h0)
              (by rw [hassoc]; exact hfit) (by omega)
          refine ⟨l, w2, d2, script3, inbuf2, ?_, hw2, hnf3, by rw [← hassoc]; exact hl, h02⟩
          simp only [hbs, if_false]
          exact hr
    · subst h1
      have hl : lines_of (u ++ 10 :: v ++ d) = (u ++ [10]) :: lines_of (v ++ d) := by
        rw [List.append_assoc]
        exact lines_of_newline u (v ++ d) h2
      have hP : u.length + 2 ≤ P := by
        have := hfit (u ++ [10]) (by rw [hl]; simp)
        simp at this; omega
      obtain ⟨inbuf2, hr, hw2⟩ := read_start_found P n ⟨d, script⟩ inbuf buf u v hw h2
        (fun h => h0 (by simp [h])) hP
      exact ⟨u ++ [10], v, d, script, inbuf2, hr, hw2, hnf, hl,
        fun h => h0 (by simp at h ⊢; tauto)⟩

theorem lines_of_ne_nil (B : List Nat) (h : B ≠ []) : lines_of B ≠ [] := by
  rcases split_first_newline B with h1 | ⟨u, v, h1, h2⟩
  · rw [lines_of_unterminated B h1 h]; simp
  · rw [h1, lines_of_newline u v h2]; simp

theorem file_line_read_eof (P : Nat) (buf : List Nat) (script : List vfs_step)
    (inbuf : inputbuf) (hw : window_is P inbuf []) (hnf : no_fail script) :
    ∃ script2 inbuf2, file_line_read P ⟨[], script⟩ buf inbuf =
        some (0, buf, ⟨[], script2⟩, inbuf2) ∧
      window_is P inbuf2 [] ∧ no_fail script2 := by
  obtain ⟨hlen, hsize, _⟩ := hw
  simp at hsize
  obtain ⟨bs, rest, script2, hvr, hcat, _, _, hnf2⟩ :=
    vfs_read_ok [] script (MAX_INBUF_SIZE P - inbuf.size) hnf
  simp at hcat
  obtain ⟨rfl, rfl⟩ := hcat
  rw [hsize] at hvr
  refine ⟨script2, { inbuf with buffer := poke inbuf.buffer inbuf.size [] }, ?_, ?_, hnf2⟩
  · simp only [file_line_read, hsize, if_true, fill_in_buffer, hvr]
    simp
  · refine ⟨?_, by simp [hsize], Or.inl rfl⟩
    simp [hsize, poke_zero, hlen]

theorem file_line_read_line (P : Nat) (buf d : List Nat) (script : List vfs_step)
    (inbuf : inputbuf) (w : List Nat) (hw : window_is P inbuf w) (hnf : no_fail script)
    (h0 : 0 ∉ w ++ d) (hfit : ∀ l ∈ lines_of (w ++ d), l.length < P) (hne : w ++ d ≠ []) :
    ∃ l w2 d2 script2 inbuf2,
      file_line_read P ⟨d, script⟩ buf inbuf =
        some ((l.length : Int), l, ⟨d2, script2⟩, inbuf2) ∧
      window_is P inbuf2 w2 ∧ no_fail script2 ∧ lines_of (w ++ d) = l :: lines_of (w2 ++ d2) ∧
      0 ∉ w2 ++ d2 := by
  by_cases hw0 : w = []
  · subst hw0
    simp only [List.nil_append] at h0 hfit hne
    obtain ⟨hlen, hsize, _⟩ := hw
    simp at hsize
    have hP : 0 < P := by
      obtain ⟨l, hl⟩ := List.exists_mem_of_ne_nil _ (lines_of_ne_nil d hne)
      have := hfit l hl
      omega
    have hM : MAX_INBUF_SIZE P = 2 * P := rfl
    obtain ⟨bs, rest, script2, hvr, hcat, hle, hnz, hnf2⟩ :=
      vfs_read_ok d script (MAX_INBUF_SIZE P - inbuf.size) hnf
    have hbs : bs ≠ [] := hnz (by omega) hne
    have hbl := List.length_pos.mpr hbs
    rw [hsize] at hvr
    have hwin : window_is P ⟨poke inbuf.buffer 0 bs, 0, 0 + ((bs.length : Int)).toNat⟩ bs := by
      have := window_is_refill P inbuf.buffer [] bs hlen (by simp; omega)
      simpa [poke_zero] using this
    obtain ⟨l, w2, d2, script3, inbuf2, hr, hw2, hnf3, hl, h02⟩ :=
      read_start_line P buf (rest.length + 2) rest script2 _ bs hwin hbs hnf2
        (by rw [hcat]; exact h0) (by rw [hcat]; exact hfit) (le_refl _)
    refine ⟨l, w2, d2, script3, inbuf2, ?_, hw2, hnf3, by rw [← hcat]; exact hl, h02⟩
    have hpos : ¬ ((bs.length : Int) ≤ 0) := by omega
    simp only [file_line_read, hsize, if_true, fill_in_buffer, hvr, hpos, if_false]
    exact hr
  · obtain ⟨l, w2, d2, script3, inbuf2, hr, hw2, hnf3, hl, h02⟩ :=
      read_start_line P buf (d.length + 2) d script inbuf w hw hw0 hnf h0 hfit (le_refl _)
    refine ⟨l, w2, d2, script3, inbuf2, ?_, hw2, hnf3, hl, h02⟩
    have hsz : inbuf.size ≠ 0 := by
      rw [hw.2.1]
      exact fun h => hw0 (List.length_eq_zero.mp h)
    simp only [file_line_read, hsz, if_false]
    exact hr

theorem read_calls_lines (P : Nat) : ∀ (L : List (List Nat)) (w d : List Nat)
    (script : List vfs_step) (inbuf : inputbuf) (buf : List Nat),
    window_is P inbuf w → no_fail script → 0 ∉ w ++ d →
    (∀ l ∈ lines_of (w ++ d), l.length < P) → lines_of (w ++ d) = L →
    ∃ lastbuf, read_calls P (L.length + 1) ⟨d, script⟩ buf inbuf =
      some (L.map (fun l => ((l.length : Int), l)) ++ [(0, lastbuf)]) := by
  intro L
  induction L with
  | nil =>
    intro w d script inbuf buf hw hnf h0 hfit hL
    have hwd : w ++ d = [] := by
      by_contra h; exact lines_of_ne_nil _ h hL
    simp at hwd
    obtain ⟨rfl, rfl⟩ := hwd
    obtain ⟨script2, inbuf2, hr, _, _⟩ := file_line_read_eof P buf script inbuf hw hnf
    exact ⟨buf, by simp [read_calls, hr]⟩
  | cons l L ih =>
    intro w d script inbuf buf hw hnf h0 hfit hL
    have hne : w ++ d ≠ [] := by
      intro h; rw [h, lines_of_nil] at hL; exact absurd hL (by simp)
    obtain ⟨l2, w2, d2, script2, inbuf2, hr, hw2, hnf2, hl, h02⟩ :=
      file_line_read_line P buf d script inbuf w hw hnf h0 hfit hne
    rw [hL] at hl
    simp only [List.cons.injEq] at hl
    obtain ⟨rfl, hl2⟩ := hl
    obtain ⟨lastbuf, hrc⟩ := ih w2 d2 script2 inbuf2 l hw2 hnf2 h02
      (fun x hx => hfit x (by rw [hL, hl2]; exact List.mem_cons_of_mem _ hx)) hl2.symm
    refine ⟨lastbuf, ?_⟩
    rw [List.length_cons, read_calls, hr]
    simp only [hrc]
    simp

theorem lines_of_flatten : ∀ (n : Nat) (B : List Nat), B.length ≤ n →
    (lines_of B).flatten = B ++ (if B = [] ∨ B.getLast? = some 10 then [] else [10]) := by
  intro n
  induction n with
  | zero =>
    intro B h
    have : B = [] := List.length_eq_zero.mp (by omega)
    subst this; simp [lines_of_nil]
  | succ n ih =>
    intro B h
    rcases split_first_newline B with h1 | ⟨u, v, h1, h2⟩
    · by_cases hB : B = []
      · subst hB; simp [lines_of_nil]
      · rw [lines_of_unterminated B h1 hB]
        have : B.getLast? ≠ some 10 := by
          intro e
          exact h1 (List.mem_of_getLast?_eq_some e)
        simp [hB, this]
    · subst h1
      rw [lines_of_newline u v h2]
      have hv := ih v (by simp at h; omega)
      simp only [List.flatten_cons, hv]
      by_cases hv0 : v = []
      · subst hv0; simp
      · have e : (u ++ 10 :: v).getLast? = v.getLast? := by
          obtain ⟨c, t, rfl⟩ := List.exists_cons_of_ne_nil hv0
          rw [List.getLast?_append, List.getLast?_cons_cons,
            List.getLast?_eq_getLast _ (List.cons_ne_nil c t)]
          rfl
        simp [hv0, e]

theorem lines_of_is_line : ∀ (n : Nat) (B : List Nat), B.length ≤ n → 0 ∉ B →
    ∀ l ∈ lines_of B, is_line l := by
  intro n
  induction n with
  | zero =>
    intro B h _ l hl
    have : B = [] := List.length_eq_zero.mp (by omega)
    subst this; simp [lines_of_nil] at hl
  | succ n ih =>
    intro B h h0 l hl
    have key : ∀ u : List Nat, 10 ∉ u → 0 ∉ u → is_line (u ++ [10]) := by
      intro u hu h0u
      refine ⟨by simp, by simpa using hu, by simpa using h0u⟩
    rcases split_first_newline B with h1 | ⟨u, v, h1, h2⟩
    · by_cases hB : B = []
      · subst hB; simp [lines_of_nil] at hl
      · rw [lines_of_unterminated B h1 hB] at hl
        simp at hl; subst hl
        exact key B h1 h0
    · subst h1
      rw [lines_of_newline u v h2] at hl
      rcases List.mem_cons.mp hl with e | e
      · subst e; exact key u h2 (fun x => h0 (by simp [x]))
      · exact ih v (by simp at h; omega) (fun x => h0 (by simp [x])) l e

/-- C10: for a stream `s` without NUL bytes whose lines each fit in the line buffer (length
below `PAGE_SIZE`, so that the line and its NUL fit), and for every script of `vfs_read` without
failure (every way of splitting the reads into chunks), the successive calls of `file_line_read`
from the initial `inputbuf` return the lines of `s` in order, each with its length and its
newline, and then 0 at the end of the stream. The lines are those of `lines_of`: their
concatenation is `s`, with one newline appended when `s` is not empty and does not end with a
newline, and each is a line ending with its only newline. -/
theorem file_line_read_lines (P : Nat) (s : List Nat) (script : List vfs_step) (buf : List Nat)
    (hnul : 0 ∉ s) (hfit : ∀ l ∈ lines_of s, l.length < P) (hok : no_fail script) :
    (∃ lastbuf, read_calls P ((lines_of s).length + 1) ⟨s, script⟩ buf (inputbuf_init P) =
      some ((lines_of s).map (fun l => ((l.length : Int), l)) ++ [(0, lastbuf)])) ∧
    (lines_of s).flatten = s ++ (if s = [] ∨ s.getLast? = some 10 then [] else [10]) ∧
    (∀ l ∈ lines_of s, is_line l) := by
  refine ⟨?_, lines_of_flatten s.length s (le_refl _), lines_of_is_line s.length s (le_refl _) hnul⟩
  have hw : window_is P (inputbuf_init P) [] :=
    ⟨by simp [inputbuf_init], rfl, Or.inl rfl⟩
  exact read_calls_lines P (lines_of s) [] s script (inputbuf_init P) buf hw hok
    (by simpa using hnul) (by simpa using hfit) rfl

theorem file_line_read_lines_witness :
    (∃ lastbuf, read_calls 8 ((lines_of (bytes "ab\n\ncd")).length + 1)
        ⟨bytes "ab\n\ncd", [.short 0, .short 2]⟩ [] (inputbuf_init 8) =
      some ((lines_of (bytes "ab\n\ncd")).map (fun l => ((l.length : Int), l)) ++
        [(0, lastbuf)])) ∧
    (lines_of (bytes "ab\n\ncd")).flatten = bytes "ab\n\ncd" ++
      (if bytes "ab\n\ncd" = [] ∨ (bytes "ab\n\ncd").getLast? = some 10 then [] else [10]) ∧
    (∀ l ∈ lines_of (bytes "ab\n\ncd"), is_line l) :=
  file_line_read_lines 8 (bytes "ab\n\ncd") [.short 0, .short 2] [] (by decide) (by decide)
    (by decide)

/-! ## The line writer on bytes -/

theorem copied_length (buf : List Nat) (len : Nat) : (copied buf len).length = len := by
  simp [copied]

theorem vfs_write_complete (d : List Nat) (script : List vfs_step) (src : List Nat)
    (h : complete script) :
    ∃ script2, vfs_write ⟨d, script⟩ src = ((src.length : Int), ⟨d ++ src, script2⟩) ∧
      complete script2 := by
  rcases script with _ | ⟨e, sc⟩
  · exact ⟨[], by simp [vfs_write], h⟩
  · have he : e = .all := h e (by simp)
    subst he
    exact ⟨sc, by simp [vfs_write], fun e2 h2 => h e2 (by simp [h2])⟩

theorem file_line_write_ok (P : Nat) (base : List Nat) (filp : file) (ob : outputbuf)
    (E : List (List Nat)) (buf lastout : List Nat) (len : Nat)
    (hw : writes_as P base (filp, ob) E) (hlen : len ≤ MAX_OUTBUF_SIZE P) :
    ∃ filp2 ob2, file_line_write P filp buf len ob lastout =
        some ((len : Int) + 1, cstr buf, filp2, ob2) ∧
      writes_as P base (filp2, ob2) (E ++ [copied buf len]) := by
  obtain ⟨hc, hbl, hsum, hdata⟩ := hw
  simp only at hc hbl hsum hdata
  obtain ⟨d, script⟩ := filp
  by_cases hav : ob.availsize < len
  · obtain ⟨script2, hvw, hc2⟩ := vfs_write_complete d script (ob.buffer.take ob.currsize) hc
    have hnn : ¬ (((ob.buffer.take ob.currsize).length : Nat) : Int) < 0 := by omega
    refine ⟨⟨d ++ ob.buffer.take ob.currsize, script2⟩,
      ⟨poke (List.replicate (MAX_OUTBUF_SIZE P) 0) 0 (copied buf len), 0 + len,
        MAX_OUTBUF_SIZE P - len⟩, ?_, hc2, ?_, ?_, ?_⟩
    · have h1 : ¬ (List.replicate (MAX_OUTBUF_SIZE P) 0).length < 0 + len := by simp; omega
      have h0 : ¬ ((0 : Int) < 0) := by omega
      simp only [file_line_write, hav, if_true, hvw, hnn, if_false, h1, h0]
    · simp [poke_zero, copied_length]; omega
    · simp; omega
    · simp only at hdata
      simp [poke_zero, copied_length, hdata]
  · have hfit : ¬ ob.buffer.length < ob.currsize + len := by omega
    refine ⟨⟨d, script⟩, ⟨poke ob.buffer ob.currsize (copied buf len), ob.currsize + len,
      ob.availsize - len⟩, ?_, hc, ?_, ?_, ?_⟩
    · have h0 : ¬ ((0 : Int) < 0) := by omega
      simp only [file_line_write, hav, if_false, hfit, h0]
    · simp [poke, copied_length]; omega
    · simp; omega
    · simp only at hdata ⊢
      have e : (poke ob.buffer ob.currsize (copied buf len)).take (ob.currsize + len) =
          ob.buffer.take ob.currsize ++ copied buf len := by
        have hl : (ob.buffer.take ob.currsize).length = ob.currsize := by simp; omega
        unfold poke
        rw [List.append_assoc, List.take_append_eq_append_take, hl]
        simp [List.take_append_eq_append_take, copied_length, hl]
      rw [e, ← List.append_assoc, hdata]
      simp

theorem flush_ok (P : Nat) (base : List Nat) (st : file × outputbuf) (E : List (List Nat))
    (hw : writes_as P base st E) :
    (((byte_ops P).flush st).1).data = base ++ E.flatten := by
  obtain ⟨hc, _, _, hdata⟩ := hw
  obtain ⟨⟨d, script⟩, ob⟩ := st
  obtain ⟨script2, hvw, _⟩ := vfs_write_complete d script (ob.buffer.take ob.currsize) hc
  simp only [byte_ops, hvw]
  exact hdata

/-! ## The run on bytes follows the run on whole lines -/

theorem strlen_le_length (b : List Nat) : strlen b ≤ b.length := by
  unfold strlen
  induction b with
  | nil => simp [cstr]
  | cons c cs ih =>
    simp only [cstr]
    split
    · simp
    · simp; omega

theorem lines_of_eq_nil (B : List Nat) (h : lines_of B = []) : B = [] := by
  by_contra hne
  exact lines_of_ne_nil B hne h

theorem sim_read (P : Nat) (st : file × inputbuf) (L : List (List Nat)) (buf : List Nat)
    (h : reads_as P st L) (hbuf : buf.length ≤ P) :
    ∃ e b st2 L2, file_line_read P st.1 buf st.2 = some (e, b, st2) ∧
      read_line L buf = some (e, b, L2) ∧ reads_as P st2 L2 ∧ b.length ≤ P := by
  obtain ⟨⟨d, script⟩, inbuf⟩ := st
  obtain ⟨w, hw, hnf, h0, hfit, hL⟩ := h
  simp only at hw hnf h0 hfit hL
  rcases L with _ | ⟨l, L⟩
  · have hwd := lines_of_eq_nil _ hL
    simp at hwd
    obtain ⟨rfl, rfl⟩ := hwd
    obtain ⟨script2, inbuf2, hr, hw2, hnf2⟩ := file_line_read_eof P buf script inbuf hw hnf
    exact ⟨0, buf, (⟨[], script2⟩, inbuf2), [], hr, rfl,
      ⟨[], hw2, hnf2, by simp, by simp [lines_of_nil], by simp [lines_of_nil]⟩, hbuf⟩
  · have hne : w ++ d ≠ [] := by
      intro e; rw [e, lines_of_nil] at hL; exact absurd hL (by simp)
    obtain ⟨l2, w2, d2, script2, inbuf2, hr, hw2, hnf2, hl, h02⟩ :=
      file_line_read_line P buf d script inbuf w hw hnf h0 hfit hne
    rw [hL] at hl
    simp only [List.cons.injEq] at hl
    obtain ⟨rfl, hl2⟩ := hl
    have hlin : is_line l :=
      lines_of_is_line _ _ (le_refl _) h0 l (by rw [hL]; simp)
    have hlt : l.length < P := hfit l (by rw [hL]; simp)
    refine ⟨(l.length : Int), l, (⟨d2, script2⟩, inbuf2), L, hr, ?_,
      ⟨w2, hw2, hnf2, h02, ?_, hl2.symm⟩, by omega⟩
    · simp [read_line, cstr_eq_self l hlin.2.2]
    · intro x hx
      exact hfit x (by rw [hL, hl2]; exact List.mem_cons_of_mem _ hx)

theorem sim_write (P : Nat) (base : List Nat) (st : file × outputbuf) (E : List (List Nat))
    (buf lastout : List Nat) (h : writes_as P base st E) (hbuf : buf.length ≤ P) :
    ∃ e lo st2 E2, (byte_ops P).line_write st buf (strlen buf) lastout = some (e, lo, st2) ∧
      write_line E buf (strlen buf) lastout = some (e, lo, E2) ∧ writes_as P base st2 E2 ∧
      ¬ e < 0 := by
  obtain ⟨filp, ob⟩ := st
  have hl := strlen_le_length buf
  obtain ⟨filp2, ob2, hr, hw2⟩ := file_line_write_ok P base filp ob E buf lastout (strlen buf) h
    (by unfold MAX_OUTBUF_SIZE; omega)
  refine ⟨(strlen buf : Int) + 1, cstr buf, (filp2, ob2), E ++ [copied buf (strlen buf)], ?_,
    rfl, hw2, by omega⟩
  simp only [byte_ops, hr]

theorem sim_mk {P : Nat} {base : List Nat} {f1 f2 : file × inputbuf} {ft : file × outputbuf}
    {g1 g2 gt : List (List Nat)} {a b lo : List Nat} {ld w e i : Nat}
    (h1 : reads_as P f1 g1) (h2 : reads_as P f2 g2) (h3 : writes_as P base ft gt)
    (ha : a.length ≤ P) (hb : b.length ≤ P) :
    sim P base ⟨f1, f2, ft, a, b, lo, ld, w, e, i, false⟩
      ⟨g1, g2, gt, a, b, lo, ld, w, e, i, false⟩ := by
  unfold sim
  exact ⟨h1, h2, h3, rfl, rfl, rfl, rfl, rfl, rfl, rfl, rfl, rfl, ha, hb⟩

theorem sim_flow_OUT {P : Nat} {base : List Nat} {s : bstate} {t : lstate} (e : Int)
    (h : sim P base s t) : sim_flow P base (.OUT e s) (.OUT e t) := by
  simp only [sim_flow]; exact ⟨trivial, h⟩

theorem sim_flow_brk {P : Nat} {base : List Nat} {s : bstate} {t : lstate}
    (h : sim P base s t) : sim_flow P base (.brk s) (.brk t) := by
  simp only [sim_flow]; exact h

theorem sim_flow_go {P : Nat} {base : List Nat} {s : bstate} {t : lstate}
    (h : sim P base s t) : sim_flow P base (.go s) (.go t) := by
  simp only [sim_flow]; exact h

theorem sim_part2 (P : Nat) (base : List Nat) : ∀ (s : bstate) (t : lstate), sim P base s t →
    ∃ rs rt, part2 (byte_ops P) s = some rs ∧ part2 line_ops t = some rt ∧
      sim_flow P base rs rt := by
  rintro ⟨f1, f2, ft, a, b, lo, ld, w, e, i, rn⟩ ⟨g1, g2, gt, a2, b2, lo2, ld2, w2, e2, i2, rn2⟩ h
  simp only [sim] at h
  obtain ⟨h1, h2, h3, rfl, rfl, rfl, rfl, rfl, rfl, rfl, rfl, rfl, ha, hb⟩ := h
  simp only [part2]
  by_cases hw1 : w = 1
  · obtain ⟨e, lo', st2, E2, hwr, hwl, hws, hne⟩ := sim_write P base ft gt a lo h3 ha
    simp only [hw1, if_true, hwr, line_ops_line_write, hwl, hne, if_false]
    refine ⟨_, _, rfl, rfl, ?_⟩
    exact sim_flow_go (sim_mk h1 h2 hws ha hb)
  · by_cases hw2 : w = 2
    · obtain ⟨e, lo', st2, E2, hwr, hwl, hws, hne⟩ := sim_write P base ft gt b lo h3 hb
      simp only [hw2, if_true, hwr, line_ops_line_write, hwl, hne, if_false,
        show ¬ (2 : Nat) = 1 by decide]
      refine ⟨_, _, rfl, rfl, ?_⟩
      exact sim_flow_go (sim_mk h1 h2 hws ha hb)
    · simp only [hw1, hw2, if_false]
      refine ⟨_, _, rfl, rfl, ?_⟩
      exact sim_flow_go (sim_mk h1 h2 h3 ha hb)

theorem sim_part3_file2 (P : Nat) (base : List Nat) : ∀ (s : bstate) (t : lstate),
    sim P base s t →
    ∃ rs rt, part3_file2 (byte_ops P) s = some rs ∧ part3_file2 line_ops t = some rt ∧
      sim_flow P base rs rt := by
  rintro ⟨f1, f2, ft, a, b, lo, ld, w, e, i, rn⟩ ⟨g1, g2, gt, a2, b2, lo2, ld2, w2, e2, i2, rn2⟩ h
  simp only [sim] at h
  obtain ⟨h1, h2, h3, rfl, rfl, rfl, rfl, rfl, rfl, rfl, rfl, rfl, ha, hb⟩ := h
  simp only [part3_file2]
  by_cases hl : ld = 0 ∨ ld = 2
  · obtain ⟨v, b', st2, L2, hr, hrl, hrs, hb'⟩ := sim_read P f2 g2 b h2 hb
    have hr2 : (byte_ops P).read2 ft f2 b = some (v, b', st2) := hr
    simp only [hl, if_true, hr2, line_ops_read2, hrl]
    by_cases hv : v ≤ 0
    · by_cases hv2 : v < 0
      · simp only [hv, hv2, if_true]
        refine ⟨_, _, rfl, rfl, ?_⟩
        exact sim_flow_OUT _ (sim_mk h1 hrs h3 ha hb')
      · simp only [hv, hv2, if_true, if_false]
        refine ⟨_, _, rfl, rfl, ?_⟩
        exact sim_flow_brk (sim_mk h1 hrs h3 ha hb')
    · simp only [hv, if_false]
      refine ⟨_, _, rfl, rfl, ?_⟩
      exact sim_flow_go (sim_mk h1 hrs h3 ha hb')
  · simp only [hl, if_false]
    refine ⟨_, _, rfl, rfl, ?_⟩
    exact sim_flow_go (sim_mk h1 h2 h3 ha hb)

theorem sim_part3 (P : Nat) (base : List Nat) : ∀ (s : bstate) (t : lstate),
    sim P base s t →
    ∃ rs rt, part3 (byte_ops P) s = some rs ∧ part3 line_ops t = some rt ∧
      sim_flow P base rs rt := by
  rintro ⟨f1, f2, ft, a, b, lo, ld, w, e, i, rn⟩ ⟨g1, g2, gt, a2, b2, lo2, ld2, w2, e2, i2, rn2⟩ h
  have h' := h
  simp only [sim] at h
  obtain ⟨h1, h2, h3, rfl, rfl, rfl, rfl, rfl, rfl, rfl, rfl, rfl, ha, hb⟩ := h
  simp only [part3]
  by_cases hl : ld = 0 ∨ ld = 1
  · obtain ⟨v, a', st2, L2, hr, hrl, hrs, ha'⟩ := sim_read P f1 g1 a h1 ha
    have hr2 : (byte_ops P).read1 ft f1 a = some (v, a', st2) := hr
    simp only [hl, if_true, hr2, line_ops_read1, hrl]
    by_cases hv : v ≤ 0
    · by_cases hv2 : v < 0
      · simp only [hv, hv2, if_true]
        refine ⟨_, _, rfl, rfl, ?_⟩
        exact sim_flow_OUT _ (sim_mk hrs h2 h3 ha' hb)
      · simp only [hv, hv2, if_true, if_false]
        refine ⟨_, _, rfl, rfl, ?_⟩
        exact sim_flow_brk (sim_mk hrs h2 h3 ha' hb)
    · simp only [hv, if_false]
      exact sim_part3_file2 P base _ _ (sim_mk hrs h2 h3 ha' hb)
  · simp only [hl, if_false]
    exact sim_part3_file2 P base _ _ h'

theorem sim_loop_body (P : Nat) (base : List Nat) (F S U : Int) : ∀ (s : bstate) (t : lstate),
    sim P base s t →
    ∃ rs rt, loop_body (byte_ops P) F S U s = some rs ∧ loop_body line_ops F S U t = some rt ∧
      sim_flow P base rs rt := by
  rintro ⟨f1, f2, ft, a, b, lo, ld, w, e, i, rn⟩ ⟨g1, g2, gt, a2, b2, lo2, ld2, w2, e2, i2, rn2⟩ h
  have h' := h
  simp only [sim] at h
  obtain ⟨h1, h2, h3, rfl, rfl, rfl, rfl, rfl, rfl, rfl, rfl, rfl, ha, hb⟩ := h
  simp only [loop_body]
  rcases hp : part1 F S U a b lo w ld with err | ⟨w', ld'⟩
  · simp only
    exact ⟨_, _, rfl, rfl, sim_flow_OUT _ h'⟩
  · simp only
    obtain ⟨rs, rt, hs, ht, hf⟩ := sim_part2 P base ⟨f1, f2, ft, a, b, lo, ld', w', e, i, false⟩
      ⟨g1, g2, gt, a, b, lo, ld', w', e, i, false⟩
      (sim_mk h1 h2 h3 ha hb)
    rw [hs, ht]
    cases rs <;> cases rt <;> simp only [sim_flow] at hf <;> simp only
    · exact ⟨_, _, rfl, rfl, by simp only [sim_flow]; exact hf⟩
    · exact ⟨_, _, rfl, rfl, sim_flow_brk hf⟩
    · exact sim_part3 P base _ _ hf

theorem sim_main_loop (P : Nat) (base : List Nat) (F S U : Int) : ∀ (n : Nat) (s : bstate)
    (t : lstate) (rt : flow lstate), sim P base s t → main_loop line_ops F S U n t = some rt →
    ∃ rs, main_loop (byte_ops P) F S U n s = some rs ∧ sim_flow P base rs rt ∧
      ∀ x, rt ≠ .brk x := by
  intro n
  induction n with
  | zero => intro s t rt _ h; simp [main_loop] at h
  | succ n ih =>
    intro s t rt h hrun
    have he : s.empty = t.empty := h.2.2.2.2.2.2.2.2.1
    simp only [main_loop] at hrun ⊢
    rw [he]
    by_cases h0 : t.empty = 0
    · simp only [h0, if_true] at hrun ⊢
      obtain ⟨bs, bt, hs, ht, hf⟩ := sim_loop_body P base F S U s t h
      rw [ht] at hrun
      rw [hs]
      cases bs <;> cases bt <;> simp only [sim_flow] at hf <;> simp only at hrun ⊢
      · cases hrun
        exact ⟨_, rfl, by simp only [sim_flow]; exact hf, fun x hx => by cases hx⟩
      · cases hrun
        exact ⟨_, rfl, sim_flow_go hf, fun x hx => by cases hx⟩
      · exact ih _ _ _ hf hrun
    · simp only [h0, if_false] at hrun ⊢
      cases hrun
      exact ⟨_, rfl, sim_flow_go h, fun x hx => by cases hx⟩

theorem sim_drain1_body (P : Nat) (base : List Nat) (F S U : Int) : ∀ (s : bstate) (t : lstate),
    sim P base s t →
    ∃ rs rt, drain1_body (byte_ops P) F S U s = some rs ∧
      drain1_body line_ops F S U t = some rt ∧ sim_flow P base rs rt := by
  rintro ⟨f1, f2, ft, a, b, lo, ld, w, e, i, rn⟩ ⟨g1, g2, gt, a2, b2, lo2, ld2, w2, e2, i2, rn2⟩ h
  have h' := h
  simp only [sim] at h
  obtain ⟨h1, h2, h3, rfl, rfl, rfl, rfl, rfl, rfl, rfl, rfl, rfl, ha, hb⟩ := h
  simp only [drain1_body]
  rcases hp : drain_part1 F S U a lo 1 with err | w'
  · simp only
    exact ⟨_, _, rfl, rfl, sim_flow_OUT _ h'⟩
  · simp only
    have hmid : ∃ rs rt,
        (if w' = 1 then part2 (byte_ops P) ⟨f1, f2, ft, a, b, lo, ld, w', e, i, false⟩
          else some (.go ⟨f1, f2, ft, a, b, lo, ld, w', e, i, false⟩)) = some rs ∧
        (if w' = 1 then part2 line_ops ⟨g1, g2, gt, a, b, lo, ld, w', e, i, false⟩
          else some (.go ⟨g1, g2, gt, a, b, lo, ld, w', e, i, false⟩)) = some rt ∧
        sim_flow P base rs rt := by
      by_cases hw : w' = 1
      · simp only [hw, if_true]
        exact sim_part2 P base _ _ (sim_mk h1 h2 h3 ha hb)
      · simp only [hw, if_false]
        exact ⟨_, _, rfl, rfl, sim_flow_go (sim_mk h1 h2 h3 ha hb)⟩
    obtain ⟨rs, rt, hs, ht, hf⟩ := hmid
    rw [hs, ht]
    cases rs <;> cases rt <;> simp only [sim_flow] at hf <;> simp only
    · exact ⟨_, _, rfl, rfl, by simp only [sim_flow]; exact hf⟩
    · exact ⟨_, _, rfl, rfl, sim_flow_brk hf⟩
    · rename_i s2 t2
      obtain ⟨f1, f2, ft, a, b, lo, ld, w, e, i, rn⟩ := s2
      obtain ⟨g1, g2, gt, a2, b2, lo2, ld2, w2, e2, i2, rn2⟩ := t2
      simp only [sim] at hf
      obtain ⟨h1, h2, h3, rfl, rfl, rfl, rfl, rfl, rfl, rfl, rfl, rfl, ha, hb⟩ := hf
      obtain ⟨v, a', st2, L2, hr, hrl, hrs, ha'⟩ := sim_read P f1 g1 a h1 ha
      have hr2 : (byte_ops P).read1 ft f1 a = some (v, a', st2) := hr
      simp only [hr2, line_ops_read1, hrl]
      by_cases hv : v > 0
      · simp only [hv, if_true]
        exact ⟨_, _, rfl, rfl, sim_flow_go (sim_mk hrs h2 h3 ha' hb)⟩
      · by_cases hv2 : v < 0
        · simp only [hv, hv2, if_true, if_false]
          exact ⟨_, _, rfl, rfl, sim_flow_OUT _ (sim_mk hrs h2 h3 ha' hb)⟩
        · simp only [hv, hv2, if_false]
          exact ⟨_, _, rfl, rfl, sim_flow_brk (sim_mk hrs h2 h3 ha' hb)⟩

theorem sim_drain2_body (P : Nat) (base : List Nat) (F S U : Int) : ∀ (s : bstate) (t : lstate),
    sim P base s t →
    ∃ rs rt, drain2_body (byte_ops P) F S U s = some rs ∧
      drain2_body line_ops F S U t = some rt ∧ sim_flow P base rs rt := by
  rintro ⟨f1, f2, ft, a, b, lo, ld, w, e, i, rn⟩ ⟨g1, g2, gt, a2, b2, lo2, ld2, w2, e2, i2, rn2⟩ h
  have h' := h
  simp only [sim] at h
  obtain ⟨h1, h2, h3, rfl, rfl, rfl, rfl, rfl, rfl, rfl, rfl, rfl, ha, hb⟩ := h
  simp only [drain2_body]
  rcases hp : drain_part1 F S U b lo 2 with err | w'
  · simp only
    exact ⟨_, _, rfl, rfl, sim_flow_OUT _ h'⟩
  · simp only
    have hmid : ∃ rs rt,
        (if w' = 2 then part2 (byte_ops P) ⟨f1, f2, ft, a, b, lo, ld, w', e, i, false⟩
          else some (.go ⟨f1, f2, ft, a, b, lo, ld, w', e, i, false⟩)) = some rs ∧
        (if w' = 2 then part2 line_ops ⟨g1, g2, gt, a, b, lo, ld, w', e, i, false⟩
          else some (.go ⟨g1, g2, gt, a, b, lo, ld, w', e, i, false⟩)) = some rt ∧
        sim_flow P base rs rt := by
      by_cases hw : w' = 2
      · simp only [hw, if_true]
        exact sim_part2 P base _ _ (sim_mk h1 h2 h3 ha hb)
      · simp only [hw, if_false]
        exact ⟨_, _, rfl, rfl, sim_flow_go (sim_mk h1 h2 h3 ha hb)⟩
    obtain ⟨rs, rt, hs, ht, hf⟩ := hmid
    rw [hs, ht]
    cases rs <;> cases rt <;> simp only [sim_flow] at hf <;> simp only
    · exact ⟨_, _, rfl, rfl, by simp only [sim_flow]; exact hf⟩
    · exact ⟨_, _, rfl, rfl, sim_flow_brk hf⟩
    · rename_i s2 t2
      obtain ⟨f1, f2, ft, a, b, lo, ld, w, e, i, rn⟩ := s2
      obtain ⟨g1, g2, gt, a2, b2, lo2, ld2, w2, e2, i2, rn2⟩ := t2
      simp only [sim] at hf
      obtain ⟨h1, h2, h3, rfl, rfl, rfl, rfl, rfl, rfl, rfl, rfl, rfl, ha, hb⟩ := hf
      obtain ⟨v, b', st2, L2, hr, hrl, hrs, hb'⟩ := sim_read P f2 g2 b h2 hb
      have hr2 : (byte_ops P).read2 ft f2 b = some (v, b', st2) := hr
      simp only [hr2, line_ops_read2, hrl]
      by_cases hv : v > 0
      · simp only [hv, if_true]
        exact ⟨_, _, rfl, rfl, sim_flow_go (sim_mk h1 hrs h3 ha hb')⟩
      · by_cases hv2 : v < 0
        · simp only [hv, hv2, if_true, if_false]
          exact ⟨_, _, rfl, rfl, sim_flow_OUT _ (sim_mk h1 hrs h3 ha hb')⟩
        · simp only [hv, hv2, if_false]
          exact ⟨_, _, rfl, rfl, sim_flow_brk (sim_mk h1 hrs h3 ha hb')⟩

theorem sim_drain1 (P : Nat) (base : List Nat) (F S U : Int) : ∀ (n : Nat) (s : bstate)
    (t : lstate) (rt : flow lstate), sim P base s t → drain1 line_ops F S U n t = some rt →
    ∃ rs, drain1 (byte_ops P) F S U n s = some rs ∧ sim_flow P base rs rt ∧
      ∀ x, rt ≠ .brk x := by
  intro n
  induction n with
  | zero => intro s t rt _ h; simp [drain1] at h
  | succ n ih =>
    intro s t rt h hrun
    simp only [drain1] at hrun ⊢
    obtain ⟨bs, bt, hs, ht, hf⟩ := sim_drain1_body P base F S U s t h
    rw [ht] at hrun
    rw [hs]
    cases bs <;> cases bt <;> simp only [sim_flow] at hf <;> simp only at hrun ⊢
    · cases hrun
      exact ⟨_, rfl, by simp only [sim_flow]; exact hf, fun x hx => by cases hx⟩
    · cases hrun
      exact ⟨_, rfl, sim_flow_go hf, fun x hx => by cases hx⟩
    · exact ih _ _ _ hf hrun

theorem sim_drain2 (P : Nat) (base : List Nat) (F S U : Int) : ∀ (n : Nat) (s : bstate)
    (t : lstate) (rt : flow lstate), sim P base s t → drain2 line_ops F S U n t = some rt →
    ∃ rs, drain2 (byte_ops P) F S U n s = some rs ∧ sim_flow P base rs rt ∧
      ∀ x, rt ≠ .brk x := by
  intro n
  induction n with
  | zero => intro s t rt _ h; simp [drain2] at h
  | succ n ih =>
    intro s t rt h hrun
    simp only [drain2] at hrun ⊢
    obtain ⟨bs, bt, hs, ht, hf⟩ := sim_drain2_body P base F S U s t h
    rw [ht] at hrun
    rw [hs]
    cases bs <;> cases bt <;> simp only [sim_flow] at hf <;> simp only at hrun ⊢
    · cases hrun
      exact ⟨_, rfl, by simp only [sim_flow]; exact hf, fun x hx => by cases hx⟩
    · cases hrun
      exact ⟨_, rfl, sim_flow_go hf, fun x hx => by cases hx⟩
    · exact ih _ _ _ hf hrun

theorem sim_result_OUT {P : Nat} {base : List Nat} {s : bstate} {t : lstate} (e : Int)
    (h : sim P base s t) : sim_result base (e, s) (e, t) := by
  obtain ⟨_, _, _, _, _, _, _, _, _, hi, hr, hf, _, _⟩ := h
  refine ⟨rfl, hi, hr, ?_⟩
  intro ht
  simp only [hf] at ht
  exact absurd ht (by decide)

theorem sim_finish {P : Nat} {base : List Nat} {s : bstate} {t : lstate}
    (h : sim P base s t) : sim_result base (finish (byte_ops P) s) (finish line_ops t) := by
  obtain ⟨_, _, h3, _, _, _, _, _, _, hi, hr, hf, _, _⟩ := h
  have hfl := flush_ok P base s.file_temp t.file_temp h3
  simp only [finish, line_ops_copy_to_user, line_ops_flush, ne_eq, not_true, if_false,
    show ∀ n, (byte_ops P).copy_to_user n = 0 from fun _ => rfl]
  exact ⟨rfl, hi, rfl, fun _ => hfl⟩

theorem sim_drain_phase (P : Nat) (base : List Nat) (F S U : Int) (n : Nat) (s : bstate)
    (t : lstate) (q : Int × lstate) (h : sim P base s t)
    (hrun : drain_phase line_ops F S U n t = some q) :
    ∃ r, drain_phase (byte_ops P) F S U n s = some r ∧ sim_result base r q := by
  have he : s.empty = t.empty := h.2.2.2.2.2.2.2.2.1
  simp only [drain_phase] at hrun ⊢
  rw [he]
  by_cases h2 : t.empty = 2
  · simp only [h2, if_true] at hrun ⊢
    rcases hd : drain1 line_ops F S U n t with _ | rt
    · rw [hd] at hrun; cases hrun
    · obtain ⟨rs, hs, hf, hnb⟩ := sim_drain1 P base F S U n s t rt h hd
      rw [hd] at hrun
      rw [hs]
      cases rs <;> cases rt <;> simp only [sim_flow] at hf <;> simp only at hrun ⊢
      · cases hrun
        obtain ⟨rfl, hf⟩ := hf
        exact ⟨_, rfl, sim_result_OUT _ hf⟩
      · exact absurd rfl (hnb _)
      · rename_i s2 t2
        have he2 : s2.empty = t2.empty := hf.2.2.2.2.2.2.2.2.1
        rw [he2]
        by_cases h1 : t2.empty = 1
        · simp only [h1, if_true] at hrun ⊢
          rcases hd2 : drain2 line_ops F S U n t2 with _ | rt
          · rw [hd2] at hrun; cases hrun
          · obtain ⟨rs, hs2, hf2, hnb2⟩ := sim_drain2 P base F S U n s2 t2 rt hf hd2
            rw [hd2] at hrun
            rw [hs2]
            cases rs <;> cases rt <;> simp only [sim_flow] at hf2 <;> simp only at hrun ⊢
            · cases hrun
              obtain ⟨rfl, hf2⟩ := hf2
              exact ⟨_, rfl, sim_result_OUT _ hf2⟩
            · exact absurd rfl (hnb2 _)
            · cases hrun
              exact ⟨_, rfl, sim_finish hf2⟩
        · simp only [h1, if_false] at hrun ⊢
          cases hrun
          exact ⟨_, rfl, sim_finish hf⟩
  · simp only [h2, if_false] at hrun ⊢
    have he2 : s.empty = t.empty := h.2.2.2.2.2.2.2.2.1
    rw [he2]
    by_cases h1 : t.empty = 1
    · simp only [h1, if_true] at hrun ⊢
      rcases hd2 : drain2 line_ops F S U n t with _ | rt
      · rw [hd2] at hrun; cases hrun
      · obtain ⟨rs, hs2, hf2, hnb2⟩ := sim_drain2 P base F S U n s t rt h hd2
        rw [hd2] at hrun
        rw [hs2]
        cases rs <;> cases rt <;> simp only [sim_flow] at hf2 <;> simp only at hrun ⊢
        · cases hrun
          obtain ⟨rfl, hf2⟩ := hf2
          exact ⟨_, rfl, sim_result_OUT _ hf2⟩
        · exact absurd rfl (hnb2 _)
        · cases hrun
          exact ⟨_, rfl, sim_finish hf2⟩
    · simp only [h1, if_false] at hrun ⊢
      cases hrun
      exact ⟨_, rfl, sim_finish h⟩

theorem sim_merge_phase (P : Nat) (base : List Nat) (F S U : Int) (n m : Nat) (s : bstate)
    (t : lstate) (q : Int × lstate) (h : sim P base s t)
    (hrun : merge_phase line_ops F S U n m t = some q) :
    ∃ r, merge_phase (byte_ops P) F S U n m s = some r ∧ sim_result base r q := by
  simp only [merge_phase] at hrun ⊢
  rcases hd : main_loop line_ops F S U n t with _ | rt
  · rw [hd] at hrun; cases hrun
  · obtain ⟨rs, hs, hf, hnb⟩ := sim_main_loop P base F S U n s t rt h hd
    rw [hd] at hrun
    rw [hs]
    cases rs <;> cases rt <;> simp only [sim_flow] at hf <;> simp only at hrun ⊢
    · cases hrun
      obtain ⟨rfl, hf⟩ := hf
      exact ⟨_, rfl, sim_result_OUT _ hf⟩
    · exact absurd rfl (hnb _)
    · exact sim_drain_phase P base F S U m _ _ q hf hrun

theorem sim_initial_reads (P : Nat) (base : List Nat) : ∀ (s : bstate) (t : lstate),
    sim P base s t →
    ∃ rs rt, initial_reads (byte_ops P) s = some rs ∧ initial_reads line_ops t = some rt ∧
      sim_flow P base rs rt ∧ ∀ x, rt ≠ .brk x := by
  rintro ⟨f1, f2, ft, a, b, lo, ld, w, e, i, rn⟩ ⟨g1, g2, gt, a2, b2, lo2, ld2, w2, e2, i2, rn2⟩ h
  simp only [sim] at h
  obtain ⟨h1, h2, h3, rfl, rfl, rfl, rfl, rfl, rfl, rfl, rfl, rfl, ha, hb⟩ := h
  simp only [initial_reads]
  obtain ⟨v, a', st1, L1, hr, hrl, hrs, ha'⟩ := sim_read P f1 g1 a h1 ha
  have hr1 : (byte_ops P).read1 ft f1 a = some (v, a', st1) := hr
  obtain ⟨v2, b', st2, L2, hrb, hrlb, hrsb, hb'⟩ := sim_read P f2 g2 b h2 hb
  have hr2 : (byte_ops P).read2 ft f2 b = some (v2, b', st2) := hrb
  simp only [hr1, line_ops_read1, hrl, hr2, line_ops_read2, hrlb]
  by_cases hv : v < 0
  · simp only [hv, if_true]
    exact ⟨_, _, rfl, rfl, sim_flow_OUT _ (sim_mk hrs h2 h3 ha' hb), fun x hx => by cases hx⟩
  · simp only [hv, if_false]
    by_cases hv2 : v2 < 0
    · simp only [hv2, if_true]
      exact ⟨_, _, rfl, rfl, sim_flow_OUT _ (sim_mk hrs hrsb h3 ha' hb'),
        fun x hx => by cases hx⟩
    · simp only [hv2, if_false]
      exact ⟨_, _, rfl, rfl, sim_flow_go (sim_mk hrs hrsb h3 ha' hb'), fun x hx => by cases hx⟩

theorem sim_xmergesort (P : Nat) (base : List Nat) (flags n : Nat) (m : heap)
    (f1 f2 : file × inputbuf)
    (ft : file × outputbuf) (A B : List (List Nat)) (q : Int × lstate)
    (hm1 : m.inbuf1.length ≤ P) (hm2 : m.inbuf2.length ≤ P)
    (h1 : reads_as P f1 A) (h2 : reads_as P f2 B) (h3 : writes_as P base ft [])
    (hrun : xmergesort line_ops flags n m A B [] = some q) :
    ∃ r, xmergesort (byte_ops P) flags n m f1 f2 ft = some r ∧ sim_result base r q := by
  simp only [xmergesort] at hrun ⊢
  obtain ⟨rs, rt, hs, ht, hf, hnb⟩ := sim_initial_reads P base
    ⟨f1, f2, ft, m.inbuf1, m.inbuf2, m.lastout, 0, 0, 0, 0, false⟩
    ⟨A, B, [], m.inbuf1, m.inbuf2, m.lastout, 0, 0, 0, 0, false⟩
    (sim_mk h1 h2 h3 hm1 hm2)
  rw [ht] at hrun
  rw [hs]
  cases rs <;> cases rt <;> simp only [sim_flow] at hf <;> simp only at hrun ⊢
  · cases hrun
    obtain ⟨rfl, hf⟩ := hf
    exact ⟨_, rfl, sim_result_OUT _ hf⟩
  · exact absurd rfl (hnb _)
  · exact sim_merge_phase P base _ _ _ n n _ _ q hf hrun

/-! ## More passes than needed change nothing -/

theorem main_loop_mono {ρ1 ρ2 ω : Type} (K : kernel_ops ρ1 ρ2 ω) (F S U : Int) :
    ∀ (n m : Nat) (s : locals ρ1 ρ2 ω) (r : flow (locals ρ1 ρ2 ω)), n ≤ m →
      main_loop K F S U n s = some r → main_loop K F S U m s = some r := by
  intro n
  induction n with
  | zero => intro m s r _ h; simp [main_loop] at h
  | succ n ih =>
    intro m s r hnm h
    obtain ⟨m, rfl⟩ : ∃ k, m = k + 1 := ⟨m - 1, by omega⟩
    simp only [main_loop] at h ⊢
    by_cases h0 : s.empty = 0
    · simp only [h0, if_true] at h ⊢
      rcases hb : loop_body K F S U s with _ | fl
      · rw [hb] at h; cases h
      · rw [hb] at h
        cases fl <;> simp only at h ⊢
        · exact h
        · exact h
        · exact ih m _ r (by omega) h
    · simp only [h0, if_false] at h ⊢
      exact h

theorem drain1_mono {ρ1 ρ2 ω : Type} (K : kernel_ops ρ1 ρ2 ω) (F S U : Int) :
    ∀ (n m : Nat) (s : locals ρ1 ρ2 ω) (r : flow (locals ρ1 ρ2 ω)), n ≤ m →
      drain1 K F S U n s = some r → drain1 K F S U m s = some r := by
  intro n
  induction n with
  | zero => intro m s r _ h; simp [drain1] at h
  | succ n ih =>
    intro m s r hnm h
    obtain ⟨m, rfl⟩ : ∃ k, m = k + 1 := ⟨m - 1, by omega⟩
    simp only [drain1] at h ⊢
    rcases hb : drain1_body K F S U s with _ | fl
    · rw [hb] at h; cases h
    · rw [hb] at h
      cases fl <;> simp only at h ⊢
      · exact h
      · exact h
      · exact ih m _ r (by omega) h

theorem drain2_mono {ρ1 ρ2 ω : Type} (K : kernel_ops ρ1 ρ2 ω) (F S U : Int) :
    ∀ (n m : Nat) (s : locals ρ1 ρ2 ω) (r : flow (locals ρ1 ρ2 ω)), n ≤ m →
      drain2 K F S U n s = some r → drain2 K F S U m s = some r := by
  intro n
  induction n with
  | zero => intro m s r _ h; simp [drain2] at h
  | succ n ih =>
    intro m s r hnm h
    obtain ⟨m, rfl⟩ : ∃ k, m = k + 1 := ⟨m - 1, by omega⟩
    simp only [drain2] at h ⊢
    rcases hb : drain2_body K F S U s with _ | fl
    · rw [hb] at h; cases h
    · rw [hb] at h
      cases fl <;> simp only at h ⊢
      · exact h
      · exact h
      · exact ih m _ r (by omega) h

theorem drain_phase_mono {ρ1 ρ2 ω : Type} (K : kernel_ops ρ1 ρ2 ω) (F S U : Int)
    (n m : Nat) (s : locals ρ1 ρ2 ω) (r : Int × locals ρ1 ρ2 ω) (hnm : n ≤ m)
    (h : drain_phase K F S U n s = some r) : drain_phase K F S U m s = some r := by
  have second : ∀ s : locals ρ1 ρ2 ω,
      (match (if s.empty = 1 then drain2 K F S U n s else some (.go s)) with
        | none => none
        | some (.OUT err s) => some (err, s)
        | some (.brk s) => some (0, s)
        | some (.go s) => some (finish K s)) = some r →
      (match (if s.empty = 1 then drain2 K F S U m s else some (.go s)) with
        | none => none
        | some (.OUT err s) => some (err, s)
        | some (.brk s) => some (0, s)
        | some (.go s) => some (finish K s)) = some r := by
    intro s h
    by_cases h1 : s.empty = 1
    · simp only [h1, if_true] at h ⊢
      rcases hd : drain2 K F S U n s with _ | fl
      · rw [hd] at h; cases h
      · rw [drain2_mono K F S U n m s fl hnm hd]
        rw [hd] at h
        exact h
    · simp only [h1, if_false] at h ⊢
      exact h
  simp only [drain_phase] at h ⊢
  by_cases h2 : s.empty = 2
  · simp only [h2, if_true] at h ⊢
    rcases hd : drain1 K F S U n s with _ | fl
    · rw [hd] at h; cases h
    · rw [drain1_mono K F S U n m s fl hnm hd]
      rw [hd] at h
      cases fl <;> simp only at h ⊢
      · exact h
      · exact h
      · exact second _ h
  · simp only [h2, if_false] at h ⊢
    exact second _ h

theorem xmergesort_mono {ρ1 ρ2 ω : Type} (K : kernel_ops ρ1 ρ2 ω) (flags n m : Nat) (hp : heap)
    (f1 : ρ1) (f2 : ρ2) (ft : ω) (r : Int × locals ρ1 ρ2 ω) (hnm : n ≤ m)
    (h : xmergesort K flags n hp f1 f2 ft = some r) :
    xmergesort K flags m hp f1 f2 ft = some r := by
  simp only [xmergesort] at h ⊢
  rcases hi : initial_reads K
      ⟨f1, f2, ft, hp.inbuf1, hp.inbuf2, hp.lastout, 0, 0, 0, 0, false⟩ with _ | fl
  · rw [hi] at h; cases h
  · rw [hi] at h
    cases fl <;> simp only at h ⊢
    · exact h
    · exact h
    · simp only [merge_phase] at h ⊢
      rcases hd : main_loop K (INSEN_FLAG flags) (SORT_FLAG flags) (UNIQ_FLAG flags) n _
        with _ | fl
      · rw [hd] at h; cases h
      · rw [main_loop_mono K _ _ _ n m _ fl hnm hd]
        rw [hd] at h
        cases fl <;> simp only at h ⊢
        · exact h
        · exact h
        · exact drain_phase_mono K _ _ _ n m _ r hnm h

theorem lines_from_length : ∀ (s cur : List Nat),
    (lines_from cur s).length ≤ s.length + (if cur = [] then 0 else 1) := by
  intro s
  induction s with
  | nil => intro cur; by_cases h : cur = [] <;> simp [lines_from, h]
  | cons c cs ih =>
    intro cur
    by_cases hc : c = 10
    · have := ih []
      simp only [lines_from, hc, if_true, List.length_cons] at this ⊢
      split_ifs <;> omega
    · have := ih (cur ++ [c])
      simp only [lines_from, hc, if_false, List.length_cons] at this ⊢
      simp only [List.append_eq_nil, List.cons_ne_self, and_false, if_false] at this
      split_ifs <;> omega

theorem lines_of_length (s : List Nat) : (lines_of s).length ≤ s.length := by
  simpa [lines_of] using lines_from_length s []


/-- The run on byte files follows the run on whole lines. For input streams without NUL whose
lines are shorter than `PAGE_SIZE`, reads that never fail (whatever the chunks they deliver),
writes that transfer all their bytes, and line buffers that hold at most `PAGE_SIZE` bytes when
they are allocated, `xmergesort_bytes` returns what `xmergesort_lines` returns on the lines of
the two streams, with the same line count; after the rename the temporary file holds its former
bytes followed by the lines written. -/
theorem xmergesort_bytes_lines (P flags : Nat) (m : heap) (s1 s2 : List Nat)
    (sc1 sc2 : List vfs_step)
    (ft : file) (hm1 : m.inbuf1.length ≤ P) (hm2 : m.inbuf2.length ≤ P)
    (h1 : 0 ∉ s1) (h2 : 0 ∉ s2) (hf1 : ∀ l ∈ lines_of s1, l.length < P)
    (hf2 : ∀ l ∈ lines_of s2, l.length < P) (hn1 : no_fail sc1) (hn2 : no_fail sc2)
    (hc : complete ft.script) :
    ∃ r q, xmergesort_bytes P flags m ⟨s1, sc1⟩ ⟨s2, sc2⟩ ft = some r ∧
      xmergesort_lines flags m (lines_of s1) (lines_of s2) = some q ∧
      sim_result ft.data r q := by
  have hA : ∀ l ∈ lines_of s1, is_line l := lines_of_is_line _ _ (le_refl _) h1
  have hB : ∀ l ∈ lines_of s2, is_line l := lines_of_is_line _ _ (le_refl _) h2
  have hq : ∃ q, xmergesort_lines flags m (lines_of s1) (lines_of s2) = some q := by
    by_cases hne : lines_of s1 ≠ [] ∨ lines_of s2 ≠ []
    · obtain ⟨_, r, _, hr, _⟩ := xmergesort_lines_spec flags m _ _ hA hB hne
      exact ⟨r, hr⟩
    · simp only [ne_eq, not_or, not_not] at hne
      rw [hne.1, hne.2, xmergesort_lines_empty]
      split
      · exact ⟨_, rfl⟩
      · split <;> exact ⟨_, rfl⟩
  obtain ⟨q, hq⟩ := hq
  have hl1 := lines_of_length s1
  have hl2 := lines_of_length s2
  have hrun := xmergesort_mono line_ops flags _ (s1.length + s2.length + 2) m _ _ _ q
    (by omega) hq
  have hw : window_is P (inputbuf_init P) [] := ⟨by simp [inputbuf_init], rfl, Or.inl rfl⟩
  obtain ⟨r, hr, hs⟩ := sim_xmergesort P ft.data flags _ m (⟨s1, sc1⟩, inputbuf_init P)
    (⟨s2, sc2⟩, inputbuf_init P) (ft, outputbuf_init P) _ _ q hm1 hm2
    ⟨[], hw, hn1, by simpa using h1, by simpa using hf1, rfl⟩
    ⟨[], hw, hn2, by simpa using h2, by simpa using hf2, rfl⟩
    ⟨hc, by simp [outputbuf_init], by simp [outputbuf_init], by simp [outputbuf_init]⟩ hrun
  exact ⟨r, q, hr, hq, hs⟩

theorem xmergesort_bytes_lines_example :
    ∃ r q, xmergesort_bytes 8 0x22 ⟨[], [], bytes "b\n"⟩ ⟨bytes "b\nd\n", [.short 1]⟩
        ⟨bytes "a\nc", []⟩ ⟨[], []⟩ = some r ∧
      xmergesort_lines 0x22 ⟨[], [], bytes "b\n"⟩ (lines_of (bytes "b\nd\n"))
        (lines_of (bytes "a\nc")) = some q ∧
      sim_result [] r q :=
  xmergesort_bytes_lines 8 0x22 ⟨[], [], bytes "b\n"⟩ (bytes "b\nd\n") (bytes "a\nc")
    [.short 1] [] ⟨[], []⟩ (by decide) (by decide)
    (by decide) (by decide) (by decide) (by decide) (by decide) (by decide)
    (by simp [complete])

/-! ## Lines of `PAGE_SIZE` bytes or more -/

theorem scan_found_short (P : Nat) (buffer : List Nat) : ∀ (n i : Nat) (data : List Nat) (k : Nat)
    (d : List Nat), scan P buffer n i data = some (.found k d) → d.length + 1 ≤ P := by
  intro n
  induction n with
  | zero => intro i data k d h; simp [scan] at h
  | succ n ih =>
    intro i data k d h
    simp only [scan] at h
    rcases hb : buffer[i]? with _ | c
    · rw [hb] at h; cases h
    · rw [hb] at h
      simp only at h
      by_cases hc : c = 10
      · simp only [hc, if_true] at h
        by_cases hl : data.length + 2 ≤ P
        · simp only [hl, if_true, Option.some.injEq, scan_result.found.injEq] at h
          rw [← h.2]
          simp
          omega
        · simp only [hl, if_false] at h
          cases h
      · simp only [hc, if_false] at h
        by_cases hl : data.length < P
        · simp only [hl, if_true] at h
          exact ih _ _ _ _ h
        · simp only [hl, if_false] at h
          cases h

theorem read_start_short (P : Nat) : ∀ (fuel : Nat) (filp : file) (inbuf : inputbuf)
    (buf : List Nat) (e : Int) (b : List Nat) (f : file) (ib : inputbuf),
    read_start P fuel filp inbuf buf = some (e, b, f, ib) →
    e < 0 ∨ (e < (P : Int) ∧ b.length < P) := by
  intro fuel
  induction fuel with
  | zero => intro filp inbuf buf e b f ib h; simp [read_start] at h
  | succ n ih =>
    intro filp inbuf buf e b f ib h
    simp only [read_start] at h
    rcases hs : (if inbuf.start < 0 then some (scan_result.not_found [])
        else scan P inbuf.buffer inbuf.size inbuf.start.toNat []) with _ | sr
    · rw [hs] at h; cases h
    · rw [hs] at h
      cases sr with
      | found k d =>
        simp only [Option.some.injEq, Prod.mk.injEq] at h
        obtain ⟨rfl, rfl, _, _⟩ := h
        have hd : d.length + 1 ≤ P := by
          by_cases h0 : inbuf.start < 0
          · simp only [h0, if_true] at hs; cases hs
          · simp only [h0, if_false] at hs
            exact scan_found_short P _ _ _ _ _ _ hs
        have := strlen_le_length d
        unfold strlen at this
        right
        constructor
        · exact_mod_cast (by omega : d.length < P)
        · omega
      | not_found d =>
        simp only at h
        split_ifs at h with h1 h2 h3
        · simp only [Option.some.injEq, Prod.mk.injEq] at h
          left
          rw [← h.1]
          exact h1
        · exact ih _ _ _ _ _ _ _ h
        · exact ih _ _ _ _ _ _ _ h

/-- What `file_line_read` returns is never a line of `PAGE_SIZE` bytes or more: a positive value
is below `PAGE_SIZE`, and so is the length of the line stored in the line buffer. -/
theorem file_line_read_short (P : Nat) (filp : file) (buf : List Nat) (inbuf : inputbuf)
    (e : Int) (b : List Nat) (f : file) (ib : inputbuf)
    (h : file_line_read P filp buf inbuf = some (e, b, f, ib)) :
    e ≤ 0 ∨ (e < (P : Int) ∧ b.length < P) := by
  simp only [file_line_read] at h
  split_ifs at h with h1 h2
  · simp only [Option.some.injEq, Prod.mk.injEq] at h
    left
    rw [← h.1]
    exact h2
  · rcases read_start_short P _ _ _ _ _ _ _ _ h with h3 | h3
    · left; omega
    · right; exact h3
  · rcases read_start_short P _ _ _ _ _ _ _ _ h with h3 | h3
    · left; omega
    · right; exact h3

/-- C11 (the code departs from the claim): with `PAGE_SIZE = 4` the read window holds
`MAX_INBUF_SIZE = 8` bytes. On a stream that is the single line of nine bytes `a` and a newline,
the scan loop of `file_line_read` stores the bytes of the window in `data`, which has `PAGE_SIZE`
bytes, and runs over its end at the fifth byte: the call has no defined result, and neither has
the run of `xmergesort` that reads this stream, whatever the line buffers hold at the start. The
line is not returned. -/
theorem long_line_overruns_data (m : heap) :
    file_line_read 4 ⟨List.replicate 9 97 ++ [10], []⟩ [] (inputbuf_init 4) = none ∧
    xmergesort_bytes 4 0x22 m ⟨List.replicate 9 97 ++ [10], []⟩ ⟨[], []⟩ ⟨[], []⟩ = none := by
  refine ⟨by decide, ?_⟩
  have h : ∀ buf : List Nat,
      file_line_read 4 ⟨List.replicate 9 97 ++ [10], []⟩ buf (inputbuf_init 4) = none :=
    fun _ => rfl
  simp only [xmergesort_bytes, xmergesort, initial_reads, byte_ops, h]

/-! ## The line count copied to the caller -/

theorem line_le_self (F : Int) (x : List Nat) : line_le F x x := by
  unfold line_le
  rw [strcmputil_le_iff]

/-- Mode All on one file that holds `n` times the same line, the other file being empty, when
`lastout` holds the empty string at the start: the `n` lines are written and counted. -/
theorem replicate_run (flags : Nat) (m : heap) (hlo : strlen m.lastout = 0)
    (hU : flags &&& F_OUTPUT_UNIQ = 0) (x : List Nat)
    (hx : is_line x) (n : Nat) (hn : 0 < n) :
    ∃ s, xmergesort_lines flags m (List.replicate n x) [] = some (0, s) ∧
      s.file_temp = List.replicate n x ∧ s.i = n := by
  have hX : ∀ l ∈ List.replicate n x, is_line l := by
    intro l hl
    rw [List.eq_of_mem_replicate hl]
    exact hx
  have hne : List.replicate n x ≠ [] := by
    intro h
    have := congrArg List.length h
    simp at this
    omega
  have sX : (List.replicate n x).Chain' (line_le (INSEN_FLAG flags)) :=
    List.chain'_replicate_of_rel n (line_le_self _ x)
  have key : filter_lines (INSEN_FLAG flags) (SORT_FLAG flags) (UNIQ_FLAG flags) m.lastout
      (List.replicate n x) = .ok (List.replicate n x) :=
    filter_lines_all (flag_all hU) _ m.lastout sX (Or.inl hlo)
  have hemp : ∀ l ∈ ([] : List (List Nat)), is_line l := by simp
  obtain ⟨M, r, hM, hr, hm⟩ := xmergesort_lines_spec flags m _ [] hX hemp (Or.inl hne)
  have := interleaved_nil_right hM
  subst this
  unfold run_matches at hm
  rw [key] at hm
  obtain ⟨e, s⟩ := r
  simp only at hm
  obtain ⟨h1, h2, h3, _⟩ := hm
  subst h1
  refine ⟨s, hr, by simpa using h2, ?_⟩
  rw [h3]
  simp

/-- C12 (the code departs from the claim): in mode All, on a first file of 65536 lines `a` and
an empty second file, with the line buffers empty at the start, `xmergesort` returns 0 and has
written and counted 65536 lines; the two bytes that `copy_to_user(finput->data, &i, 2)` copies are
both 0, so the caller, whose `*data` was 0, reads the count 0. And on two files of one line each,
a caller whose `*data` held `0xFFFF0000` before the call reads `0xFFFF0002` and not 2: the two
high-order bytes are not written. -/
theorem count_of_65536_lines_is_lost :
    (∃ s, xmergesort_lines 0x22 heap.clean (List.replicate 65536 (bytes "a\n")) [] =
        some (0, s) ∧
      s.file_temp.length = 65536 ∧ s.i = 65536 ∧ copy_count 0 s.i = 0) ∧
    (sys_xmergesort 8 ⟨[], [], [], 0, heap.clean⟩ 10 (two_files (bytes "a\n") (bytes "b\n"))
        (some (request 0x22 0xFFFF0000))).map (fun r => (r.1, r.2.1.read "out", r.2.2)) =
      some (0, some (bytes "a\nb\n"), some 0xFFFF0002) := by
  refine ⟨?_, rfl⟩
  obtain ⟨s, hs, ht, hi⟩ := replicate_run 0x22 heap.clean (by decide) (by decide) (bytes "a\n")
    (by decide) 65536 (by norm_num)
  refine ⟨s, hs, ?_, hi, ?_⟩
  · rw [ht, List.length_replicate]
  · rw [hi]
    decide

/-! ## Validation of the request -/

/-- C13: `validate` returns `-EINVAL` whenever neither or both of the bits `F_OUTPUT_UNIQ`
(0x01) and `F_OUTPUT_ALL` (0x02) are set in `flags`; and for a request (not NULL) whose three
paths are not NULL and whose two input paths `vfs_stat` accepts, it returns 0 if and only if
exactly one of the two bits is set, whatever the other bits of `flags` are. -/
theorem validate_flags (stat : String → Int) (u : fileinput) :
    ((u.flags &&& F_OUTPUT_UNIQ = 0 ∧ u.flags &&& F_OUTPUT_ALL = 0) ∨
      (u.flags &&& F_OUTPUT_UNIQ ≠ 0 ∧ u.flags &&& F_OUTPUT_ALL ≠ 0) →
        validate stat (some u) = -EINVAL) ∧
    (∀ infile1 infile2 outfile, u.infile1 = some infile1 → u.infile2 = some infile2 →
      u.outfile = some outfile → stat infile1 = 0 → stat infile2 = 0 →
      (validate stat (some u) = 0 ↔
        (u.flags &&& F_OUTPUT_UNIQ ≠ 0 ∧ u.flags &&& F_OUTPUT_ALL = 0) ∨
        (u.flags &&& F_OUTPUT_UNIQ = 0 ∧ u.flags &&& F_OUTPUT_ALL ≠ 0))) := by
  constructor
  · rintro (⟨h1, h2⟩ | ⟨h1, h2⟩)
    · simp [validate, h1, h2]
    · simp [validate, h1, h2]
  · intro infile1 infile2 outfile e1 e2 e3 s1 s2
    have hE : -EINVAL ≠ 0 := by decide
    by_cases h1 : u.flags &&& F_OUTPUT_UNIQ = 0 <;> by_cases h2 : u.flags &&& F_OUTPUT_ALL = 0 <;>
      simp [validate, h1, h2, e1, e2, e3, s1, s2, hE]

theorem validate_flags_witness :
    validate (fun _ => 0) (some ⟨some "a", some "b", some "c", 0x03, 0⟩) = -EINVAL ∧
    validate (fun _ => 0) (some ⟨some "a", some "b", some "c", 0x12, 0⟩) = 0 :=
  ⟨(validate_flags (fun _ => 0) ⟨some "a", some "b", some "c", 0x03, 0⟩).1
      (Or.inr ⟨by decide, by decide⟩),
   ((validate_flags (fun _ => 0) ⟨some "a", some "b", some "c", 0x12, 0⟩).2
      "a" "b" "c" rfl rfl rfl rfl rfl).2 (Or.inr ⟨by decide, by decide⟩)⟩

/-! ## A run that fails does not rename -/

theorem part1_error {F S U : Int} {a b lo : List Nat} {w l : Nat} {e : Int}
    (h : part1 F S U a b lo w l = .error e) : e = -EINVAL := by
  rcases part1_range F S U a b lo w l with h1 | h1 | h1 | h1 | h1 | h1
  · rw [h1.1] at h; cases h; rfl
  all_goals (rw [h1] at h; cases h)

theorem drain_part1_error {F S U : Int} {a lo : List Nat} {w : Nat} {e : Int}
    (h : drain_part1 F S U a lo w = .error e) : e = -EINVAL := by
  unfold drain_part1 at h
  repeat' split at h
  all_goals first | cases h; rfl | cases h

theorem part2_renamed {ρ1 ρ2 ω : Type} (K : kernel_ops ρ1 ρ2 ω) (s : locals ρ1 ρ2 ω)
    (r : flow (locals ρ1 ρ2 ω)) (h : part2 K s = some r) :
    r.st.renamed = s.renamed ∧ ∀ e t, r = .OUT e t → e ≠ 0 := by
  unfold part2 at h
  repeat' split at h
  all_goals (cases h <;> simp [flow.st, EFAULT])

theorem part3_file2_renamed {ρ1 ρ2 ω : Type} (K : kernel_ops ρ1 ρ2 ω) (s : locals ρ1 ρ2 ω)
    (r : flow (locals ρ1 ρ2 ω)) (h : part3_file2 K s = some r) :
    r.st.renamed = s.renamed ∧ ∀ e t, r = .OUT e t → e ≠ 0 := by
  unfold part3_file2 at h
  repeat' split at h
  all_goals (cases h <;> simp [flow.st, EFAULT])

theorem part3_renamed {ρ1 ρ2 ω : Type} (K : kernel_ops ρ1 ρ2 ω) (s : locals ρ1 ρ2 ω)
    (r : flow (locals ρ1 ρ2 ω)) (h : part3 K s = some r) :
    r.st.renamed = s.renamed ∧ ∀ e t, r = .OUT e t → e ≠ 0 := by
  unfold part3 at h
  split at h
  · split at h
    · cases h
    · split at h
      · split at h <;> (cases h; simp [flow.st, EFAULT])
      · have := part3_file2_renamed K _ r h
        exact this
  · exact part3_file2_renamed K _ r h

theorem loop_body_renamed {ρ1 ρ2 ω : Type} (K : kernel_ops ρ1 ρ2 ω) (F S U : Int)
    (s : locals ρ1 ρ2 ω) (r : flow (locals ρ1 ρ2 ω)) (h : loop_body K F S U s = some r) :
    r.st.renamed = s.renamed ∧ ∀ e t, r = .OUT e t → e ≠ 0 := by
  unfold loop_body at h
  split at h
  · rename_i err hp
    cases h
    have := part1_error hp
    subst this
    simp [flow.st, EINVAL]
  · rename_i w l hp
    rcases h2 : part2 K { s with write := w, load := l } with _ | fl
    · rw [h2] at h; cases h
    · have p2 := part2_renamed K _ fl h2
      rw [h2] at h
      cases fl with
      | OUT e t => cases h; exact p2
      | brk t => cases h; exact p2
      | go t =>
        have p3 := part3_renamed K t r h
        exact ⟨p3.1.trans p2.1, p3.2⟩

theorem main_loop_renamed {ρ1 ρ2 ω : Type} (K : kernel_ops ρ1 ρ2 ω) (F S U : Int) :
    ∀ (n : Nat) (s : locals ρ1 ρ2 ω) (r : flow (locals ρ1 ρ2 ω)),
    main_loop K F S U n s = some r →
    r.st.renamed = s.renamed ∧ (∀ e t, r = .OUT e t → e ≠ 0) ∧ ∀ t, r ≠ .brk t := by
  intro n
  induction n with
  | zero => intro s r h; simp [main_loop] at h
  | succ n ih =>
    intro s r h
    simp only [main_loop] at h
    split at h
    · rcases hb : loop_body K F S U s with _ | fl
      · rw [hb] at h; cases h
      · have pb := loop_body_renamed K F S U s fl hb
        rw [hb] at h
        cases fl with
        | OUT e t => cases h; exact ⟨pb.1, pb.2, fun t h => by cases h⟩
        | brk t =>
          cases h
          exact ⟨pb.1, (fun e t h => by cases h), (fun t h => by cases h)⟩
        | go t =>
          have p := ih t r h
          exact ⟨p.1.trans pb.1, p.2⟩
    · cases h
      exact ⟨rfl, (fun e t h => by cases h), (fun t h => by cases h)⟩

theorem drain1_body_renamed {ρ1 ρ2 ω : Type} (K : kernel_ops ρ1 ρ2 ω) (F S U : Int)
    (s : locals ρ1 ρ2 ω) (r : flow (locals ρ1 ρ2 ω)) (h : drain1_body K F S U s = some r) :
    r.st.renamed = s.renamed ∧ ∀ e t, r = .OUT e t → e ≠ 0 := by
  unfold drain1_body at h
  split at h
  · rename_i err hp
    cases h
    have := drain_part1_error hp
    subst this
    simp [flow.st, EINVAL]
  · rename_i w hp
    rcases h2 : (if w = 1 then part2 K { s with write := w }
        else some (.go { s with write := w })) with _ | fl
    · rw [h2] at h; cases h
    · have p2 : fl.st.renamed = s.renamed ∧ ∀ e t, fl = .OUT e t → e ≠ 0 := by
        split at h2
        · have := part2_renamed K _ fl h2
          exact this
        · cases h2; simp [flow.st]
      rw [h2] at h
      cases fl with
      | OUT e t => cases h; exact p2
      | brk t => cases h; exact p2
      | go t =>
        simp only at h
        repeat' split at h
        all_goals (cases h <;> simp [flow.st, EFAULT] <;> exact p2.1)

theorem drain2_body_renamed {ρ1 ρ2 ω : Type} (K : kernel_ops ρ1 ρ2 ω) (F S U : Int)
    (s : locals ρ1 ρ2 ω) (r : flow (locals ρ1 ρ2 ω)) (h : drain2_body K F S U s = some r) :
    r.st.renamed = s.renamed ∧ ∀ e t, r = .OUT e t → e ≠ 0 := by
  unfold drain2_body at h
  split at h
  · rename_i err hp
    cases h
    have := drain_part1_error hp
    subst this
    simp [flow.st, EINVAL]
  · rename_i w hp
    rcases h2 : (if w = 2 then part2 K { s with write := w }
        else some (.go { s with write := w })) with _ | fl
    · rw [h2] at h; cases h
    · have p2 : fl.st.renamed = s.renamed ∧ ∀ e t, fl = .OUT e t → e ≠ 0 := by
        split at h2
        · have := part2_renamed K _ fl h2
          exact this
        · cases h2; simp [flow.st]
      rw [h2] at h
      cases fl with
      | OUT e t => cases h; exact p2
      | brk t => cases h; exact p2
      | go t =>
        simp only at h
        repeat' split at h
        all_goals (cases h <;> simp [flow.st, EFAULT] <;> exact p2.1)

theorem drain1_renamed {ρ1 ρ2 ω : Type} (K : kernel_ops ρ1 ρ2 ω) (F S U : Int) :
    ∀ (n : Nat) (s : locals ρ1 ρ2 ω) (r : flow (locals ρ1 ρ2 ω)),
    drain1 K F S U n s = some r →
    r.st.renamed = s.renamed ∧ (∀ e t, r = .OUT e t → e ≠ 0) ∧ ∀ t, r ≠ .brk t := by
  intro n
  induction n with
  | zero => intro s r h; simp [drain1] at h
  | succ n ih =>
    intro s r h
    simp only [drain1] at h
    rcases hb : drain1_body K F S U s with _ | fl
    · rw [hb] at h; cases h
    · have pb := drain1_body_renamed K F S U s fl hb
      rw [hb] at h
      cases fl with
      | OUT e t => cases h; exact ⟨pb.1, pb.2, fun t h => by cases h⟩
      | brk t =>
        cases h
        exact ⟨pb.1, (fun e t h => by cases h), (fun t h => by cases h)⟩
      | go t =>
        have p := ih t r h
        exact ⟨p.1.trans pb.1, p.2⟩

theorem drain2_renamed {ρ1 ρ2 ω : Type} (K : kernel_ops ρ1 ρ2 ω) (F S U : Int) :
    ∀ (n : Nat) (s : locals ρ1 ρ2 ω) (r : flow (locals ρ1 ρ2 ω)),
    drain2 K F S U n s = some r →
    r.st.renamed = s.renamed ∧ (∀ e t, r = .OUT e t → e ≠ 0) ∧ ∀ t, r ≠ .brk t := by
  intro n
  induction n with
  | zero => intro s r h; simp [drain2] at h
  | succ n ih =>
    intro s r h
    simp only [drain2] at h
    rcases hb : drain2_body K F S U s with _ | fl
    · rw [hb] at h; cases h
    · have pb := drain2_body_renamed K F S U s fl hb
      rw [hb] at h
      cases fl with
      | OUT e t => cases h; exact ⟨pb.1, pb.2, fun t h => by cases h⟩
      | brk t =>
        cases h
        exact ⟨pb.1, (fun e t h => by cases h), (fun t h => by cases h)⟩
      | go t =>
        have p := ih t r h
        exact ⟨p.1.trans pb.1, p.2⟩

theorem initial_reads_renamed {ρ1 ρ2 ω : Type} (K : kernel_ops ρ1 ρ2 ω) (s : locals ρ1 ρ2 ω)
    (r : flow (locals ρ1 ρ2 ω)) (h : initial_reads K s = some r) :
    r.st.renamed = s.renamed ∧ (∀ e t, r = .OUT e t → e ≠ 0) ∧ ∀ t, r ≠ .brk t := by
  unfold initial_reads at h
  repeat' split at h
  all_goals (cases h <;> simp [flow.st, EFAULT])

/-- The value that `finish` returns is 0 exactly when it has called the rename. -/
theorem finish_renamed {ρ1 ρ2 ω : Type} (K : kernel_ops ρ1 ρ2 ω) (s : locals ρ1 ρ2 ω)
    (hs : s.renamed = false) : ((finish K s).1 = 0 ↔ (finish K s).2.renamed = true) := by
  unfold finish
  by_cases h : K.copy_to_user s.i = 0
  · simp [h]
  · simp [h, hs, EFAULT]

theorem drain_phase_renamed {ρ1 ρ2 ω : Type} (K : kernel_ops ρ1 ρ2 ω) (F S U : Int) (n : Nat)
    (s : locals ρ1 ρ2 ω) (e : Int) (t : locals ρ1 ρ2 ω) (hs : s.renamed = false)
    (h : drain_phase K F S U n s = some (e, t)) : (e = 0 ↔ t.renamed = true) := by
  unfold drain_phase at h
  rcases h1 : (if s.empty = 2 then drain1 K F S U n s else some (.go s)) with _ | fl
  · rw [h1] at h; cases h
  · have p1 : fl.st.renamed = s.renamed ∧ (∀ e t, fl = .OUT e t → e ≠ 0) ∧ ∀ t, fl ≠ .brk t := by
      split at h1
      · exact drain1_renamed K F S U n s fl h1
      · cases h1
        exact ⟨rfl, (fun e t h => by cases h), (fun t h => by cases h)⟩
    rw [h1] at h
    cases fl with
    | OUT e1 t1 =>
      cases h
      have := p1.2.1 e t rfl
      have hr : t.renamed = false := p1.1.trans hs
      simp [this, hr]
    | brk t1 => exact absurd rfl (p1.2.2 t1)
    | go t1 =>
      simp only at h
      have ht1 : t1.renamed = false := p1.1.trans hs
      rcases h2 : (if t1.empty = 1 then drain2 K F S U n t1 else some (.go t1)) with _ | fl2
      · rw [h2] at h; cases h
      · have p2 : fl2.st.renamed = t1.renamed ∧ (∀ e t, fl2 = .OUT e t → e ≠ 0) ∧
            ∀ t, fl2 ≠ .brk t := by
          split at h2
          · exact drain2_renamed K F S U n t1 fl2 h2
          · cases h2
            exact ⟨rfl, (fun e t h => by cases h), (fun t h => by cases h)⟩
        rw [h2] at h
        cases fl2 with
        | OUT e2 t2 =>
          cases h
          have := p2.2.1 e t rfl
          have hr : t.renamed = false := p2.1.trans ht1
          simp [this, hr]
        | brk t2 => exact absurd rfl (p2.2.2 t2)
        | go t2 =>
          simp only [Option.some.injEq] at h
          have ht2 : t2.renamed = false := p2.1.trans ht1
          have := finish_renamed K t2 ht2
          rw [h] at this
          exact this

/-- The value that `xmergesort` returns is 0 exactly when it has called the rename: a run that
fails does not rename, and a run that does not fail does. -/
theorem xmergesort_renamed {ρ1 ρ2 ω : Type} (K : kernel_ops ρ1 ρ2 ω) (flags n : Nat) (m : heap)
    (f1 : ρ1) (f2 : ρ2) (ft : ω) (e : Int) (t : locals ρ1 ρ2 ω)
    (h : xmergesort K flags n m f1 f2 ft = some (e, t)) : (e = 0 ↔ t.renamed = true) := by
  unfold xmergesort at h
  rcases h1 : initial_reads K
      ⟨f1, f2, ft, m.inbuf1, m.inbuf2, m.lastout, 0, 0, 0, 0, false⟩ with _ | fl
  · rw [h1] at h; cases h
  · have p1 := initial_reads_renamed K _ fl h1
    rw [h1] at h
    cases fl with
    | OUT e1 t1 =>
      cases h
      have := p1.2.1 e t rfl
      have hr : t.renamed = false := p1.1
      simp [this, hr]
    | brk t1 => exact absurd rfl (p1.2.2 t1)
    | go t1 =>
      simp only [merge_phase] at h
      have ht1 : t1.renamed = false := p1.1
      rcases h2 : main_loop K (INSEN_FLAG flags) (SORT_FLAG flags) (UNIQ_FLAG flags) n t1
        with _ | fl2
      · rw [h2] at h; cases h
      · have p2 := main_loop_renamed K _ _ _ n t1 fl2 h2
        rw [h2] at h
        cases fl2 with
        | OUT e2 t2 =>
          cases h
          have := p2.2.1 e t rfl
          have hr : t.renamed = false := p2.1.trans ht1
          simp [this, hr]
        | brk t2 => exact absurd rfl (p2.2.2 t2)
        | go t2 =>
          exact drain_phase_renamed K _ _ _ n t2 e t (p2.1.trans ht1) h

/-! ## Runs on file states that are carried to other file states

The run on the files of the system call, when no input file is the file that `temp.txt` names,
is the run on three different byte files. -/

theorem embed_part2 {ρ1 ρ2 ω σ1 σ2 τ : Type} {K : kernel_ops ρ1 ρ2 ω} {K2 : kernel_ops σ1 σ2 τ}
    {e1 : ρ1 → σ1} {e2 : ρ2 → σ2} {eo : ω → τ} (h : embeds K K2 e1 e2 eo)
    (s : locals ρ1 ρ2 ω) :
    part2 K2 (locals.map e1 e2 eo s) = (part2 K s).map (flow.map (locals.map e1 e2 eo)) := by
  obtain ⟨_, _, hw, _, _⟩ := h
  simp only [part2, locals.map, hw]
  by_cases c1 : s.write = 1
  · simp only [c1, if_true]
    rcases K.line_write s.file_temp s.inbuf1 (strlen s.inbuf1) s.lastout with _ | ⟨e, lo, ft⟩
    · rfl
    · simp only [Option.map_some']
      split_ifs <;> rfl
  · simp only [c1, if_false]
    by_cases c2 : s.write = 2
    · simp only [c2, if_true]
      rcases K.line_write s.file_temp s.inbuf2 (strlen s.inbuf2) s.lastout with _ | ⟨e, lo, ft⟩
      · rfl
      · simp only [Option.map_some']
        split_ifs <;> rfl
    · simp only [c2, if_false]
      rfl

theorem embed_part3_file2 {ρ1 ρ2 ω σ1 σ2 τ : Type} {K : kernel_ops ρ1 ρ2 ω}
    {K2 : kernel_ops σ1 σ2 τ} {e1 : ρ1 → σ1} {e2 : ρ2 → σ2} {eo : ω → τ}
    (h : embeds K K2 e1 e2 eo) (s : locals ρ1 ρ2 ω) :
    part3_file2 K2 (locals.map e1 e2 eo s) =
      (part3_file2 K s).map (flow.map (locals.map e1 e2 eo)) := by
  obtain ⟨_, h2, _, _, _⟩ := h
  simp only [part3_file2, locals.map, h2]
  by_cases c : s.load = 0 ∨ s.load = 2
  · simp only [c, if_true]
    rcases K.read2 s.file_temp s.file_in2 s.inbuf2 with _ | ⟨e, b, f⟩
    · rfl
    · simp only [Option.map_some']
      split_ifs <;> rfl
  · simp only [c, if_false]
    rfl

theorem embed_part3 {ρ1 ρ2 ω σ1 σ2 τ : Type} {K : kernel_ops ρ1 ρ2 ω}
    {K2 : kernel_ops σ1 σ2 τ} {e1 : ρ1 → σ1} {e2 : ρ2 → σ2} {eo : ω → τ}
    (h : embeds K K2 e1 e2 eo) (s : locals ρ1 ρ2 ω) :
    part3 K2 (locals.map e1 e2 eo s) = (part3 K s).map (flow.map (locals.map e1 e2 eo)) := by
  have h1 := h.1
  unfold part3
  by_cases c : s.load = 0 ∨ s.load = 1
  · have c2 : (locals.map e1 e2 eo s).load = 0 ∨ (locals.map e1 e2 eo s).load = 1 := c
    simp only [c, c2, if_true]
    show (match K2.read1 (eo s.file_temp) (e1 s.file_in1) s.inbuf1 with
      | none => none
      | some (err, buf, f) => _) = _
    rw [h1]
    rcases K.read1 s.file_temp s.file_in1 s.inbuf1 with _ | ⟨e, b, f⟩
    · rfl
    · simp only [Option.map_some']
      split_ifs
      · rfl
      · rfl
      · exact embed_part3_file2 h { s with file_in1 := f, inbuf1 := b }
  · have c2 : ¬ ((locals.map e1 e2 eo s).load = 0 ∨ (locals.map e1 e2 eo s).load = 1) := c
    simp only [c, c2, if_false]
    exact embed_part3_file2 h s

theorem embed_loop_body {ρ1 ρ2 ω σ1 σ2 τ : Type} {K : kernel_ops ρ1 ρ2 ω}
    {K2 : kernel_ops σ1 σ2 τ} {e1 : ρ1 → σ1} {e2 : ρ2 → σ2} {eo : ω → τ}
    (h : embeds K K2 e1 e2 eo) (F S U : Int) (s : locals ρ1 ρ2 ω) :
    loop_body K2 F S U (locals.map e1 e2 eo s) =
      (loop_body K F S U s).map (flow.map (locals.map e1 e2 eo)) := by
  unfold loop_body
  show (match part1 F S U s.inbuf1 s.inbuf2 s.lastout s.write s.load with
    | .error err => some (flow.OUT err (locals.map e1 e2 eo s))
    | .ok (write, load) =>
      match part2 K2 (locals.map e1 e2 eo { s with write := write, load := load }) with
      | none => none
      | some (flow.OUT err s) => some (flow.OUT err s)
      | some (flow.brk s) => some (flow.brk s)
      | some (flow.go s) => part3 K2 s) = _
  rcases part1 F S U s.inbuf1 s.inbuf2 s.lastout s.write s.load with err | ⟨w, l⟩
  · rfl
  · simp only [embed_part2 h]
    rcases part2 K { s with write := w, load := l } with _ | fl
    · rfl
    · cases fl with
      | OUT e t => rfl
      | brk t => rfl
      | go t => exact embed_part3 h t

theorem embed_main_loop {ρ1 ρ2 ω σ1 σ2 τ : Type} {K : kernel_ops ρ1 ρ2 ω}
    {K2 : kernel_ops σ1 σ2 τ} {e1 : ρ1 → σ1} {e2 : ρ2 → σ2} {eo : ω → τ}
    (h : embeds K K2 e1 e2 eo) (F S U : Int) : ∀ (n : Nat) (s : locals ρ1 ρ2 ω),
    main_loop K2 F S U n (locals.map e1 e2 eo s) =
      (main_loop K F S U n s).map (flow.map (locals.map e1 e2 eo)) := by
  intro n
  induction n with
  | zero => intro s; rfl
  | succ n ih =>
    intro s
    simp only [main_loop, embed_loop_body h]
    have c2 : (locals.map e1 e2 eo s).empty = s.empty := rfl
    rw [c2]
    by_cases c : s.empty = 0
    · simp only [c, if_true]
      rcases loop_body K F S U s with _ | fl
      · rfl
      · cases fl with
        | OUT e t => rfl
        | brk t => rfl
        | go t => exact ih t
    · simp only [c, if_false]
      rfl

theorem embed_drain1_body {ρ1 ρ2 ω σ1 σ2 τ : Type} {K : kernel_ops ρ1 ρ2 ω}
    {K2 : kernel_ops σ1 σ2 τ} {e1 : ρ1 → σ1} {e2 : ρ2 → σ2} {eo : ω → τ}
    (h : embeds K K2 e1 e2 eo) (F S U : Int) (s : locals ρ1 ρ2 ω) :
    drain1_body K2 F S U (locals.map e1 e2 eo s) =
      (drain1_body K F S U s).map (flow.map (locals.map e1 e2 eo)) := by
  have h1 := h.1
  unfold drain1_body
  show (match drain_part1 F S U s.inbuf1 s.lastout 1 with
    | .error err => some (flow.OUT err (locals.map e1 e2 eo s))
    | .ok write =>
      match (if write = 1 then part2 K2 (locals.map e1 e2 eo { s with write := write })
             else some (flow.go (locals.map e1 e2 eo { s with write := write }))) with
      | none => none
      | some (flow.OUT err s) => some (flow.OUT err s)
      | some (flow.brk s) => some (flow.brk s)
      | some (flow.go s) =>
        match K2.read1 s.file_temp s.file_in1 s.inbuf1 with
        | none => none
        | some (err, buf, f) =>
          if err > 0 then some (flow.go { s with file_in1 := f, inbuf1 := buf })
          else if err < 0 then some (flow.OUT (-EFAULT) { s with file_in1 := f, inbuf1 := buf })
          else some (flow.brk { s with file_in1 := f, inbuf1 := buf })) = _
  rcases drain_part1 F S U s.inbuf1 s.lastout 1 with err | w
  · rfl
  · have key : ∀ t : locals ρ1 ρ2 ω,
        (match K2.read1 (locals.map e1 e2 eo t).file_temp (locals.map e1 e2 eo t).file_in1
            (locals.map e1 e2 eo t).inbuf1 with
        | none => none
        | some (err, buf, f) =>
          if err > 0 then some (flow.go { locals.map e1 e2 eo t with file_in1 := f, inbuf1 := buf })
          else if err < 0 then
            some (flow.OUT (-EFAULT) { locals.map e1 e2 eo t with file_in1 := f, inbuf1 := buf })
          else some (flow.brk { locals.map e1 e2 eo t with file_in1 := f, inbuf1 := buf })) =
        (match K.read1 t.file_temp t.file_in1 t.inbuf1 with
        | none => none
        | some (err, buf, f) =>
          if err > 0 then some (flow.go { t with file_in1 := f, inbuf1 := buf })
          else if err < 0 then some (flow.OUT (-EFAULT) { t with file_in1 := f, inbuf1 := buf })
          else some (flow.brk { t with file_in1 := f, inbuf1 := buf })).map
          (flow.map (locals.map e1 e2 eo)) := by
      intro t
      show (match K2.read1 (eo t.file_temp) (e1 t.file_in1) t.inbuf1 with
        | none => none
        | some (err, buf, f) => _) = _
      rw [h1]
      rcases K.read1 t.file_temp t.file_in1 t.inbuf1 with _ | ⟨e, b, f⟩
      · rfl
      · simp only [Option.map_some']
        split_ifs <;> rfl
    by_cases c : w = 1
    · simp only [c, if_true, embed_part2 h]
      rcases part2 K { s with write := 1 } with _ | fl
      · rfl
      · cases fl with
        | OUT e t => rfl
        | brk t => rfl
        | go t => exact key t
    · simp only [c, if_false]
      exact key _

theorem embed_drain2_body {ρ1 ρ2 ω σ1 σ2 τ : Type} {K : kernel_ops ρ1 ρ2 ω}
    {K2 : kernel_ops σ1 σ2 τ} {e1 : ρ1 → σ1} {e2 : ρ2 → σ2} {eo : ω → τ}
    (h : embeds K K2 e1 e2 eo) (F S U : Int) (s : locals ρ1 ρ2 ω) :
    drain2_body K2 F S U (locals.map e1 e2 eo s) =
      (drain2_body K F S U s).map (flow.map (locals.map e1 e2 eo)) := by
  have h2 := h.2.1
  unfold drain2_body
  show (match drain_part1 F S U s.inbuf2 s.lastout 2 with
    | .error err => some (flow.OUT err (locals.map e1 e2 eo s))
    | .ok write =>
      match (if write = 2 then part2 K2 (locals.map e1 e2 eo { s with write := write })
             else some (flow.go (locals.map e1 e2 eo { s with write := write }))) with
      | none => none
      | some (flow.OUT err s) => some (flow.OUT err s)
      | some (flow.brk s) => some (flow.brk s)
      | some (flow.go s) =>
        match K2.read2 s.file_temp s.file_in2 s.inbuf2 with
        | none => none
        | some (err, buf, f) =>
          if err > 0 then some (flow.go { s with file_in2 := f, inbuf2 := buf })
          else if err < 0 then some (flow.OUT (-EFAULT) { s with file_in2 := f, inbuf2 := buf })
          else some (flow.brk { s with file_in2 := f, inbuf2 := buf })) = _
  rcases drain_part1 F S U s.inbuf2 s.lastout 2 with err | w
  · rfl
  · have key : ∀ t : locals ρ1 ρ2 ω,
        (match K2.read2 (locals.map e1 e2 eo t).file_temp (locals.map e1 e2 eo t).file_in2
            (locals.map e1 e2 eo t).inbuf2 with
        | none => none
        | some (err, buf, f) =>
          if err > 0 then some (flow.go { locals.map e1 e2 eo t with file_in2 := f, inbuf2 := buf })
          else if err < 0 then
            some (flow.OUT (-EFAULT) { locals.map e1 e2 eo t with file_in2 := f, inbuf2 := buf })
          else some (flow.brk { locals.map e1 e2 eo t with file_in2 := f, inbuf2 := buf })) =
        (match K.read2 t.file_temp t.file_in2 t.inbuf2 with
        | none => none
        | some (err, buf, f) =>
          if err > 0 then some (flow.go { t with file_in2 := f, inbuf2 := buf })
          else if err < 0 then some (flow.OUT (-EFAULT) { t with file_in2 := f, inbuf2 := buf })
          else some (flow.brk { t with file_in2 := f, inbuf2 := buf })).map
          (flow.map (locals.map e1 e2 eo)) := by
      intro t
      show (match K2.read2 (eo t.file_temp) (e2 t.file_in2) t.inbuf2 with
        | none => none
        | some (err, buf, f) => _) = _
      rw [h2]
      rcases K.read2 t.file_temp t.file_in2 t.inbuf2 with _ | ⟨e, b, f⟩
      · rfl
      · simp only [Option.map_some']
        split_ifs <;> rfl
    by_cases c : w = 2
    · simp only [c, if_true, embed_part2 h]
      rcases part2 K { s with write := 2 } with _ | fl
      · rfl
      · cases fl with
        | OUT e t => rfl
        | brk t => rfl
        | go t => exact key t
    · simp only [c, if_false]
      exact key _

theorem embed_drain1 {ρ1 ρ2 ω σ1 σ2 τ : Type} {K : kernel_ops ρ1 ρ2 ω}
    {K2 : kernel_ops σ1 σ2 τ} {e1 : ρ1 → σ1} {e2 : ρ2 → σ2} {eo : ω → τ}
    (h : embeds K K2 e1 e2 eo) (F S U : Int) : ∀ (n : Nat) (s : locals ρ1 ρ2 ω),
    drain1 K2 F S U n (locals.map e1 e2 eo s) =
      (drain1 K F S U n s).map (flow.map (locals.map e1 e2 eo)) := by
  intro n
  induction n with
  | zero => intro s; rfl
  | succ n ih =>
    intro s
    simp only [drain1, embed_drain1_body h]
    rcases drain1_body K F S U s with _ | fl
    · rfl
    · cases fl with
      | OUT e t => rfl
      | brk t => rfl
      | go t => exact ih t

theorem embed_drain2 {ρ1 ρ2 ω σ1 σ2 τ : Type} {K : kernel_ops ρ1 ρ2 ω}
    {K2 : kernel_ops σ1 σ2 τ} {e1 : ρ1 → σ1} {e2 : ρ2 → σ2} {eo : ω → τ}
    (h : embeds K K2 e1 e2 eo) (F S U : Int) : ∀ (n : Nat) (s : locals ρ1 ρ2 ω),
    drain2 K2 F S U n (locals.map e1 e2 eo s) =
      (drain2 K F S U n s).map (flow.map (locals.map e1 e2 eo)) := by
  intro n
  induction n with
  | zero => intro s; rfl
  | succ n ih =>
    intro s
    simp only [drain2, embed_drain2_body h]
    rcases drain2_body K F S U s with _ | fl
    · rfl
    · cases fl with
      | OUT e t => rfl
      | brk t => rfl
      | go t => exact ih t

theorem embed_finish {ρ1 ρ2 ω σ1 σ2 τ : Type} {K : kernel_ops ρ1 ρ2 ω}
    {K2 : kernel_ops σ1 σ2 τ} {e1 : ρ1 → σ1} {e2 : ρ2 → σ2} {eo : ω → τ}
    (h : embeds K K2 e1 e2 eo) (s : locals ρ1 ρ2 ω) :
    finish K2 (locals.map e1 e2 eo s) = ((finish K s).1, locals.map e1 e2 eo (finish K s).2) := by
  obtain ⟨_, _, _, hf, hc⟩ := h
  simp only [finish, locals.map, hf, hc]
  split_ifs <;> rfl

theorem embed_drain_phase {ρ1 ρ2 ω σ1 σ2 τ : Type} {K : kernel_ops ρ1 ρ2 ω}
    {K2 : kernel_ops σ1 σ2 τ} {e1 : ρ1 → σ1} {e2 : ρ2 → σ2} {eo : ω → τ}
    (h : embeds K K2 e1 e2 eo) (F S U : Int) (n : Nat) (s : locals ρ1 ρ2 ω) :
    drain_phase K2 F S U n (locals.map e1 e2 eo s) =
      (drain_phase K F S U n s).map (fun r => (r.1, locals.map e1 e2 eo r.2)) := by
  have second : ∀ t : locals ρ1 ρ2 ω,
      (match (if (locals.map e1 e2 eo t).empty = 1 then
                drain2 K2 F S U n (locals.map e1 e2 eo t)
              else some (flow.go (locals.map e1 e2 eo t))) with
      | none => none
      | some (flow.OUT err s) => some (err, s)
      | some (flow.brk s) => some (0, s)
      | some (flow.go s) => some (finish K2 s)) =
      (match (if t.empty = 1 then drain2 K F S U n t else some (flow.go t)) with
      | none => none
      | some (flow.OUT err s) => some (err, s)
      | some (flow.brk s) => some (0, s)
      | some (flow.go s) => some (finish K s)).map
        (fun r : Int × locals ρ1 ρ2 ω => (r.1, locals.map e1 e2 eo r.2)) := by
    intro t
    have c2 : (locals.map e1 e2 eo t).empty = t.empty := rfl
    rw [c2]
    by_cases c : t.empty = 1
    · simp only [c, if_true, embed_drain2 h]
      rcases drain2 K F S U n t with _ | fl
      · rfl
      · cases fl with
        | OUT e u => rfl
        | brk u => rfl
        | go u => simp only [Option.map_some', flow.map, embed_finish h]
    · simp only [c, if_false, embed_finish h, Option.map_some']
  unfold drain_phase
  have c2 : (locals.map e1 e2 eo s).empty = s.empty := rfl
  rw [c2]
  by_cases c : s.empty = 2
  · simp only [c, if_true, embed_drain1 h]
    rcases drain1 K F S U n s with _ | fl
    · rfl
    · cases fl with
      | OUT e u => rfl
      | brk u => rfl
      | go u => exact second u
  · simp only [c, if_false]
    exact second s

theorem embed_merge_phase {ρ1 ρ2 ω σ1 σ2 τ : Type} {K : kernel_ops ρ1 ρ2 ω}
    {K2 : kernel_ops σ1 σ2 τ} {e1 : ρ1 → σ1} {e2 : ρ2 → σ2} {eo : ω → τ}
    (h : embeds K K2 e1 e2 eo) (F S U : Int) (n k : Nat) (s : locals ρ1 ρ2 ω) :
    merge_phase K2 F S U n k (locals.map e1 e2 eo s) =
      (merge_phase K F S U n k s).map (fun r => (r.1, locals.map e1 e2 eo r.2)) := by
  simp only [merge_phase, embed_main_loop h]
  rcases main_loop K F S U n s with _ | fl
  · rfl
  · cases fl with
    | OUT e u => rfl
    | brk u => rfl
    | go u => exact embed_drain_phase h F S U k u

theorem embed_initial_reads {ρ1 ρ2 ω σ1 σ2 τ : Type} {K : kernel_ops ρ1 ρ2 ω}
    {K2 : kernel_ops σ1 σ2 τ} {e1 : ρ1 → σ1} {e2 : ρ2 → σ2} {eo : ω → τ}
    (h : embeds K K2 e1 e2 eo) (s : locals ρ1 ρ2 ω) :
    initial_reads K2 (locals.map e1 e2 eo s) =
      (initial_reads K s).map (flow.map (locals.map e1 e2 eo)) := by
  obtain ⟨h1, h2, _, _, _⟩ := h
  simp only [initial_reads, locals.map, h1, h2]
  rcases K.read1 s.file_temp s.file_in1 s.inbuf1 with _ | ⟨e, b, f⟩
  · rfl
  · simp only [Option.map_some']
    by_cases c : e < 0
    · simp only [c, if_true]
      rfl
    · simp only [c, if_false]
      rcases K.read2 s.file_temp s.file_in2 s.inbuf2 with _ | ⟨e2, b2, f2⟩
      · rfl
      · simp only [Option.map_some']
        by_cases c2 : e2 < 0
        · simp only [c2, if_true]
          rfl
        · simp only [c2, if_false]
          rfl

/-- When the operations `K2` on carried file states do what the operations `K` do, the run with
`K2` from carried file states is the run with `K`, its final state carried. -/
theorem xmergesort_embed {ρ1 ρ2 ω σ1 σ2 τ : Type} {K : kernel_ops ρ1 ρ2 ω}
    {K2 : kernel_ops σ1 σ2 τ} {e1 : ρ1 → σ1} {e2 : ρ2 → σ2} {eo : ω → τ}
    (h : embeds K K2 e1 e2 eo) (flags n : Nat) (m : heap) (f1 : ρ1) (f2 : ρ2) (ft : ω) :
    xmergesort K2 flags n m (e1 f1) (e2 f2) (eo ft) =
      (xmergesort K flags n m f1 f2 ft).map (fun r => (r.1, locals.map e1 e2 eo r.2)) := by
  unfold xmergesort
  have := embed_initial_reads h
    ⟨f1, f2, ft, m.inbuf1, m.inbuf2, m.lastout, 0, 0, 0, 0, false⟩
  simp only [locals.map] at this
  rw [this]
  rcases initial_reads K ⟨f1, f2, ft, m.inbuf1, m.inbuf2, m.lastout, 0, 0, 0, 0, false⟩
    with _ | fl
  · rfl
  · cases fl with
    | OUT e u => rfl
    | brk u => rfl
    | go u => exact embed_merge_phase h _ _ _ n n u

/-- The operations on the files of the system call do on input files that are not the file that
`temp.txt` names what the operations on three different byte files do. -/
theorem shared_ops_embeds (P : Nat) (old : List Nat) :
    embeds (byte_ops P) (shared_ops P) private_input private_input (temp_over old) := by
  refine ⟨fun w f b => ?_, fun w f b => ?_, fun w b n lo => ?_, fun w => rfl, fun n => rfl⟩
  · simp only [shared_ops, shared_read, private_input, byte_ops]
    rcases file_line_read P f.1 b f.2 with _ | r
    · rfl
    · rfl
  · simp only [shared_ops, shared_read, private_input, byte_ops]
    rcases file_line_read P f.1 b f.2 with _ | r
    · rfl
    · rfl
  · simp only [shared_ops, temp_over, byte_ops]
    rcases file_line_write P w.1 b n w.2 lo with _ | r
    · rfl
    · rfl

/-! ## The destination after a failure -/

/-- The inodes that the paths name are below `free`. -/
theorem disk.inode_lt_free (d : disk) (p : String) (i : Nat) (h : d.inode_of p = some i) :
    i < d.free := by
  obtain ⟨dir, data⟩ := d
  simp only [disk.inode_of, disk.free] at h ⊢
  induction dir with
  | nil => simp at h
  | cons e es ih =>
    obtain ⟨q, j⟩ := e
    simp only [List.lookup_cons] at h
    simp only [List.map_cons, List.foldr_cons]
    split at h
    · cases h
      omega
    · have := ih h
      omega

/-- What `filp_open` with `O_CREAT` does to the files: the path names the inode opened, which
holds what the file held or nothing; the other paths and the inodes in use are as before. -/
theorem open_creat_spec (d : disk) (p : String) :
    (open_creat d p).2.inode_of p = some (open_creat d p).1 ∧
    (open_creat d p).2.data (open_creat d p).1 = (d.read p).getD [] ∧
    (∀ q, q ≠ p → (open_creat d p).2.inode_of q = d.inode_of q) ∧
    (∀ j, j < d.free → (open_creat d p).2.data j = d.data j) ∧
    d.free ≤ (open_creat d p).2.free ∧
    (d.inode_of p = none → (open_creat d p).1 = d.free) ∧
    (∀ i, d.inode_of p = some i → (open_creat d p).1 = i) := by
  unfold open_creat
  rcases h : d.inode_of p with _ | i
  · refine ⟨by simp [disk.add, disk.inode_of], by simp [disk.add, disk.read, h],
      (fun q hq => by simp [disk.add, disk.inode_of, List.lookup_cons, beq_false_of_ne hq]),
      fun j hj => ?_,
      ?_, fun _ => rfl, (fun i hi => by cases hi)⟩
    · have : j ≠ d.free := by omega
      simp [disk.add, this]
    · simp only [disk.add, disk.free, List.map_cons, List.foldr_cons]
      omega
  · exact ⟨h, by simp [disk.read, h], fun q _ => rfl, fun j _ => rfl, le_refl _,
      (fun hn => by cases hn), (fun j hj => by cases hj; rfl)⟩

theorem validate_bad_flags (stat : String → Int) (u : fileinput)
    (h : (u.flags &&& F_OUTPUT_UNIQ = 0 ∧ u.flags &&& F_OUTPUT_ALL = 0) ∨
      (u.flags &&& F_OUTPUT_UNIQ ≠ 0 ∧ u.flags &&& F_OUTPUT_ALL ≠ 0)) :
    validate stat (some u) = -EINVAL := by
  rcases h with ⟨h1, h2⟩ | ⟨h1, h2⟩
  · simp [validate, h1, h2]
  · simp [validate, h1, h2]

theorem validate_ok (stat : String → Int) (u : fileinput) (infile1 infile2 outfile : String)
    (e1 : u.infile1 = some infile1) (e2 : u.infile2 = some infile2)
    (e3 : u.outfile = some outfile) (s1 : stat infile1 = 0) (s2 : stat infile2 = 0)
    (h : (u.flags &&& F_OUTPUT_UNIQ ≠ 0 ∧ u.flags &&& F_OUTPUT_ALL = 0) ∨
      (u.flags &&& F_OUTPUT_UNIQ = 0 ∧ u.flags &&& F_OUTPUT_ALL ≠ 0)) :
    validate stat (some u) = 0 := by
  rcases h with ⟨h1, h2⟩ | ⟨h1, h2⟩
  · simp [validate, h1, h2, e1, e2, e3, s1, s2]
  · simp [validate, h1, h2, e1, e2, e3, s1, s2]

/-- With `-t`, a pair of adjacent lines of one file that is strictly decreasing makes the run on
whole lines return `-EINVAL` before the rename, whatever the line buffers hold at the start. -/
theorem desc_pair_rejected (flags : Nat) (m : heap) (A B : List (List Nat))
    (hA : ∀ l ∈ A, is_line l) (hB : ∀ l ∈ B, is_line l)
    (hsort : flags &&& F_CHECK_SORTED ≠ 0)
    (hdesc : (∃ l1 x y l2, A = l1 ++ x :: y :: l2 ∧ line_lt (INSEN_FLAG flags) y x) ∨
      (∃ l1 x y l2, B = l1 ++ x :: y :: l2 ∧ line_lt (INSEN_FLAG flags) y x)) :
    ∃ s, xmergesort_lines flags m A B = some (-EINVAL, s) ∧ s.renamed = false := by
  have hne : A ≠ [] ∨ B ≠ [] := by
    rcases hdesc with ⟨l1, x, y, l2, h, _⟩ | ⟨l1, x, y, l2, h, _⟩
    · left; rw [h]; simp
    · right; rw [h]; simp
  obtain ⟨M, r, hM, hr, hm⟩ := xmergesort_lines_spec flags m A B hA hB hne
  have hl : ∀ l ∈ M, is_line l := by
    intro l h
    rcases List.mem_append.mp ((interleaved_perm hM).mem_iff.mp h) with h | h
    · exact hA l h
    · exact hB l h
  have hS : SORT_FLAG flags ≠ 0 := by simp [SORT_FLAG, hsort]
  unfold run_matches at hm
  cases hf : filter_lines (INSEN_FLAG flags) (SORT_FLAG flags) (UNIQ_FLAG flags) m.lastout
      M with
  | error e =>
    rw [hf] at hm
    obtain ⟨e2, s⟩ := r
    obtain ⟨rfl, rfl, h3⟩ := hm
    exact ⟨s, hr, h3⟩
  | ok E =>
    exfalso
    obtain ⟨s1, s2⟩ := sorted_of_interleaved_sorted hM
      (filter_lines_sorted_of_ok hS M m.lastout E hl hf).1
    have key : ∀ (X l1 l2 : List (List Nat)) (x y : List Nat),
        X.Chain' (line_le (INSEN_FLAG flags)) → X = l1 ++ x :: y :: l2 →
        line_lt (INSEN_FLAG flags) y x → False := by
      intro X l1 l2 x y hX h hlt
      rw [h] at hX
      have h3 : line_le (INSEN_FLAG flags) x y := chain_of_split l1 x y l2 hX
      have h4 := cmp_swap_lt (INSEN_FLAG flags) x y
      unfold line_le at h3
      unfold line_lt at hlt
      omega
    rcases hdesc with ⟨l1, x, y, l2, h, hlt⟩ | ⟨l1, x, y, l2, h, hlt⟩
    · exact key A l1 l2 x y s1 h hlt
    · exact key B l1 l2 x y s2 h hlt

/-- The run of the system call on input files that are not the file that `temp.txt` names is
the run on three different byte files. -/
theorem shared_run_private (P flags n : Nat) (m : heap) (f1 f2 ft : file) (old : List Nat) :
    xmergesort (shared_ops P) flags n m
        { shared := none, filp := f1, inbuf := inputbuf_init P }
        { shared := none, filp := f2, inbuf := inputbuf_init P }
        { old := old, filp := ft, outbuf := outputbuf_init P } =
      (xmergesort (byte_ops P) flags n m (f1, inputbuf_init P) (f2, inputbuf_init P)
        (ft, outputbuf_init P)).map
        (fun r => (r.1, locals.map private_input private_input (temp_over old) r.2)) :=
  xmergesort_embed (shared_ops_embeds P old) flags n m (f1, inputbuf_init P)
    (f2, inputbuf_init P) (ft, outputbuf_init P)

/-- C15 fails as stated: the call on `in1` with the lines `b`, `a` and the flags `-a -t`
(a line out of order) and the call with the flags `-t` alone (neither `-u` nor `-a`) return the
same value, `-EINVAL`. -/
theorem not_sorted_counterexample :
    (sys_xmergesort 8 ⟨[], [], [], 0, heap.clean⟩ 10 (two_files (bytes "b\na\n") (bytes "c\n"))
        (some (request 0x12 0))).map Prod.fst =
      (sys_xmergesort 8 ⟨[], [], [], 0, heap.clean⟩ 10 (two_files (bytes "a\nb\n") (bytes "c\n"))
        (some (request 0x10 0))).map Prod.fst ∧
    (sys_xmergesort 8 ⟨[], [], [], 0, heap.clean⟩ 10 (two_files (bytes "b\na\n") (bytes "c\n"))
        (some (request 0x12 0))).map Prod.fst = some (-EINVAL) :=
  ⟨rfl, rfl⟩

/-- C15 as amended: `xmergesort` returns `-EINVAL` for a line out of order with `-t` set (a
valid request whose input files and output file are three different files, the input files
other than the file that `temp.txt` names, reads and writes that do not fail, and in one input a
line that is less than the line before it), and it returns the same value `-EINVAL` for a
request with neither or both of `-u` and `-a`: the returned value does not tell the two apart.
This holds whatever the line buffers, of `PAGE_SIZE` bytes, hold at the start, and for every
bound on the passes of the loops that is at least the number of bytes of the input files plus
2. -/
theorem not_sorted_same_as_invalid (P : Nat) (K K2 : kernel_env) (fuel fuel2 : Nat) (d d2 : disk)
    (finput finput2 : fileinput) (infile1 infile2 outfile : String) (in1 in2 : Nat)
    (h1 : finput.infile1 = some infile1) (h2 : finput.infile2 = some infile2)
    (ho : finput.outfile = some outfile)
    (hc1 : d.inode_of infile1 = some in1) (hc2 : d.inode_of infile2 = some in2)
    (h12 : in1 ≠ in2) (h1o : d.inode_of outfile ≠ some in1) (h2o : d.inode_of outfile ≠ some in2)
    (ht1 : d.inode_of "temp.txt" ≠ some in1) (ht2 : d.inode_of "temp.txt" ≠ some in2)
    (hfuel : (d.data in1).length + (d.data in2).length + 2 ≤ fuel)
    (hm1 : K.kmalloc.inbuf1.length ≤ P) (hm2 : K.kmalloc.inbuf2.length ≤ P)
    (hmode : (finput.flags &&& F_OUTPUT_UNIQ ≠ 0 ∧ finput.flags &&& F_OUTPUT_ALL = 0) ∨
      (finput.flags &&& F_OUTPUT_UNIQ = 0 ∧ finput.flags &&& F_OUTPUT_ALL ≠ 0))
    (hsort : finput.flags &&& F_CHECK_SORTED ≠ 0)
    (hn1 : 0 ∉ d.data in1) (hn2 : 0 ∉ d.data in2)
    (hf1 : ∀ l ∈ lines_of (d.data in1), l.length < P)
    (hf2 : ∀ l ∈ lines_of (d.data in2), l.length < P) (hr1 : no_fail K.script_in1)
    (hr2 : no_fail K.script_in2) (hw : complete K.script_temp)
    (hdesc : (∃ l1 x y l2, lines_of (d.data in1) = l1 ++ x :: y :: l2 ∧
        line_lt (INSEN_FLAG finput.flags) y x) ∨
      (∃ l1 x y l2, lines_of (d.data in2) = l1 ++ x :: y :: l2 ∧
        line_lt (INSEN_FLAG finput.flags) y x))
    (hbad : (finput2.flags &&& F_OUTPUT_UNIQ = 0 ∧ finput2.flags &&& F_OUTPUT_ALL = 0) ∨
      (finput2.flags &&& F_OUTPUT_UNIQ ≠ 0 ∧ finput2.flags &&& F_OUTPUT_ALL ≠ 0)) :
    (sys_xmergesort P K fuel d (some finput)).map Prod.fst = some (-EINVAL) ∧
    (sys_xmergesort P K2 fuel2 d2 (some finput2)).map Prod.fst = some (-EINVAL) := by
  constructor
  · have hv : validate (vfs_stat d) (some finput) = 0 :=
      validate_ok _ _ _ _ _ h1 h2 ho (by simp [vfs_stat, hc1]) (by simp [vfs_stat, hc2]) hmode
    obtain ⟨t1, t2, t3, t4, t6, t8, t9⟩ := open_creat_spec d "temp.txt"
    obtain ⟨o1, o2, o3, o4, o6, o8, o9⟩ := open_creat_spec (open_creat d "temp.txt").2 outfile
    have hl1 : in1 < d.free := disk.inode_lt_free d infile1 in1 hc1
    have hl2 : in2 < d.free := disk.inode_lt_free d infile2 in2 hc2
    -- the inode of `temp.txt` is the inode of neither input file
    have hnt : ∀ i, i < d.free → d.inode_of "temp.txt" ≠ some i →
        i ≠ (open_creat d "temp.txt").1 := by
      intro i hi hne e
      rcases ht : d.inode_of "temp.txt" with _ | j
      · rw [t8 ht] at e; omega
      · rw [t9 j ht] at e; exact hne (by rw [ht, e])
    -- nor is the inode of the output file
    have hno : ∀ i, i < d.free → d.inode_of outfile ≠ some i →
        d.inode_of "temp.txt" ≠ some i →
        i ≠ (open_creat (open_creat d "temp.txt").2 outfile).1 := by
      intro i hi hne hnt2 e
      rcases hq : (open_creat d "temp.txt").2.inode_of outfile with _ | j
      · rw [o8 hq] at e; omega
      · rw [o9 j hq] at e
        subst e
        by_cases hp : outfile = "temp.txt"
        · rw [hp, t1] at hq
          exact hnt i hi hnt2 (by cases hq; rfl)
        · rw [t3 outfile hp] at hq
          exact hne hq
    have hd1 : (open_creat (open_creat d "temp.txt").2 outfile).2.data in1 = d.data in1 := by
      rw [o4 in1 (by omega), t4 in1 hl1]
    have hd2 : (open_creat (open_creat d "temp.txt").2 outfile).2.data in2 = d.data in2 := by
      rw [o4 in2 (by omega), t4 in2 hl2]
    obtain ⟨r, q, hr, hq, hs⟩ := xmergesort_bytes_lines P finput.flags K.kmalloc (d.data in1)
      (d.data in2) K.script_in1 K.script_in2 ⟨[], K.script_temp⟩ hm1 hm2 hn1 hn2 hf1 hf2 hr1 hr2
      hw
    obtain ⟨s, hl, hren⟩ := desc_pair_rejected finput.flags K.kmalloc (lines_of (d.data in1))
      (lines_of (d.data in2))
      (lines_of_is_line _ _ (le_refl _) hn1) (lines_of_is_line _ _ (le_refl _) hn2) hsort hdesc
    rw [hl] at hq
    cases hq
    obtain ⟨e, b⟩ := r
    obtain ⟨he, _, hb, _⟩ := hs
    simp only at he hb
    subst he
    have hb2 : ¬ b.renamed = true := by rw [hb, hren]; simp
    have hrun := xmergesort_mono (byte_ops P) finput.flags _ fuel K.kmalloc _ _ _ _ hfuel hr
    simp only [sys_xmergesort, hv, ne_eq, not_true, if_false, h1, h2, ho, hc1, hc2, h12,
      hno in1 hl1 h1o ht1, hno in2 hl2 h2o ht2, hnt in1 hl1 ht1, hnt in2 hl2 ht2, hd1, hd2,
      shared_run_private, hrun, Option.map_some', locals.map, hb2]
    rfl
  · simp [sys_xmergesort, validate_bad_flags _ _ hbad, EINVAL]

theorem not_sorted_same_as_invalid_witness :
    (sys_xmergesort 8 ⟨[.short 0], [], [], 0, ⟨[], [], bytes "a\n"⟩⟩ 10
        (two_files (bytes "b\na\n") (bytes "c\n")) (some (request 0x12 0))).map Prod.fst =
      some (-EINVAL) ∧
    (sys_xmergesort 8 ⟨[], [], [], 0, heap.clean⟩ 10 (two_files (bytes "a\n") (bytes "c\n"))
        (some (request 0x13 0))).map Prod.fst = some (-EINVAL) :=
  not_sorted_same_as_invalid 8 ⟨[.short 0], [], [], 0, ⟨[], [], bytes "a\n"⟩⟩
    ⟨[], [], [], 0, heap.clean⟩ 10 10
    (two_files (bytes "b\na\n") (bytes "c\n")) (two_files (bytes "a\n") (bytes "c\n"))
    (request 0x12 0) (request 0x13 0) "in1" "in2" "out" 1 2
    rfl rfl rfl rfl rfl (by decide) (by decide) (by decide) (by decide)
    (by decide) (by decide) (by decide) (by decide)
    (Or.inr ⟨by decide, by decide⟩) (by decide) (by decide) (by decide) (by decide) (by decide)
    (by decide) (by decide) (by simp [complete])
    (Or.inl ⟨[], bytes "b\n", bytes "a\n", [], by decide, by decide⟩)
    (Or.inr ⟨by decide, by decide⟩)

/-! ## Failures of the last write and of the rename -/

/-- C16 (the code departs from the claim): `in1` holds the line `a` and `in2` the line `b`; the
call is made with `-a`. When the final `vfs_write` of the output buffer, the only write of this
run, fails with `-EIO`, `xmergesort` returns 0 and the file renamed to `out` is empty: the value
of that `vfs_write` is not looked at. When `vfs_rename` fails with `-EEXIST`, `xmergesort`
returns 0 as well, `out` is the empty file created when it was opened, and the merged lines are
in `temp.txt`. -/
theorem final_write_and_rename_unchecked :
    (sys_xmergesort 8 ⟨[], [], [.fail 4], 0, heap.clean⟩ 10
        (two_files (bytes "a\n") (bytes "b\n"))
        (some (request 0x02 0))).map (fun r => (r.1, r.2.1.read "out", r.2.1.read "temp.txt")) =
      some (0, some [], none) ∧
    (sys_xmergesort 8 ⟨[], [], [], -17, heap.clean⟩ 10
        (two_files (bytes "a\n") (bytes "b\n"))
        (some (request 0x02 0))).map (fun r => (r.1, r.2.1.read "out", r.2.1.read "temp.txt")) =
      some (0, some [], some (bytes "a\nb\n")) ∧
    (sys_xmergesort 8 ⟨[], [], [], 0, heap.clean⟩ 10
        (two_files (bytes "a\n") (bytes "b\n"))
        (some (request 0x02 0))).map (fun r => (r.1, r.2.1.read "out", r.2.1.read "temp.txt")) =
      some (0, some (bytes "a\nb\n"), none) :=
  ⟨rfl, rfl, rfl⟩

/-! ## A flush of `file_line_write` that fails or falls short -/

/-- C17 fails as stated: with `PAGE_SIZE = 2` the output buffer has 4 bytes. It holds the line
`ab` (3 bytes with the newline) and the line `cd` is passed: the buffer is flushed, `vfs_write`
writes 1 byte of the 3 and returns 1, and `file_line_write` returns 4, a success; the buffer has
been reset and holds the line `cd`, and the bytes `b` and newline are lost. -/
theorem short_flush_counterexample :
    file_line_write 2 ⟨[], [.short 0]⟩ (bytes "cd\n") 3 ⟨bytes "ab\n" ++ [0], 3, 1⟩ (bytes "ab\n") =
      some (4, bytes "cd\n", ⟨bytes "a", []⟩, ⟨bytes "cd\n" ++ [0], 3, 1⟩) := by
  decide

/-- C17 as amended: `file_line_write` returns a negative value exactly when it flushes (less
than `len` bytes are free) and the `vfs_write` of the flush returns a negative value; it then
returns that value, the line is not appended, the buffer is not reset, and `lastout` is not
changed. A flush that writes fewer bytes than requested is not a failure. -/
theorem flush_error_only (P : Nat) (filp : file) (buf : List Nat) (len : Nat) (outbuf : outputbuf)
    (lastout : List Nat) :
    (outbuf.availsize < len →
      (vfs_write filp (outbuf.buffer.take outbuf.currsize)).1 < 0 →
      file_line_write P filp buf len outbuf lastout =
        some ((vfs_write filp (outbuf.buffer.take outbuf.currsize)).1, lastout,
          (vfs_write filp (outbuf.buffer.take outbuf.currsize)).2, outbuf)) ∧
    (∀ r, file_line_write P filp buf len outbuf lastout = some r →
      (r.1 < 0 ↔ outbuf.availsize < len ∧
        (vfs_write filp (outbuf.buffer.take outbuf.currsize)).1 < 0)) := by
  constructor
  · intro hav herr
    simp [file_line_write, hav, herr]
  · intro r hr
    unfold file_line_write at hr
    by_cases hav : outbuf.availsize < len
    · by_cases herr : (vfs_write filp (outbuf.buffer.take outbuf.currsize)).1 < 0
      · simp only [hav, herr, if_true, Option.some.injEq] at hr
        rw [← hr]
        simp [hav, herr]
      · simp only [hav, herr, if_true, if_false] at hr
        split_ifs at hr
        cases hr
        simp only [hav, herr, and_false, iff_false, not_lt]
        omega
    · simp only [hav, if_false, lt_irrefl] at hr
      split_ifs at hr
      cases hr
      simp only [hav, false_and, iff_false, not_lt]
      omega

theorem flush_error_only_witness :
    file_line_write 2 ⟨[], [.fail 4]⟩ (bytes "cd\n") 3 ⟨bytes "ab\n" ++ [0], 3, 1⟩ (bytes "ab\n") =
      some (-5, bytes "ab\n", ⟨[], []⟩, ⟨bytes "ab\n" ++ [0], 3, 1⟩) :=
  (flush_error_only 2 ⟨[], [.fail 4]⟩ (bytes "cd\n") 3 ⟨bytes "ab\n" ++ [0], 3, 1⟩
    (bytes "ab\n")).1 (by decide) (by decide)

/-! ## Which side advances when the candidates are equal -/

theorem part1_tie_first (F S U : Int) (a b lo : List Nat) (w l : Nat)
    (heq : strcmputil a b F = 0) (h : strlen lo = 0 ∨ strcmputil a lo F > 0) :
    part1 F S U a b lo w l = .ok (if strcmputil a b 0 < 0 then (1, 1) else (2, 2)) := by
  have hba : strcmputil b a F = 0 := (cmp_swap_eq F a b).mpr heq
  by_cases hlo : strlen lo = 0
  · simp only [part1, hlo, heq, hba, lt_irrefl, gt_iff_lt, and_false, if_false, if_true]
    split_ifs <;> rfl
  · have hgt : strcmputil a lo F > 0 := by
      rcases h with h | h
      · exact absurd h hlo
      · exact h
    have hlo2 : strlen lo > 0 := by omega
    simp only [part1, hlo2, heq, hba, hgt, lt_irrefl, gt_iff_lt, and_true, false_and, if_false,
      if_true]
    split_ifs <;> rfl

theorem part1_tie_equal (F S U : Int) (a b lo : List Nat) (w l : Nat)
    (heq : strcmputil a b F = 0) (hlo : strlen lo > 0) (h : strcmputil a lo F = 0) :
    part1 F S U a b lo w l = .ok (if U = 1 then (0, 0) else (1, 1)) := by
  have hba : strcmputil b a F = 0 := (cmp_swap_eq F a b).mpr heq
  simp only [part1, hlo, heq, hba, h, lt_irrefl, gt_iff_lt, and_true, false_and, if_false,
    if_true]
  split_ifs <;> rfl

theorem part1_tie_less (F S U : Int) (a b lo : List Nat) (w l : Nat)
    (heq : strcmputil a b F = 0) (hlo : strlen lo > 0) (h : strcmputil a lo F < 0) :
    part1 F S U a b lo w l = if S ≠ 0 then .error (-EINVAL) else .ok (0, 0) := by
  have hba : strcmputil b a F = 0 := (cmp_swap_eq F a b).mpr heq
  have h1 : ¬ strcmputil a lo F > 0 := by omega
  have h2 : ¬ strcmputil a lo F = 0 := by omega
  simp only [part1, hlo, heq, hba, h1, h2, lt_irrefl, gt_iff_lt, and_true, false_and, if_false,
    if_true]

/-- C18 fails as stated: the comparison is case-insensitive, the candidate of file 1 is `a` and
the candidate of file 2 is `A`; they are equal, and `A` is the first of the two under the
case-sensitive comparison. The step writes `A` and advances file 2, the side ordered first: its
next line `B` becomes the candidate. File 1, the side ordered second, is not advanced: its
candidate stays `a` and its next line `b` is not read. -/
theorem tie_advance_counterexample :
    strcmputil (bytes "a\n") (bytes "A\n") 1 = 0 ∧
    strcmputil (bytes "A\n") (bytes "a\n") 0 < 0 ∧
    (loop_body line_ops 1 0 0
        ⟨[bytes "b\n"], [bytes "B\n"], [], bytes "a\n", bytes "A\n", [], 0, 0, 0, 0, false⟩).map
      (fun r => (r.st.file_in1, r.st.inbuf1, r.st.file_in2, r.st.inbuf2, r.st.file_temp,
        r.st.load)) =
      some ([bytes "b\n"], bytes "a\n", [], bytes "B\n", [bytes "A\n"], 2) :=
  ⟨by decide, by decide, rfl⟩

theorem step_write1_load1 (F S U : Int) : ∀ s : lstate,
    part1 F S U s.inbuf1 s.inbuf2 s.lastout s.write s.load = .ok (1, 1) →
    ∃ r, loop_body line_ops F S U s = some r ∧ r.st.load = 1 ∧
      r.st.file_temp = s.file_temp ++ [copied s.inbuf1 (strlen s.inbuf1)] ∧
      r.st.file_in1 = s.file_in1.tail ∧ r.st.file_in2 = s.file_in2 ∧
      r.st.inbuf2 = s.inbuf2 := by
  rintro ⟨f1, f2, ft, a, b, lo, ld, w, e, i, rn⟩ hp
  simp only at hp
  have hnn : ¬ ((strlen a : Int) + 1 < 0) := by omega
  rcases f1 with _ | ⟨x, xs⟩
  · simp [loop_body, hp, part2, part3, line_ops, write_line, read_line, hnn, flow.st]
  · by_cases hx : (x.length : Int) ≤ 0
    · have hx2 : ¬ ((x.length : Int) < 0) := by omega
      simp [loop_body, hp, part2, part3, line_ops, write_line, read_line, hnn, hx, hx2, flow.st]
    · simp [loop_body, hp, part2, part3, part3_file2, line_ops, write_line, read_line, hnn, hx,
        flow.st]

theorem step_write2_load2 (F S U : Int) : ∀ s : lstate,
    part1 F S U s.inbuf1 s.inbuf2 s.lastout s.write s.load = .ok (2, 2) →
    ∃ r, loop_body line_ops F S U s = some r ∧ r.st.load = 2 ∧
      r.st.file_temp = s.file_temp ++ [copied s.inbuf2 (strlen s.inbuf2)] ∧
      r.st.file_in2 = s.file_in2.tail ∧ r.st.file_in1 = s.file_in1 ∧
      r.st.inbuf1 = s.inbuf1 := by
  rintro ⟨f1, f2, ft, a, b, lo, ld, w, e, i, rn⟩ hp
  simp only at hp
  have hnn : ¬ ((strlen b : Int) + 1 < 0) := by omega
  rcases f2 with _ | ⟨x, xs⟩
  · simp [loop_body, hp, part2, part3, part3_file2, line_ops, write_line, read_line, hnn,
      flow.st]
  · by_cases hx : (x.length : Int) ≤ 0
    · have hx2 : ¬ ((x.length : Int) < 0) := by omega
      simp [loop_body, hp, part2, part3, part3_file2, line_ops, write_line, read_line, hnn, hx,
        hx2, flow.st]
    · simp [loop_body, hp, part2, part3, part3_file2, line_ops, write_line, read_line, hnn, hx,
        flow.st]

theorem step_write0_load0 (F S U : Int) : ∀ s : lstate,
    part1 F S U s.inbuf1 s.inbuf2 s.lastout s.write s.load = .ok (0, 0) →
    ∃ r, loop_body line_ops F S U s = some r ∧ r.st.load = 0 ∧
      r.st.file_temp = s.file_temp ∧ r.st.file_in1 = s.file_in1.tail := by
  rintro ⟨f1, f2, ft, a, b, lo, ld, w, e, i, rn⟩ hp
  simp only at hp
  rcases f1 with _ | ⟨x, xs⟩
  · simp [loop_body, hp, part2, part3, line_ops, read_line, flow.st]
  · by_cases hx : (x.length : Int) ≤ 0
    · have hx2 : ¬ ((x.length : Int) < 0) := by omega
      simp [loop_body, hp, part2, part3, line_ops, read_line, hx, hx2, flow.st]
    · rcases f2 with _ | ⟨y, ys⟩
      · simp [loop_body, hp, part2, part3, part3_file2, line_ops, read_line, hx, flow.st]
      · by_cases hy : (y.length : Int) ≤ 0
        · have hy2 : ¬ ((y.length : Int) < 0) := by omega
          simp [loop_body, hp, part2, part3, part3_file2, line_ops, read_line, hx, hy, hy2,
            flow.st]
        · simp [loop_body, hp, part2, part3, part3_file2, line_ops, read_line, hx, hy, flow.st]

/-- C18 as amended: at a step of the main loop in which the two candidates are equal under the
active case mode (the run on whole lines; the step always returns a result `r`): when no line
has been written yet or the candidates are greater than the last written line, the side ordered
first by the case-sensitive comparison (file 2 when the candidates are identical) is written
and is the only side advanced, and the candidate of the side ordered second stays; when the
candidates equal the last written line, mode Unique writes nothing and sets `load = 0`, which
advances file 1 and then file 2, and mode All writes and advances file 1 only; when the
candidates are less than the last written line, `-t` ends the run with `-EINVAL`, and without
`-t` nothing is written and `load = 0`. -/
theorem tie_advances_first (F S U : Int) (s : lstate)
    (heq : strcmputil s.inbuf1 s.inbuf2 F = 0) :
    ∃ r, loop_body line_ops F S U s = some r ∧
      ((strlen s.lastout = 0 ∨ strcmputil s.inbuf1 s.lastout F > 0) →
        (strcmputil s.inbuf1 s.inbuf2 0 < 0 → r.st.load = 1 ∧
          r.st.file_temp = s.file_temp ++ [copied s.inbuf1 (strlen s.inbuf1)] ∧
          r.st.file_in1 = s.file_in1.tail ∧ r.st.file_in2 = s.file_in2 ∧
          r.st.inbuf2 = s.inbuf2) ∧
        (¬ strcmputil s.inbuf1 s.inbuf2 0 < 0 → r.st.load = 2 ∧
          r.st.file_temp = s.file_temp ++ [copied s.inbuf2 (strlen s.inbuf2)] ∧
          r.st.file_in2 = s.file_in2.tail ∧ r.st.file_in1 = s.file_in1 ∧
          r.st.inbuf1 = s.inbuf1)) ∧
      (strlen s.lastout > 0 ∧ strcmputil s.inbuf1 s.lastout F = 0 →
        (U = 1 → r.st.load = 0 ∧ r.st.file_temp = s.file_temp ∧
          r.st.file_in1 = s.file_in1.tail) ∧
        (U ≠ 1 → r.st.load = 1 ∧
          r.st.file_temp = s.file_temp ++ [copied s.inbuf1 (strlen s.inbuf1)] ∧
          r.st.file_in1 = s.file_in1.tail ∧ r.st.file_in2 = s.file_in2 ∧
          r.st.inbuf2 = s.inbuf2)) ∧
      (strlen s.lastout > 0 ∧ strcmputil s.inbuf1 s.lastout F < 0 →
        (S ≠ 0 → r = .OUT (-EINVAL) s) ∧
        (S = 0 → r.st.load = 0 ∧ r.st.file_temp = s.file_temp ∧
          r.st.file_in1 = s.file_in1.tail)) := by
  by_cases hA : strlen s.lastout = 0 ∨ strcmputil s.inbuf1 s.lastout F > 0
  · have hp := part1_tie_first F S U s.inbuf1 s.inbuf2 s.lastout s.write s.load heq hA
    have hB : ¬ (strlen s.lastout > 0 ∧ strcmputil s.inbuf1 s.lastout F = 0) := by omega
    have hC : ¬ (strlen s.lastout > 0 ∧ strcmputil s.inbuf1 s.lastout F < 0) := by omega
    by_cases ht : strcmputil s.inbuf1 s.inbuf2 0 < 0
    · rw [if_pos ht] at hp
      obtain ⟨r, hr, h⟩ := step_write1_load1 F S U s hp
      exact ⟨r, hr, fun _ => ⟨fun _ => h, fun n => absurd ht n⟩, fun h => absurd h hB,
        fun h => absurd h hC⟩
    · rw [if_neg ht] at hp
      obtain ⟨r, hr, h⟩ := step_write2_load2 F S U s hp
      exact ⟨r, hr, fun _ => ⟨fun n => absurd n ht, fun _ => h⟩, fun h => absurd h hB,
        fun h => absurd h hC⟩
  · have hlo : strlen s.lastout > 0 := by omega
    by_cases hB : strcmputil s.inbuf1 s.lastout F = 0
    · have hp := part1_tie_equal F S U s.inbuf1 s.inbuf2 s.lastout s.write s.load heq hlo hB
      have hC : ¬ (strlen s.lastout > 0 ∧ strcmputil s.inbuf1 s.lastout F < 0) := by omega
      by_cases hU : U = 1
      · rw [if_pos hU] at hp
        obtain ⟨r, hr, h⟩ := step_write0_load0 F S U s hp
        exact ⟨r, hr, fun h => absurd h hA, fun _ => ⟨fun _ => h, fun n => absurd hU n⟩,
          fun h => absurd h hC⟩
      · rw [if_neg hU] at hp
        obtain ⟨r, hr, h⟩ := step_write1_load1 F S U s hp
        exact ⟨r, hr, fun h => absurd h hA, fun _ => ⟨fun n => absurd n hU, fun _ => h⟩,
          fun h => absurd h hC⟩
    · have hC : strcmputil s.inbuf1 s.lastout F < 0 := by omega
      have hp := part1_tie_less F S U s.inbuf1 s.inbuf2 s.lastout s.write s.load heq hlo hC
      have hB2 : ¬ (strlen s.lastout > 0 ∧ strcmputil s.inbuf1 s.lastout F = 0) := by omega
      by_cases hS : S ≠ 0
      · rw [if_pos hS] at hp
        exact ⟨.OUT (-EINVAL) s, by simp [loop_body, hp], fun h => absurd h hA,
          fun h => absurd h hB2, fun _ => ⟨fun _ => rfl, fun n => absurd n hS⟩⟩
      · rw [if_neg hS] at hp
        obtain ⟨r, hr, h⟩ := step_write0_load0 F S U s hp
        exact ⟨r, hr, fun h => absurd h hA, fun h => absurd h hB2,
          fun _ => ⟨fun n => absurd (not_not.mp hS) n, fun _ => h⟩⟩

theorem tie_advances_first_witness :
    ∃ r, loop_body line_ops 1 0 0
        ⟨[bytes "b\n"], [bytes "B\n"], [], bytes "a\n", bytes "A\n", [], 0, 0, 0, 0, false⟩ =
        some r ∧
      r.st.load = 2 ∧ r.st.file_temp = [bytes "A\n"] ∧ r.st.file_in2 = [] ∧
      r.st.file_in1 = [bytes "b\n"] ∧ r.st.inbuf1 = bytes "a\n" := by
  obtain ⟨r, hr, h, _⟩ := tie_advances_first 1 0 0
    ⟨[bytes "b\n"], [bytes "B\n"], [], bytes "a\n", bytes "A\n", [], 0, 0, 0, 0, false⟩
    (by decide)
  exact ⟨r, hr, (h (Or.inl (by decide))).2 (by decide)⟩

/-! ## The lines written through the output buffer -/

theorem strlen_eq_length (l : List Nat) (h : 0 ∉ l) : strlen l = l.length := by
  unfold strlen
  rw [cstr_eq_self l h]

theorem write_calls_ok (P : Nat) (base : List Nat) : ∀ (ls : List (List Nat)) (filp : file)
    (ob : outputbuf) (E : List (List Nat)) (lo : List Nat),
    (∀ l ∈ ls, 0 ∉ l ∧ l.length ≤ MAX_OUTBUF_SIZE P) → writes_as P base (filp, ob) E →
    ∃ lo2 filp2 ob2, write_calls P ls filp ob lo = some (0, lo2, filp2, ob2) ∧
      writes_as P base (filp2, ob2) (E ++ ls) ∧ lo2 = ls.getLast?.getD lo := by
  intro ls
  induction ls with
  | nil =>
    intro filp ob E lo _ hw
    exact ⟨lo, filp, ob, rfl, by simpa using hw, rfl⟩
  | cons l ls ih =>
    intro filp ob E lo hl hw
    obtain ⟨h0, hlen⟩ := hl l (by simp)
    have hs := strlen_eq_length l h0
    obtain ⟨filp2, ob2, hr, hw2⟩ := file_line_write_ok P base filp ob E l lo (strlen l) hw
      (by omega)
    rw [hs, copied_self] at hw2
    rw [cstr_eq_self l h0] at hr
    obtain ⟨lo3, filp3, ob3, hr3, hw3, hlo3⟩ := ih filp2 ob2 (E ++ [l]) l
      (fun x hx => hl x (by simp [hx])) hw2
    refine ⟨lo3, filp3, ob3, ?_, by simpa using hw3, ?_⟩
    · have hnn : ¬ ((strlen l : Int) + 1 < 0) := by omega
      simp only [write_calls, hr, hnn, if_false]
      exact hr3
    · rw [hlo3]
      rcases ls with _ | ⟨x, xs⟩
      · simp
      · rw [List.getLast?_cons_cons, List.getLast?_eq_getLast (x :: xs) (by simp)]
        rfl

/-- C19: the lines of a list, without NUL and each no longer than `MAX_OUTBUF_SIZE`, are passed
in order to `file_line_write`, from the empty output buffer and with every `vfs_write`
transferring all its bytes. Every call succeeds; the bytes written to the file followed by the
first `currsize` bytes of the buffer are the concatenation of the lines; after the final write
of the buffer the file holds exactly that concatenation; and `lastout` is the last line passed
(it is unchanged when there was none). -/
theorem write_calls_concat (P : Nat) (lines : List (List Nat)) (script : List vfs_step)
    (lastout : List Nat) (hc : complete script)
    (hl : ∀ l ∈ lines, 0 ∉ l ∧ l.length ≤ MAX_OUTBUF_SIZE P) :
    ∃ lo filp ob, write_calls P lines ⟨[], script⟩ (outputbuf_init P) lastout =
        some (0, lo, filp, ob) ∧
      filp.data ++ ob.buffer.take ob.currsize = lines.flatten ∧
      ((byte_ops P).flush (filp, ob)).1.data = lines.flatten ∧
      lo = lines.getLast?.getD lastout := by
  have hw : writes_as P [] (⟨[], script⟩, outputbuf_init P) [] :=
    ⟨hc, by simp [outputbuf_init], by simp [outputbuf_init], by simp [outputbuf_init]⟩
  obtain ⟨lo, filp, ob, hr, hw2, hlo⟩ := write_calls_ok P [] lines _ _ [] lastout hl hw
  refine ⟨lo, filp, ob, hr, ?_, ?_, hlo⟩
  · have := hw2.2.2.2
    simpa using this
  · have := flush_ok P [] (filp, ob) ([] ++ lines) hw2
    simpa using this

theorem write_calls_concat_witness :
    ∃ lo filp ob, write_calls 2 [bytes "ab\n", bytes "c\n", bytes "de\n"] ⟨[], [.all]⟩
        (outputbuf_init 2) [] = some (0, lo, filp, ob) ∧
      filp.data ++ ob.buffer.take ob.currsize =
        [bytes "ab\n", bytes "c\n", bytes "de\n"].flatten ∧
      ((byte_ops 2).flush (filp, ob)).1.data = [bytes "ab\n", bytes "c\n", bytes "de\n"].flatten ∧
      lo = [bytes "ab\n", bytes "c\n", bytes "de\n"].getLast?.getD [] :=
  write_calls_concat 2 [bytes "ab\n", bytes "c\n", bytes "de\n"] [.all] []
    (by simp [complete]) (by decide)

/-! ## The invariant of the output buffer -/

theorem poke_length (buf bs : List Nat) (off : Nat) (h : off + bs.length ≤ buf.length) :
    (poke buf off bs).length = buf.length := by
  simp [poke]
  omega

/-- C20: the output buffer is created with `currsize + availsize = MAX_OUTBUF_SIZE`, and a call
of `file_line_write` with `len` at most `MAX_OUTBUF_SIZE` on a buffer for which this holds
returns and leaves a buffer for which it holds, whether the call flushes or not and also when
the flush fails or falls short; so `currsize` is at most `MAX_OUTBUF_SIZE`. -/
theorem outbuf_invariant (P : Nat) (filp : file) (buf : List Nat) (len : Nat) (outbuf : outputbuf)
    (lastout : List Nat) (hbuf : outbuf.buffer.length = MAX_OUTBUF_SIZE P)
    (hinv : outbuf.currsize + outbuf.availsize = MAX_OUTBUF_SIZE P)
    (hlen : len ≤ MAX_OUTBUF_SIZE P) :
    (outputbuf_init P).buffer.length = MAX_OUTBUF_SIZE P ∧
    (outputbuf_init P).currsize + (outputbuf_init P).availsize = MAX_OUTBUF_SIZE P ∧
    ∃ err lo filp2 ob2, file_line_write P filp buf len outbuf lastout =
        some (err, lo, filp2, ob2) ∧
      ob2.buffer.length = MAX_OUTBUF_SIZE P ∧
      ob2.currsize + ob2.availsize = MAX_OUTBUF_SIZE P ∧ ob2.currsize ≤ MAX_OUTBUF_SIZE P := by
  refine ⟨by simp [outputbuf_init], by simp [outputbuf_init], ?_⟩
  unfold file_line_write
  by_cases hav : outbuf.availsize < len
  · by_cases herr : (vfs_write filp (outbuf.buffer.take outbuf.currsize)).1 < 0
    · simp only [hav, herr, if_true]
      exact ⟨_, _, _, _, rfl, hbuf, hinv, by omega⟩
    · have h1 : ¬ (List.replicate (MAX_OUTBUF_SIZE P) 0).length < 0 + len := by simp; omega
      simp only [hav, herr, if_true, if_false, h1]
      refine ⟨_, _, _, _, rfl, ?_, ?_, ?_⟩
      · rw [poke_length _ _ _ (by simp [copied_length]; omega)]
        simp
      · simp only; omega
      · simp only; omega
  · have hfit : ¬ outbuf.buffer.length < outbuf.currsize + len := by omega
    simp only [hav, if_false, lt_irrefl, hfit]
    refine ⟨_, _, _, _, rfl, ?_, ?_, ?_⟩
    · rw [poke_length _ _ _ (by simp [copied_length]; omega)]
      exact hbuf
    · simp only; omega
    · simp only; omega

theorem outbuf_invariant_witness :
    (outputbuf_init 2).buffer.length = MAX_OUTBUF_SIZE 2 ∧
    (outputbuf_init 2).currsize + (outputbuf_init 2).availsize = MAX_OUTBUF_SIZE 2 ∧
    ∃ err lo filp2 ob2, file_line_write 2 ⟨[], [.short 0]⟩ (bytes "cd\n") 3
        ⟨bytes "ab\n" ++ [0], 3, 1⟩ (bytes "ab\n") = some (err, lo, filp2, ob2) ∧
      ob2.buffer.length = MAX_OUTBUF_SIZE 2 ∧
      ob2.currsize + ob2.availsize = MAX_OUTBUF_SIZE 2 ∧ ob2.currsize ≤ MAX_OUTBUF_SIZE 2 :=
  outbuf_invariant 2 ⟨[], [.short 0]⟩ (bytes "cd\n") 3 ⟨bytes "ab\n" ++ [0], 3, 1⟩ (bytes "ab\n")
    (by decide) (by decide) (by decide)

/-! ## The bounds of the input buffer -/

theorem vfs_read_bound (filp : file) (count : Nat) :
    (vfs_read filp count).2.1.length ≤ count ∧
    ((vfs_read filp count).1 < 0 ∨
      (vfs_read filp count).1 = ((vfs_read filp count).2.1.length : Int)) := by
  obtain ⟨d, script⟩ := filp
  rcases script with _ | ⟨e, sc⟩
  · simp [vfs_read]
  · rcases e with _ | k | n
    · simp [vfs_read]
    · simp [vfs_read]
    · simp [vfs_read]; omega

theorem scan_found_at (P : Nat) (buffer : List Nat) : ∀ (n i : Nat) (data : List Nat) (k : Nat)
    (d : List Nat), scan P buffer n i data = some (.found k d) →
    ∃ j, j < n ∧ k = i + j ∧ d.length = data.length + j + 1 := by
  intro n
  induction n with
  | zero => intro i data k d h; simp [scan] at h
  | succ n ih =>
    intro i data k d h
    simp only [scan] at h
    rcases hb : buffer[i]? with _ | c
    · rw [hb] at h; cases h
    · rw [hb] at h
      simp only at h
      by_cases hc : c = 10
      · simp only [hc, if_true] at h
        by_cases hl : data.length + 2 ≤ P
        · simp only [hl, if_true, Option.some.injEq, scan_result.found.injEq] at h
          exact ⟨0, by omega, by omega, by rw [← h.2]; simp⟩
        · simp only [hl, if_false] at h
          cases h
      · simp only [hc, if_false] at h
        by_cases hl : data.length < P
        · simp only [hl, if_true] at h
          obtain ⟨j, h1, h2, h3⟩ := ih _ _ _ _ h
          exact ⟨j + 1, by omega, by omega, by rw [h3]; simp; omega⟩
        · simp only [hl, if_false] at h
          cases h

theorem scan_not_found_length (P : Nat) (buffer : List Nat) : ∀ (n i : Nat) (data d : List Nat),
    scan P buffer n i data = some (.not_found d) → d.length = data.length + n := by
  intro n
  induction n with
  | zero => intro i data d h; simp [scan] at h; rw [← h]; simp
  | succ n ih =>
    intro i data d h
    simp only [scan] at h
    rcases hb : buffer[i]? with _ | c
    · rw [hb] at h; cases h
    · rw [hb] at h
      simp only at h
      by_cases hc : c = 10
      · simp only [hc, if_true] at h
        split_ifs at h
        simp at h
      · simp only [hc, if_false] at h
        by_cases hl : data.length < P
        · simp only [hl, if_true] at h
          rw [ih _ _ _ h]
          simp; omega
        · simp only [hl, if_false] at h
          cases h

theorem read_start_ok (P : Nat) : ∀ (fuel : Nat) (filp : file) (inbuf : inputbuf)
    (buf : List Nat) (e : Int) (b : List Nat) (f : file) (ib : inputbuf),
    inbuf_ok P inbuf → read_start P fuel filp inbuf buf = some (e, b, f, ib) → inbuf_ok P ib := by
  intro fuel
  induction fuel with
  | zero => intro filp inbuf buf e b f ib _ h; simp [read_start] at h
  | succ n ih =>
    intro filp inbuf buf e b f ib hok h
    obtain ⟨hlen, hwin⟩ := hok
    simp only [read_start] at h
    rcases hs : (if inbuf.start < 0 then some (scan_result.not_found [])
        else scan P inbuf.buffer inbuf.size inbuf.start.toNat []) with _ | sr
    · rw [hs] at h; cases h
    · rw [hs] at h
      cases sr with
      | found k d =>
        simp only [Option.some.injEq, Prod.mk.injEq] at h
        obtain ⟨_, _, _, rfl⟩ := h
        have h0 : ¬ inbuf.start < 0 := by
          intro h0; simp only [h0, if_true] at hs; cases hs
        simp only [h0, if_false] at hs
        obtain ⟨j, hj, hk, hd⟩ := scan_found_at P _ _ _ _ _ _ hs
        simp only [List.length_nil, zero_add] at hd
        have hw : 0 ≤ inbuf.start ∧ inbuf.start + (inbuf.size : Int) ≤ (MAX_INBUF_SIZE P : Nat) := by
          rcases hwin with ⟨h1, _⟩ | h2
          · omega
          · exact h2
        refine ⟨hlen, ?_⟩
        by_cases hm : k + 1 = MAX_INBUF_SIZE P
        · left
          simp only [hm, if_true, true_and]
          omega
        · right
          simp only [hm, if_false]
          omega
      | not_found d =>
        simp only at h
        have hdl : d.length ≤ MAX_INBUF_SIZE P := by
          by_cases h0 : inbuf.start < 0
          · simp only [h0, if_true, Option.some.injEq, scan_result.not_found.injEq] at hs
            rw [← hs]; simp
          · simp only [h0, if_false] at hs
            have := scan_not_found_length P _ _ _ _ _ hs
            simp only [List.length_nil, zero_add] at this
            rcases hwin with ⟨h1, _⟩ | h2
            · omega
            · omega
        have hb := vfs_read_bound filp (MAX_INBUF_SIZE P - d.length)
        have hp1 : (poke inbuf.buffer 0 d).length = MAX_INBUF_SIZE P := by
          rw [poke_length _ _ _ (by omega)]; exact hlen
        have hp2 : (poke (poke inbuf.buffer 0 d) d.length
            (vfs_read filp (MAX_INBUF_SIZE P - d.length)).2.1).length = MAX_INBUF_SIZE P := by
          rw [poke_length _ _ _ (by omega)]; exact hp1
        simp only [fill_in_buffer] at h
        split_ifs at h with c1 c2 c3
        · simp only [Option.some.injEq, Prod.mk.injEq] at h
          obtain ⟨_, _, _, rfl⟩ := h
          exact ⟨hp2, Or.inr ⟨le_refl _, by simp only; omega⟩⟩
        · refine ih _ _ _ _ _ _ _ ⟨?_, Or.inr ⟨le_refl _, ?_⟩⟩ h
          · simp only [List.length_set]; exact hp2
          · simp only; omega
        · refine ih _ _ _ _ _ _ _ ⟨hp2, Or.inr ⟨le_refl _, ?_⟩⟩ h
          simp only
          omega

theorem file_line_read_ok (P : Nat) (filp : file) (buf : List Nat) (inbuf : inputbuf)
    (e : Int) (b : List Nat) (f : file) (ib : inputbuf) (hok : inbuf_ok P inbuf)
    (h : file_line_read P filp buf inbuf = some (e, b, f, ib)) : inbuf_ok P ib := by
  simp only [file_line_read] at h
  obtain ⟨hlen, hwin⟩ := hok
  by_cases hz : inbuf.size = 0
  · have hb := vfs_read_bound filp (MAX_INBUF_SIZE P - inbuf.size)
    have hp : (poke inbuf.buffer inbuf.size
        (vfs_read filp (MAX_INBUF_SIZE P - inbuf.size)).2.1).length = MAX_INBUF_SIZE P := by
      rw [poke_length _ _ _ (by omega)]; exact hlen
    simp only [hz, if_true, fill_in_buffer] at h hp hb
    split_ifs at h with c1
    · simp only [Option.some.injEq, Prod.mk.injEq] at h
      obtain ⟨_, _, _, rfl⟩ := h
      refine ⟨hp, ?_⟩
      simp only [hz]
      rcases hwin with h1 | h2
      · left; exact ⟨h1.1, trivial⟩
      · right; simp only [hz] at h2; exact h2
    · refine read_start_ok P _ _ _ _ _ _ _ _ ⟨hp, Or.inr ⟨le_refl _, ?_⟩⟩ h
      simp only
      omega
  · simp only [hz, if_false] at h
    exact read_start_ok P _ _ _ _ _ _ _ _ ⟨hlen, hwin⟩ h

theorem read_state_ok (P : Nat) : ∀ (n : Nat) (filp : file) (buf : List Nat) (inbuf : inputbuf)
    (f : file) (b : List Nat) (ib : inputbuf), inbuf_ok P inbuf →
    read_state P n filp buf inbuf = some (f, b, ib) → inbuf_ok P ib := by
  intro n
  induction n with
  | zero =>
    intro filp buf inbuf f b ib hok h
    simp only [read_state, Option.some.injEq, Prod.mk.injEq] at h
    rw [← h.2.2]; exact hok
  | succ n ih =>
    intro filp buf inbuf f b ib hok h
    simp only [read_state] at h
    rcases hr : file_line_read P filp buf inbuf with _ | ⟨e, b2, f2, ib2⟩
    · rw [hr] at h; cases h
    · rw [hr] at h
      exact ih _ _ _ _ _ _ (file_line_read_ok P _ _ _ _ _ _ _ hok hr) h

/-- On a stream without NUL whose lines are shorter than `PAGE_SIZE`, with reads that do not
fail, every call of `file_line_read` returns, whatever the number of calls. -/
theorem read_state_returns (P : Nat) : ∀ (n : Nat) (st : file × inputbuf) (L : List (List Nat))
    (buf : List Nat), reads_as P st L → buf.length ≤ P →
    ∃ r, read_state P n st.1 buf st.2 = some r := by
  intro n
  induction n with
  | zero => intro st L buf _ _; exact ⟨_, rfl⟩
  | succ n ih =>
    intro st L buf h hb
    obtain ⟨e, b, st2, L2, hr, _, h2, hb2⟩ := sim_read P st L buf h hb
    obtain ⟨r, hr2⟩ := ih st2 L2 b h2 hb2
    exact ⟨r, by simp only [read_state, hr]; exact hr2⟩

/-- C21 fails as stated: the buffer state created at the start of the merge has `start = -1`;
and with `PAGE_SIZE = 3`, so that the buffer has 6 bytes, after the three calls of
`file_line_read` on the stream of three lines `a`, whose last newline is the last byte of the
buffer, `start` is `-1` again, with `size = 0`. -/
theorem start_negative_counterexample :
    ¬ (0 ≤ (inputbuf_init 3).start) ∧
    (read_state 3 3 ⟨bytes "a\na\na\n", []⟩ [] (inputbuf_init 3)).map
      (fun r => (r.2.2.start, r.2.2.size)) = some (-1, 0) :=
  ⟨by decide, by decide⟩

/-- C21 as amended: for the state created at the start of the merge and the state after every
return of `file_line_read`, for every stream content and every behaviour of the reads, the
buffer has `MAX_INBUF_SIZE` bytes and either `0 ≤ start` and `start + size ≤ MAX_INBUF_SIZE`,
or `start = -1`, the marker of an empty buffer, and `size = 0`. -/
theorem inbuf_bounds (P n : Nat) (filp f : file) (buf b : List Nat) (ib : inputbuf)
    (h : read_state P n filp buf (inputbuf_init P) = some (f, b, ib)) :
    ib.buffer.length = MAX_INBUF_SIZE P ∧
    ((ib.start = -1 ∧ ib.size = 0) ∨
      (0 ≤ ib.start ∧ ib.start + (ib.size : Int) ≤ (MAX_INBUF_SIZE P : Nat))) :=
  read_state_ok P n filp buf (inputbuf_init P) f b ib
    ⟨by simp [inputbuf_init], Or.inl ⟨rfl, rfl⟩⟩ h

theorem inbuf_bounds_witness :
    ∃ f b ib, read_state 3 2 ⟨bytes "a\nbc", [.short 0, .fail 4]⟩ [] (inputbuf_init 3) =
        some (f, b, ib) ∧
      ib.buffer.length = MAX_INBUF_SIZE 3 ∧
      ((ib.start = -1 ∧ ib.size = 0) ∨
        (0 ≤ ib.start ∧ ib.start + (ib.size : Int) ≤ (MAX_INBUF_SIZE 3 : Nat))) :=
  ⟨_, _, _, rfl, inbuf_bounds 3 2 ⟨bytes "a\nbc", [.short 0, .fail 4]⟩ _ [] _ _ rfl⟩

/-! ## The check-sorted flag on a run that does not fail -/

theorem part1_sort_free {F S S2 U : Int} {a b lo : List Nat} {w l : Nat} {x : Nat × Nat}
    (hS : S ≠ 0) (h : part1 F S U a b lo w l = .ok x) : part1 F S2 U a b lo w l = .ok x := by
  unfold part1 at h ⊢
  split_ifs at h ⊢ <;> exact h

theorem drain_part1_sort_free {F S S2 U : Int} {a lo : List Nat} {w x : Nat}
    (hS : S ≠ 0) (h : drain_part1 F S U a lo w = .ok x) :
    drain_part1 F S2 U a lo w = .ok x := by
  unfold drain_part1 at h ⊢
  split_ifs at h ⊢ <;> exact h

theorem loop_body_sort_free {ρ1 ρ2 ω : Type} (K : kernel_ops ρ1 ρ2 ω) (F S S2 U : Int)
    (s : locals ρ1 ρ2 ω) (r : flow (locals ρ1 ρ2 ω)) (hS : S ≠ 0)
    (h : loop_body K F S U s = some r) (hr : ∀ t, r ≠ .OUT (-EINVAL) t) :
    loop_body K F S2 U s = some r := by
  unfold loop_body at h ⊢
  cases hp : part1 F S U s.inbuf1 s.inbuf2 s.lastout s.write s.load with
  | error e =>
    rw [hp] at h
    cases h
    exact absurd (by rw [part1_error hp]) (hr s)
  | ok x =>
    obtain ⟨w, l⟩ := x
    rw [hp] at h
    rw [part1_sort_free hS hp]
    exact h

theorem main_loop_sort_free {ρ1 ρ2 ω : Type} (K : kernel_ops ρ1 ρ2 ω) (F S S2 U : Int)
    (hS : S ≠ 0) : ∀ (n : Nat) (s : locals ρ1 ρ2 ω) (r : flow (locals ρ1 ρ2 ω)),
    main_loop K F S U n s = some r → (∀ t, r ≠ .OUT (-EINVAL) t) →
    main_loop K F S2 U n s = some r := by
  intro n
  induction n with
  | zero => intro s r h; simp [main_loop] at h
  | succ n ih =>
    intro s r h hr
    simp only [main_loop] at h ⊢
    split at h
    · rename_i he
      simp only [he, if_true]
      rcases hb : loop_body K F S U s with _ | fl
      · rw [hb] at h; cases h
      · rw [hb] at h
        cases fl with
        | OUT e t =>
          cases h
          rw [loop_body_sort_free K F S S2 U s _ hS hb hr]
        | brk t =>
          cases h
          rw [loop_body_sort_free K F S S2 U s _ hS hb (fun t h => by cases h)]
        | go t =>
          rw [loop_body_sort_free K F S S2 U s _ hS hb (fun t h => by cases h)]
          exact ih t r h hr
    · rename_i he
      simp only [he, if_false]
      exact h

theorem drain1_body_sort_free {ρ1 ρ2 ω : Type} (K : kernel_ops ρ1 ρ2 ω) (F S S2 U : Int)
    (s : locals ρ1 ρ2 ω) (r : flow (locals ρ1 ρ2 ω)) (hS : S ≠ 0)
    (h : drain1_body K F S U s = some r) (hr : ∀ t, r ≠ .OUT (-EINVAL) t) :
    drain1_body K F S2 U s = some r := by
  unfold drain1_body at h ⊢
  cases hp : drain_part1 F S U s.inbuf1 s.lastout 1 with
  | error e =>
    rw [hp] at h
    cases h
    exact absurd (by rw [drain_part1_error hp]) (hr s)
  | ok w =>
    rw [hp] at h
    rw [drain_part1_sort_free hS hp]
    exact h

theorem drain2_body_sort_free {ρ1 ρ2 ω : Type} (K : kernel_ops ρ1 ρ2 ω) (F S S2 U : Int)
    (s : locals ρ1 ρ2 ω) (r : flow (locals ρ1 ρ2 ω)) (hS : S ≠ 0)
    (h : drain2_body K F S U s = some r) (hr : ∀ t, r ≠ .OUT (-EINVAL) t) :
    drain2_body K F S2 U s = some r := by
  unfold drain2_body at h ⊢
  cases hp : drain_part1 F S U s.inbuf2 s.lastout 2 with
  | error e =>
    rw [hp] at h
    cases h
    exact absurd (by rw [drain_part1_error hp]) (hr s)
  | ok w =>
    rw [hp] at h
    rw [drain_part1_sort_free hS hp]
    exact h

theorem drain1_sort_free {ρ1 ρ2 ω : Type} (K : kernel_ops ρ1 ρ2 ω) (F S S2 U : Int)
    (hS : S ≠ 0) : ∀ (n : Nat) (s : locals ρ1 ρ2 ω) (r : flow (locals ρ1 ρ2 ω)),
    drain1 K F S U n s = some r → (∀ t, r ≠ .OUT (-EINVAL) t) →
    drain1 K F S2 U n s = some r := by
  intro n
  induction n with
  | zero => intro s r h; simp [drain1] at h
  | succ n ih =>
    intro s r h hr
    simp only [drain1] at h ⊢
    rcases hb : drain1_body K F S U s with _ | fl
    · rw [hb] at h; cases h
    · rw [hb] at h
      cases fl with
      | OUT e t =>
        cases h
        rw [drain1_body_sort_free K F S S2 U s _ hS hb hr]
      | brk t =>
        cases h
        rw [drain1_body_sort_free K F S S2 U s _ hS hb (fun t h => by cases h)]
      | go t =>
        rw [drain1_body_sort_free K F S S2 U s _ hS hb (fun t h => by cases h)]
        exact ih t r h hr

theorem drain2_sort_free {ρ1 ρ2 ω : Type} (K : kernel_ops ρ1 ρ2 ω) (F S S2 U : Int)
    (hS : S ≠ 0) : ∀ (n : Nat) (s : locals ρ1 ρ2 ω) (r : flow (locals ρ1 ρ2 ω)),
    drain2 K F S U n s = some r → (∀ t, r ≠ .OUT (-EINVAL) t) →
    drain2 K F S2 U n s = some r := by
  intro n
  induction n with
  | zero => intro s r h; simp [drain2] at h
  | succ n ih =>
    intro s r h hr
    simp only [drain2] at h ⊢
    rcases hb : drain2_body K F S U s with _ | fl
    · rw [hb] at h; cases h
    · rw [hb] at h
      cases fl with
      | OUT e t =>
        cases h
        rw [drain2_body_sort_free K F S S2 U s _ hS hb hr]
      | brk t =>
        cases h
        rw [drain2_body_sort_free K F S S2 U s _ hS hb (fun t h => by cases h)]
      | go t =>
        rw [drain2_body_sort_free K F S S2 U s _ hS hb (fun t h => by cases h)]
        exact ih t r h hr

theorem drain_phase_sort_free {ρ1 ρ2 ω : Type} (K : kernel_ops ρ1 ρ2 ω) (F S S2 U : Int)
    (hS : S ≠ 0) (n : Nat) (s : locals ρ1 ρ2 ω) (e : Int) (t : locals ρ1 ρ2 ω)
    (h : drain_phase K F S U n s = some (e, t)) (he : e ≠ -EINVAL) :
    drain_phase K F S2 U n s = some (e, t) := by
  unfold drain_phase at h ⊢
  rcases h1 : (if s.empty = 2 then drain1 K F S U n s else some (.go s)) with _ | fl
  · rw [h1] at h; cases h
  · rw [h1] at h
    have hfl : (∀ u, fl ≠ .OUT (-EINVAL) u) →
        (if s.empty = 2 then drain1 K F S2 U n s else some (.go s)) = some fl := by
      intro hne
      by_cases c : s.empty = 2
      · simp only [c, if_true] at h1 ⊢
        exact drain1_sort_free K F S S2 U hS n s fl h1 hne
      · simp only [c, if_false] at h1 ⊢
        exact h1
    cases fl with
    | OUT e1 t1 =>
      cases h
      rw [hfl (fun u hu => by cases hu; exact he rfl)]
    | brk t1 =>
      cases h
      rw [hfl (fun u hu => by cases hu)]
    | go t1 =>
      rw [hfl (fun u hu => by cases hu)]
      simp only at h ⊢
      rcases h2 : (if t1.empty = 1 then drain2 K F S U n t1 else some (.go t1)) with _ | fl2
      · rw [h2] at h; cases h
      · rw [h2] at h
        have hfl2 : (∀ u, fl2 ≠ .OUT (-EINVAL) u) →
            (if t1.empty = 1 then drain2 K F S2 U n t1 else some (.go t1)) = some fl2 := by
          intro hne
          by_cases c : t1.empty = 1
          · simp only [c, if_true] at h2 ⊢
            exact drain2_sort_free K F S S2 U hS n t1 fl2 h2 hne
          · simp only [c, if_false] at h2 ⊢
            exact h2
        cases fl2 with
        | OUT e2 t2 =>
          cases h
          rw [hfl2 (fun u hu => by cases hu; exact he rfl)]
        | brk t2 =>
          cases h
          rw [hfl2 (fun u hu => by cases hu)]
        | go t2 =>
          rw [hfl2 (fun u hu => by cases hu)]
          exact h

/-- A run with `-t` that does not end with the not-sorted error `-EINVAL` is, state for state,
the run with the other flags unchanged and any value of `-t`. -/
theorem xmergesort_sort_free {ρ1 ρ2 ω : Type} (K : kernel_ops ρ1 ρ2 ω) (flags flags2 n : Nat)
    (m : heap) (f1 : ρ1) (f2 : ρ2) (ft : ω) (e : Int) (t : locals ρ1 ρ2 ω)
    (hi : INSEN_FLAG flags = INSEN_FLAG flags2) (hu : UNIQ_FLAG flags = UNIQ_FLAG flags2)
    (hS : SORT_FLAG flags ≠ 0)
    (h : xmergesort K flags n m f1 f2 ft = some (e, t)) (he : e ≠ -EINVAL) :
    xmergesort K flags2 n m f1 f2 ft = some (e, t) := by
  unfold xmergesort at h ⊢
  rcases h1 : initial_reads K
      ⟨f1, f2, ft, m.inbuf1, m.inbuf2, m.lastout, 0, 0, 0, 0, false⟩ with _ | fl
  · rw [h1] at h; cases h
  · rw [h1] at h
    cases fl with
    | OUT e1 t1 => exact h
    | brk t1 => exact h
    | go t1 =>
      simp only [merge_phase] at h ⊢
      rw [← hi, ← hu]
      rcases h2 : main_loop K (INSEN_FLAG flags) (SORT_FLAG flags) (UNIQ_FLAG flags) n t1
        with _ | fl2
      · rw [h2] at h; cases h
      · rw [h2] at h
        cases fl2 with
        | OUT e2 t2 =>
          cases h
          rw [main_loop_sort_free K _ _ (SORT_FLAG flags2) _ hS n t1 _ h2
            (fun u hu => by cases hu; exact he rfl)]
        | brk t2 =>
          cases h
          rw [main_loop_sort_free K _ _ (SORT_FLAG flags2) _ hS n t1 _ h2
            (fun u hu => by cases hu)]
        | go t2 =>
          rw [main_loop_sort_free K _ _ (SORT_FLAG flags2) _ hS n t1 _ h2
            (fun u hu => by cases hu)]
          exact drain_phase_sort_free K _ _ _ _ hS n t2 e t h he

/-- The candidates and what is left of the two files are lines in non-decreasing order, and the
last written line, when there is one, is not greater than either candidate. -/
theorem loop_body_keeps_order (F S U : Int) : ∀ (s t : lstate),
    is_line s.inbuf1 → is_line s.inbuf2 → (∀ l ∈ s.file_in1, is_line l) →
    (∀ l ∈ s.file_in2, is_line l) →
    (s.inbuf1 :: s.file_in1).Chain' (line_le F) → (s.inbuf2 :: s.file_in2).Chain' (line_le F) →
    (strlen s.lastout > 0 → line_le F s.lastout s.inbuf1 ∧ line_le F s.lastout s.inbuf2) →
    loop_body line_ops F S U s = some (.go t) →
    is_line t.inbuf1 ∧ is_line t.inbuf2 ∧ (∀ l ∈ t.file_in1, is_line l) ∧
    (∀ l ∈ t.file_in2, is_line l) ∧
    (t.inbuf1 :: t.file_in1).Chain' (line_le F) ∧ (t.inbuf2 :: t.file_in2).Chain' (line_le F) ∧
    (strlen t.lastout > 0 → line_le F t.lastout t.inbuf1 ∧ line_le F t.lastout t.inbuf2) := by
  rintro ⟨f1, f2, ft, a, b, lo, ld, w, e, i, rn⟩ t ha hb h1 h2 sA sB hlo h
  simp only at ha hb h1 h2 sA sB hlo
  have hp := part1_policy F S U a b lo w ld
  cases hp1 : part1 F S U a b lo w ld with
  | error err => simp [loop_body, hp1] at h
  | ok p =>
    obtain ⟨w', l'⟩ := p
    rw [hp1] at hp
    simp only at hp
    have tr : ∀ {x y z : List Nat}, line_le F x y → line_le F y z → line_le F x z :=
      fun h1 h2 => cmp_le_trans F _ _ _ h1 h2
    rcases hp with ⟨rfl, hw, hle, hd⟩ | ⟨rfl, hw, hle, hd⟩ | ⟨rfl, rfl, heq, hda, hdb⟩
    · rcases f1 with _ | ⟨x, r⟩
      · rcases hw with rfl | rfl
        · simp [loop_body, hp1, part2_lines_zero, part3, line_ops_read1, read_line_nil] at h
        · simp [loop_body, hp1, part2_lines_one ha, part3, line_ops_read1, read_line_nil] at h
      · have hx : is_line x := h1 x (by simp)
        have hxl := is_line_length_pos x hx
        have hxs : ∀ l ∈ r, is_line l := fun l hl => h1 l (by simp [hl])
        rw [List.chain'_cons] at sA
        rcases hw with rfl | rfl
        · simp [loop_body, hp1, part2_lines_zero, part3, part3_file2, line_ops_read1,
            read_line_cons _ _ _ hx, hxl, is_line_ne_nil _ hx] at h
          subst h
          exact ⟨hx, hb, hxs, h2, sA.2, sB, fun hl => ⟨tr (hlo hl).1 sA.1, (hlo hl).2⟩⟩
        · simp [loop_body, hp1, part2_lines_one ha, part3, part3_file2, line_ops_read1,
            read_line_cons _ _ _ hx, hxl, is_line_ne_nil _ hx] at h
          subst h
          exact ⟨hx, hb, hxs, h2, sA.2, sB, fun _ => ⟨sA.1, hle⟩⟩
    · rcases f2 with _ | ⟨y, r⟩
      · rcases hw with rfl | rfl
        · simp [loop_body, hp1, part2_lines_zero, part3, part3_file2, line_ops_read2,
            read_line_nil] at h
        · simp [loop_body, hp1, part2_lines_two hb, part3, part3_file2, line_ops_read2,
            read_line_nil] at h
      · have hy : is_line y := h2 y (by simp)
        have hyl := is_line_length_pos y hy
        have hys : ∀ l ∈ r, is_line l := fun l hl => h2 l (by simp [hl])
        rw [List.chain'_cons] at sB
        rcases hw with rfl | rfl
        · simp [loop_body, hp1, part2_lines_zero, part3, part3_file2, line_ops_read2,
            read_line_cons _ _ _ hy, hyl, is_line_ne_nil _ hy] at h
          subst h
          exact ⟨ha, hy, h1, hys, sA, sB.2, fun hl => ⟨(hlo hl).1, tr (hlo hl).2 sB.1⟩⟩
        · simp [loop_body, hp1, part2_lines_two hb, part3, part3_file2, line_ops_read2,
            read_line_cons _ _ _ hy, hyl, is_line_ne_nil _ hy] at h
          subst h
          exact ⟨ha, hy, h1, hys, sA, sB.2, fun _ => ⟨hle, sB.1⟩⟩
    · rcases f1 with _ | ⟨x, r⟩
      · simp [loop_body, hp1, part2_lines_zero, part3, line_ops_read1, read_line_nil] at h
      · have hx : is_line x := h1 x (by simp)
        have hxl := is_line_length_pos x hx
        have hxs : ∀ l ∈ r, is_line l := fun l hl => h1 l (by simp [hl])
        rw [List.chain'_cons] at sA
        rcases f2 with _ | ⟨y, r2⟩
        · simp [loop_body, hp1, part2_lines_zero, part3, part3_file2, line_ops_read1,
            line_ops_read2, read_line_cons _ _ _ hx, hxl, is_line_ne_nil _ hx,
            read_line_nil] at h
        · have hy : is_line y := h2 y (by simp)
          have hyl := is_line_length_pos y hy
          have hys : ∀ l ∈ r2, is_line l := fun l hl => h2 l (by simp [hl])
          rw [List.chain'_cons] at sB
          simp [loop_body, hp1, part2_lines_zero, part3, part3_file2, line_ops_read1,
            line_ops_read2, read_line_cons _ _ _ hx, hxl, is_line_ne_nil _ hx,
            read_line_cons _ _ _ hy, hyl, is_line_ne_nil _ hy] at h
          subst h
          exact ⟨hx, hy, hxs, hys, sA.2, sB.2,
            fun hl => ⟨tr (hlo hl).1 sA.1, tr (hlo hl).2 sB.1⟩⟩

theorem main_loop_state_order (F S U : Int) : ∀ (k : Nat) (s t : lstate),
    is_line s.inbuf1 → is_line s.inbuf2 → (∀ l ∈ s.file_in1, is_line l) →
    (∀ l ∈ s.file_in2, is_line l) →
    (s.inbuf1 :: s.file_in1).Chain' (line_le F) → (s.inbuf2 :: s.file_in2).Chain' (line_le F) →
    (strlen s.lastout > 0 → line_le F s.lastout s.inbuf1 ∧ line_le F s.lastout s.inbuf2) →
    main_loop_state line_ops F S U k s = some t →
    (strlen t.lastout > 0 → line_le F t.lastout t.inbuf1 ∧ line_le F t.lastout t.inbuf2) := by
  intro k
  induction k with
  | zero =>
    intro s t _ _ _ _ _ _ hlo h
    simp only [main_loop_state, Option.some.injEq] at h
    subst h
    exact hlo
  | succ k ih =>
    intro s t ha hb h1 h2 sA sB hlo h
    simp only [main_loop_state] at h
    split at h
    · rcases hb2 : loop_body line_ops F S U s with _ | fl
      · rw [hb2] at h; cases h
      · rw [hb2] at h
        cases fl with
        | OUT e u => cases h
        | brk u => cases h
        | go u =>
          obtain ⟨a1, a2, a3, a4, a5, a6, a7⟩ :=
            loop_body_keeps_order F S U s u ha hb h1 h2 sA sB hlo hb2
          exact ih u t a1 a2 a3 a4 a5 a6 a7 h
    · cases h

theorem flag_bit_INSEN {flags flags2 : Nat}
    (h : flags &&& F_CASE_INSEN = flags2 &&& F_CASE_INSEN) :
    INSEN_FLAG flags = INSEN_FLAG flags2 := by
  unfold INSEN_FLAG; rw [h]

theorem flag_bit_UNIQ {flags flags2 : Nat}
    (h : flags &&& F_OUTPUT_UNIQ = flags2 &&& F_OUTPUT_UNIQ) :
    UNIQ_FLAG flags = UNIQ_FLAG flags2 := by
  unfold UNIQ_FLAG; rw [h]

/-- On lines in non-decreasing order every line passes the rule of the drain loops, in either
mode and with or without `-t`, when no line has been written before and `lastout` holds the
empty string. -/
theorem filter_lines_sorted_ok (flags : Nat) (lo : List Nat) (M : List (List Nat))
    (hlo : strlen lo = 0) (hl : ∀ l ∈ M, is_line l)
    (hM : M.Chain' (line_le (INSEN_FLAG flags))) :
    ∃ E, filter_lines (INSEN_FLAG flags) (SORT_FLAG flags) (UNIQ_FLAG flags) lo M = .ok E := by
  by_cases hU : flags &&& F_OUTPUT_UNIQ = 0
  · exact ⟨M, filter_lines_all (flag_all hU) M lo hM (Or.inl hlo)⟩
  · rw [flag_uniq hU]
    obtain ⟨E, hE, _⟩ := @filter_lines_unique (INSEN_FLAG flags) (SORT_FLAG flags) M lo hl hM
      (Or.inl hlo)
    exact ⟨E, hE⟩

/-- When `lastout` holds the empty string at the start: `A` and `B` are line sequences, each
non-decreasing under the active comparator, and `flags` has the check-sorted bit `-t` set. The
run with `flags` returns 0, not the not-sorted error, and it ends in the same state (the same
lines written, the same count) as the run with any `flags2` that has the same mode and case
bits, in particular one with `-t` clear. And at the start of every pass of the main loop (`A` and
`B` not empty, the first candidates being their first lines) the last written line, when there
is one, is not greater than either candidate. -/
theorem clean_check_sorted_no_effect (flags flags2 : Nat) (m : heap) (A B : List (List Nat))
    (hlo : strlen m.lastout = 0)
    (hA : ∀ l ∈ A, is_line l) (hB : ∀ l ∈ B, is_line l)
    (sA : A.Chain' (line_le (INSEN_FLAG flags))) (sB : B.Chain' (line_le (INSEN_FLAG flags)))
    (hi : flags &&& F_CASE_INSEN = flags2 &&& F_CASE_INSEN)
    (hu : flags &&& F_OUTPUT_UNIQ = flags2 &&& F_OUTPUT_UNIQ)
    (hs : flags &&& F_CHECK_SORTED ≠ 0) :
    (∃ s, xmergesort_lines flags m A B = some (0, s) ∧
      xmergesort_lines flags2 m A B = some (0, s)) ∧
    (∀ a b A2 B2 k t, A = a :: A2 → B = b :: B2 →
      initial_reads line_ops ⟨A, B, [], m.inbuf1, m.inbuf2, m.lastout, 0, 0, 0, 0, false⟩ =
        some (.go ⟨A2, B2, [], a, b, m.lastout, 0, 0, 0, 0, false⟩) ∧
      (main_loop_state line_ops (INSEN_FLAG flags) (SORT_FLAG flags) (UNIQ_FLAG flags) k
          ⟨A2, B2, [], a, b, m.lastout, 0, 0, 0, 0, false⟩ = some t →
        strlen t.lastout > 0 →
        line_le (INSEN_FLAG flags) t.lastout t.inbuf1 ∧
        line_le (INSEN_FLAG flags) t.lastout t.inbuf2)) := by
  constructor
  · have hrun : ∃ s, xmergesort_lines flags m A B = some (0, s) := by
      by_cases hne : A ≠ [] ∨ B ≠ []
      · obtain ⟨M, r, hM, hr, hm⟩ := xmergesort_lines_spec flags m A B hA hB hne
        have hl : ∀ l ∈ M, is_line l := by
          intro l h
          rcases List.mem_append.mp ((interleaved_perm hM).mem_iff.mp h) with h | h
          · exact hA l h
          · exact hB l h
        obtain ⟨E, hE⟩ := filter_lines_sorted_ok flags m.lastout M hlo hl
          (interleaved_sorted hM sA sB)
        unfold run_matches at hm
        rw [hE] at hm
        obtain ⟨e, s⟩ := r
        obtain ⟨rfl, _⟩ := hm
        exact ⟨s, hr⟩
      · have h1 : A = [] := by by_contra h; exact hne (Or.inl h)
        have h2 : B = [] := by by_contra h; exact hne (Or.inr h)
        subst h1 h2
        exact ⟨_, xmergesort_lines_empty_clean flags m hlo⟩
    obtain ⟨s, hr⟩ := hrun
    have hS : SORT_FLAG flags ≠ 0 := by simp [SORT_FLAG, hs]
    exact ⟨s, hr, xmergesort_sort_free line_ops flags flags2 _ m A B [] 0 s (flag_bit_INSEN hi)
      (flag_bit_UNIQ hu) hS hr (by decide)⟩
  · intro a b A2 B2 k t eA eB
    subst eA eB
    have ha : is_line a := hA a (by simp)
    have hb : is_line b := hB b (by simp)
    refine ⟨?_, fun h => ?_⟩
    · have n1 : ¬ ((a.length : Int) < 0) := by omega
      have n2 : ¬ ((b.length : Int) < 0) := by omega
      simp [initial_reads, line_ops_read1, line_ops_read2, read_line_cons _ _ _ ha,
        read_line_cons _ _ _ hb, is_line_length_pos _ ha, is_line_length_pos _ hb,
        is_line_ne_nil _ ha, is_line_ne_nil _ hb, n1, n2]
    · exact main_loop_state_order _ _ _ k _ t ha hb (fun l hl => hA l (by simp [hl]))
        (fun l hl => hB l (by simp [hl])) sA sB (fun h0 => by simp at h0; omega) h

/-! ## The lines written are in order -/

theorem drain_part1_keep {F S U : Int} {x lo : List Nat}
    (h : drain_part1 F S U x lo 1 = .ok 1) :
    strlen lo = 0 ∨ strcmputil x lo F > 0 ∨ (strcmputil x lo F = 0 ∧ U ≠ 1) := by
  rw [drain_part1_eq] at h
  split_ifs at h with c1 c2 c3 c4
  · rcases c1 with c | c
    · exact Or.inl c
    · exact Or.inr (Or.inl c)
  · simp at h
  · simp at h
  · right; right
    exact ⟨by omega, c4⟩

theorem filter_lines_out_sorted {F S U : Int} : ∀ (M : List (List Nat)) (lo : List Nat)
    (E : List (List Nat)), (∀ l ∈ M, is_line l) → filter_lines F S U lo M = .ok E →
    E.Chain' (line_le F) ∧ (U = 1 → E.Chain' (line_lt F)) ∧
    (∀ y ∈ E.head?, strlen lo = 0 ∨ (line_le F lo y ∧ (U = 1 → line_lt F lo y))) ∧
    E.length ≤ M.length := by
  intro M
  induction M with
  | nil =>
    intro lo E _ h
    simp only [filter_lines, Except.ok.injEq] at h
    subst h
    simp
  | cons x M ih =>
    intro lo E hl h
    have hx : is_line x := hl x (by simp)
    have hxs : ∀ l ∈ M, is_line l := fun l h => hl l (by simp [h])
    have hxl : strlen x ≠ 0 := by
      have := is_line_length_pos x hx
      rw [is_line_strlen x hx]; omega
    rcases drain_part1_range F S U x lo with hp | hp | hp
    · rw [filter_lines_error _ hp] at h; cases h
    · rw [filter_lines_skip _ hp] at h
      obtain ⟨h1, h2, h3, h4⟩ := ih lo E hxs h
      exact ⟨h1, h2, h3, by simp; omega⟩
    · rw [filter_lines_keep _ hp] at h
      cases hf : filter_lines F S U x M with
      | error e => rw [hf] at h; cases h
      | ok E2 =>
        rw [hf] at h
        simp only [Except.map, Except.ok.injEq] at h
        subst h
        obtain ⟨h1, h2, h3, h4⟩ := ih x E2 hxs hf
        have hk := drain_part1_keep hp
        have hsw := cmp_swap_lt F lo x
        have hsw2 := cmp_swap_lt F x lo
        refine ⟨?_, ?_, ?_, by simp; omega⟩
        · rw [List.chain'_cons']
          refine ⟨fun y hy => ?_, h1⟩
          rcases h3 y hy with h | h
          · exact absurd h hxl
          · exact h.1
        · intro hU
          rw [List.chain'_cons']
          refine ⟨fun y hy => ?_, h2 hU⟩
          rcases h3 y hy with h | h
          · exact absurd h hxl
          · exact h.2 hU
        · intro y hy
          simp only [List.head?_cons, Option.mem_def, Option.some.injEq] at hy
          subst hy
          unfold line_le line_lt
          rcases hk with h | h | h
          · exact Or.inl h
          · right; constructor
            · omega
            · intro _; omega
          · right
            have := (cmp_swap_eq F x lo).mpr h.1
            constructor
            · omega
            · intro hU; exact absurd hU h.2

theorem main_loop_count_run {ρ1 ρ2 ω : Type} (K : kernel_ops ρ1 ρ2 ω) (F S U : Int) :
    ∀ (n : Nat) (s : locals ρ1 ρ2 ω),
    (main_loop_count K F S U n s).map Prod.snd = main_loop K F S U n s := by
  intro n
  induction n with
  | zero => intro s; rfl
  | succ n ih =>
    intro s
    simp only [main_loop_count, main_loop]
    split
    · rcases loop_body K F S U s with _ | fl
      · rfl
      · cases fl with
        | OUT e t => rfl
        | brk t => rfl
        | go t =>
          simp only [Option.map_map]
          exact ih t
    · rfl

theorem drain1_count_run {ρ1 ρ2 ω : Type} (K : kernel_ops ρ1 ρ2 ω) (F S U : Int) :
    ∀ (n : Nat) (s : locals ρ1 ρ2 ω),
    (drain1_count K F S U n s).map Prod.snd = drain1 K F S U n s := by
  intro n
  induction n with
  | zero => intro s; rfl
  | succ n ih =>
    intro s
    simp only [drain1_count, drain1]
    rcases drain1_body K F S U s with _ | fl
    · rfl
    · cases fl with
      | OUT e t => rfl
      | brk t => rfl
      | go t =>
        simp only [Option.map_map]
        exact ih t

theorem drain2_count_run {ρ1 ρ2 ω : Type} (K : kernel_ops ρ1 ρ2 ω) (F S U : Int) :
    ∀ (n : Nat) (s : locals ρ1 ρ2 ω),
    (drain2_count K F S U n s).map Prod.snd = drain2 K F S U n s := by
  intro n
  induction n with
  | zero => intro s; rfl
  | succ n ih =>
    intro s
    simp only [drain2_count, drain2]
    rcases drain2_body K F S U s with _ | fl
    · rfl
    · cases fl with
      | OUT e t => rfl
      | brk t => rfl
      | go t =>
        simp only [Option.map_map]
        exact ih t

theorem drain_phase_count_run {ρ1 ρ2 ω : Type} (K : kernel_ops ρ1 ρ2 ω) (F S U : Int) (n : Nat)
    (s : locals ρ1 ρ2 ω) :
    (drain_phase_count K F S U n s).map Prod.snd = drain_phase K F S U n s := by
  have second : ∀ (k : Nat) (t : locals ρ1 ρ2 ω),
      (match (if t.empty = 1 then drain2_count K F S U n t else some (0, .go t)) with
        | none => none
        | some (m, .OUT err s) => some (k + m, err, s)
        | some (m, .brk s) => some (k + m, 0, s)
        | some (m, .go s) => some (k + m, finish K s)).map Prod.snd =
      (match (if t.empty = 1 then drain2 K F S U n t else some (.go t)) with
        | none => none
        | some (.OUT err s) => some (err, s)
        | some (.brk s) => some (0, s)
        | some (.go s) => some (finish K s)) := by
    intro k t
    by_cases c : t.empty = 1
    · simp only [c, if_true]
      have h2 := drain2_count_run K F S U n t
      rcases hc : drain2_count K F S U n t with _ | ⟨m, fl⟩
      · rw [hc] at h2
        rw [← h2]
        rfl
      · rw [hc] at h2
        rw [← h2]
        cases fl <;> rfl
    · simp only [c, if_false]
      rfl
  unfold drain_phase_count drain_phase
  by_cases c : s.empty = 2
  · simp only [c, if_true]
    have h1 := drain1_count_run K F S U n s
    rcases hc : drain1_count K F S U n s with _ | ⟨m, fl⟩
    · rw [hc] at h1
      rw [← h1]
      rfl
    · rw [hc] at h1
      rw [← h1]
      cases fl with
      | OUT e t => rfl
      | brk t => rfl
      | go t => exact second m t
  · simp only [c, if_false]
    exact second 0 s

theorem merge_phase_count_run {ρ1 ρ2 ω : Type} (K : kernel_ops ρ1 ρ2 ω) (F S U : Int)
    (n m : Nat) (s : locals ρ1 ρ2 ω) :
    (merge_phase_count K F S U n m s).map Prod.snd = merge_phase K F S U n m s := by
  unfold merge_phase_count merge_phase
  have h1 := main_loop_count_run K F S U n s
  rcases hc : main_loop_count K F S U n s with _ | ⟨k, fl⟩
  · rw [hc] at h1
    rw [← h1]
    rfl
  · rw [hc] at h1
    rw [← h1]
    cases fl with
    | OUT e t => rfl
    | brk t => rfl
    | go t =>
      simp only [Option.map_map, Option.map_some']
      exact drain_phase_count_run K F S U m t

/-- The run that counts its passes is the run. -/
theorem xmergesort_count_run {ρ1 ρ2 ω : Type} (K : kernel_ops ρ1 ρ2 ω) (flags n : Nat)
    (m : heap) (f1 : ρ1) (f2 : ρ2) (ft : ω) :
    (xmergesort_count K flags n m f1 f2 ft).map Prod.snd = xmergesort K flags n m f1 f2 ft := by
  unfold xmergesort_count xmergesort
  rcases initial_reads K
      ⟨f1, f2, ft, m.inbuf1, m.inbuf2, m.lastout, 0, 0, 0, 0, false⟩ with _ | fl
  · rfl
  · cases fl with
    | OUT e t => rfl
    | brk t => rfl
    | go t => exact merge_phase_count_run K _ _ _ n n t

/-- One pass of the main loop on whole lines: it returns, writes at most one line, and when the
loop goes on `load` is 0, 1 or 2 and a line of one of the files has been taken. -/
theorem loop_body_step (F S U : Int) : ∀ s : lstate,
    ∃ r, loop_body line_ops F S U s = some r ∧ r.st.i ≤ s.i + 1 ∧
      r.st.file_in1.length ≤ s.file_in1.length ∧ r.st.file_in2.length ≤ s.file_in2.length ∧
      (∀ t, r = .go t → t.empty = s.empty ∧ (t.load = 0 ∨ t.load = 1 ∨ t.load = 2) ∧
        t.file_in1.length + t.file_in2.length < s.file_in1.length + s.file_in2.length) ∧
      (∀ t, r = .brk t → t.empty = 1 ∨ t.empty = 2) := by
  rintro ⟨f1, f2, ft, a, b, lo, ld, w, e, i, rn⟩
  have na : ¬ ((strlen a : Int) + 1 < 0) := by omega
  have nb : ¬ ((strlen b : Int) + 1 < 0) := by omega
  rcases part1_range F S U a b lo w ld with hp | hp | hp | hp | hp | hp
  · simp [loop_body, hp.1, flow.st]
  · rcases f1 with _ | ⟨x, xs⟩
    · simp [loop_body, hp, part2, part3, line_ops, write_line, read_line, na, flow.st]
    · by_cases hx : (x.length : Int) ≤ 0
      · have hx2 : ¬ ((x.length : Int) < 0) := by omega
        simp [loop_body, hp, part2, part3, line_ops, write_line, read_line, na, hx, hx2,
          flow.st]
      · simp [loop_body, hp, part2, part3, part3_file2, line_ops, write_line, read_line, na,
          hx, flow.st]
  · rcases f2 with _ | ⟨x, xs⟩
    · simp [loop_body, hp, part2, part3, part3_file2, line_ops, write_line, read_line, nb,
        flow.st]
    · by_cases hx : (x.length : Int) ≤ 0
      · have hx2 : ¬ ((x.length : Int) < 0) := by omega
        simp [loop_body, hp, part2, part3, part3_file2, line_ops, write_line, read_line, nb,
          hx, hx2, flow.st]
      · simp [loop_body, hp, part2, part3, part3_file2, line_ops, write_line, read_line, nb,
          hx, flow.st]
  · rcases f1 with _ | ⟨x, xs⟩
    · simp [loop_body, hp, part2, part3, line_ops, read_line, flow.st]
    · by_cases hx : (x.length : Int) ≤ 0
      · have hx2 : ¬ ((x.length : Int) < 0) := by omega
        simp [loop_body, hp, part2, part3, line_ops, read_line, hx, hx2, flow.st]
      · simp [loop_body, hp, part2, part3, part3_file2, line_ops, read_line, hx, flow.st]
  · rcases f2 with _ | ⟨x, xs⟩
    · simp [loop_body, hp, part2, part3, part3_file2, line_ops, read_line, flow.st]
    · by_cases hx : (x.length : Int) ≤ 0
      · have hx2 : ¬ ((x.length : Int) < 0) := by omega
        simp [loop_body, hp, part2, part3, part3_file2, line_ops, read_line, hx, hx2, flow.st]
      · simp [loop_body, hp, part2, part3, part3_file2, line_ops, read_line, hx, flow.st]
  · rcases f1 with _ | ⟨x, xs⟩
    · simp [loop_body, hp, part2, part3, line_ops, read_line, flow.st]
    · by_cases hx : (x.length : Int) ≤ 0
      · have hx2 : ¬ ((x.length : Int) < 0) := by omega
        simp [loop_body, hp, part2, part3, line_ops, read_line, hx, hx2, flow.st]
      · rcases f2 with _ | ⟨y, ys⟩
        · simp [loop_body, hp, part2, part3, part3_file2, line_ops, read_line, hx, flow.st]
        · by_cases hy : (y.length : Int) ≤ 0
          · have hy2 : ¬ ((y.length : Int) < 0) := by omega
            simp [loop_body, hp, part2, part3, part3_file2, line_ops, read_line, hx, hy, hy2,
              flow.st]
          · simp [loop_body, hp, part2, part3, part3_file2, line_ops, read_line, hx, hy,
              flow.st]
            omega

/-- One pass of the drain loop of file 1 on whole lines: it returns, writes at most one line,
and when the loop goes on a line of file 1 has been taken. -/
theorem drain1_body_step (F S U : Int) : ∀ s : lstate,
    ∃ r, drain1_body line_ops F S U s = some r ∧ r.st.i ≤ s.i + 1 ∧ r.st.empty = s.empty ∧
      ∀ t, r = .go t → t.file_in1.length + 1 = s.file_in1.length := by
  rintro ⟨f1, f2, ft, a, b, lo, ld, w, e, i, rn⟩
  have na : ¬ ((strlen a : Int) + 1 < 0) := by omega
  rcases drain_part1_range F S U a lo with hp | hp | hp
  · simp [drain1_body, hp, flow.st]
  · rcases f1 with _ | ⟨x, xs⟩
    · simp [drain1_body, hp, line_ops, read_line, flow.st]
    · by_cases hx : (x.length : Int) > 0
      · simp [drain1_body, hp, line_ops, read_line, hx, flow.st]
      · have hx2 : ¬ ((x.length : Int) < 0) := by omega
        simp [drain1_body, hp, line_ops, read_line, hx, hx2, flow.st]
  · rcases f1 with _ | ⟨x, xs⟩
    · simp [drain1_body, hp, part2, line_ops, write_line, read_line, na, flow.st]
    · by_cases hx : (x.length : Int) > 0
      · simp [drain1_body, hp, part2, line_ops, write_line, read_line, na, hx, flow.st]
      · have hx2 : ¬ ((x.length : Int) < 0) := by omega
        simp [drain1_body, hp, part2, line_ops, write_line, read_line, na, hx, hx2, flow.st]

/-- One pass of the drain loop of file 2 on whole lines. -/
theorem drain2_body_step (F S U : Int) : ∀ s : lstate,
    ∃ r, drain2_body line_ops F S U s = some r ∧ r.st.i ≤ s.i + 1 ∧ r.st.empty = s.empty ∧
      ∀ t, r = .go t → t.file_in2.length + 1 = s.file_in2.length := by
  rintro ⟨f1, f2, ft, a, b, lo, ld, w, e, i, rn⟩
  have nb : ¬ ((strlen b : Int) + 1 < 0) := by omega
  have h2 := drain_part1_two F S U b lo
  rcases drain_part1_range F S U b lo with hp | hp | hp
  · rw [hp] at h2
    simp [drain2_body, h2, flow.st]
  · rw [hp] at h2
    simp only [Nat.mul_zero] at h2
    rcases f2 with _ | ⟨x, xs⟩
    · simp [drain2_body, h2, line_ops, read_line, flow.st]
    · by_cases hx : (x.length : Int) > 0
      · simp [drain2_body, h2, line_ops, read_line, hx, flow.st]
      · have hx2 : ¬ ((x.length : Int) < 0) := by omega
        simp [drain2_body, h2, line_ops, read_line, hx, hx2, flow.st]
  · rw [hp] at h2
    simp only [Nat.mul_one] at h2
    rcases f2 with _ | ⟨x, xs⟩
    · simp [drain2_body, h2, part2, line_ops, write_line, read_line, nb, flow.st]
    · by_cases hx : (x.length : Int) > 0
      · simp [drain2_body, h2, part2, line_ops, write_line, read_line, nb, hx, flow.st]
      · have hx2 : ¬ ((x.length : Int) < 0) := by omega
        simp [drain2_body, h2, part2, line_ops, write_line, read_line, nb, hx, hx2, flow.st]

theorem drain1_count_le (F S U : Int) : ∀ (fuel : Nat) (s : lstate),
    s.file_in1.length < fuel →
    ∃ n r, drain1_count line_ops F S U fuel s = some (n, r) ∧ n ≤ s.file_in1.length + 1 ∧
      r.st.i ≤ s.i + n ∧ r.st.empty = s.empty ∧ ∀ t, r ≠ .brk t := by
  intro fuel
  induction fuel with
  | zero => intro s h; omega
  | succ k ih =>
    intro s hf
    obtain ⟨r, hr, hi, he, hgo⟩ := drain1_body_step F S U s
    simp only [drain1_count, hr]
    cases r with
    | OUT err t => exact ⟨1, _, rfl, by omega, hi, he, fun t h => by cases h⟩
    | brk t => exact ⟨1, _, rfl, by omega, hi, he, fun t h => by cases h⟩
    | go t =>
      have hl := hgo t rfl
      obtain ⟨n, q, hq, hn, hqi, hqe, hnb⟩ := ih t (by omega)
      refine ⟨n + 1, q, by simp only [hq, Option.map_some'], by omega, ?_, ?_, hnb⟩
      · simp only [flow.st] at hi; omega
      · simp only [flow.st] at he; rw [hqe, he]

theorem drain2_count_le (F S U : Int) : ∀ (fuel : Nat) (s : lstate),
    s.file_in2.length < fuel →
    ∃ n r, drain2_count line_ops F S U fuel s = some (n, r) ∧ n ≤ s.file_in2.length + 1 ∧
      r.st.i ≤ s.i + n ∧ r.st.empty = s.empty ∧ ∀ t, r ≠ .brk t := by
  intro fuel
  induction fuel with
  | zero => intro s h; omega
  | succ k ih =>
    intro s hf
    obtain ⟨r, hr, hi, he, hgo⟩ := drain2_body_step F S U s
    simp only [drain2_count, hr]
    cases r with
    | OUT err t => exact ⟨1, _, rfl, by omega, hi, he, fun t h => by cases h⟩
    | brk t => exact ⟨1, _, rfl, by omega, hi, he, fun t h => by cases h⟩
    | go t =>
      have hl := hgo t rfl
      obtain ⟨n, q, hq, hn, hqi, hqe, hnb⟩ := ih t (by omega)
      refine ⟨n + 1, q, by simp only [hq, Option.map_some'], by omega, ?_, ?_, hnb⟩
      · simp only [flow.st] at hi; omega
      · simp only [flow.st] at he; rw [hqe, he]

theorem finish_lines_i (s : lstate) : (finish line_ops s).2.i = s.i := by
  simp [finish, line_ops]

theorem drain_phase_count_le (F S U : Int) (fuel : Nat) (s : lstate)
    (he : s.empty = 1 ∨ s.empty = 2) (h1 : s.file_in1.length < fuel)
    (h2 : s.file_in2.length < fuel) :
    ∃ n r, drain_phase_count line_ops F S U fuel s = some (n, r) ∧
      n ≤ s.file_in1.length + s.file_in2.length + 1 ∧ r.2.i ≤ s.i + n := by
  unfold drain_phase_count
  rcases he with he | he
  · have c1 : ¬ s.empty = 2 := by omega
    obtain ⟨n, q, hq, hn, hqi, _, hnb⟩ := drain2_count_le F S U fuel s h2
    rw [if_neg c1]
    simp only [if_pos he, hq]
    cases q with
    | OUT err t => exact ⟨_, _, rfl, by omega, by simpa using hqi⟩
    | brk t => exact absurd rfl (hnb t)
    | go t =>
      refine ⟨_, _, rfl, by omega, ?_⟩
      rw [finish_lines_i]
      simpa using hqi
  · obtain ⟨n, q, hq, hn, hqi, hqe, hnb⟩ := drain1_count_le F S U fuel s h1
    simp only [he, if_true, hq]
    cases q with
    | OUT err t => exact ⟨_, _, rfl, by omega, hqi⟩
    | brk t => exact absurd rfl (hnb t)
    | go t =>
      have c1 : ¬ t.empty = 1 := by
        simp only [flow.st] at hqe; omega
      simp only [c1, if_false]
      refine ⟨_, _, rfl, by omega, ?_⟩
      rw [finish_lines_i]
      simpa using hqi

theorem merge_phase_count_le (F S U : Int) (fuel2 : Nat) : ∀ (fuel1 : Nat) (s : lstate),
    s.empty = 0 → s.file_in1.length + s.file_in2.length < fuel1 →
    s.file_in1.length + s.file_in2.length < fuel2 →
    ∃ n r, merge_phase_count line_ops F S U fuel1 fuel2 s = some (n, r) ∧
      n ≤ s.file_in1.length + s.file_in2.length + 2 ∧ r.2.i ≤ s.i + n := by
  intro fuel1
  induction fuel1 with
  | zero => intro s _ h; omega
  | succ k ih =>
    intro s he hf1 hf2
    obtain ⟨r, hr, hi, hl1, hl2, hgo, hbrk⟩ := loop_body_step F S U s
    cases r with
    | OUT err t =>
      exact ⟨1, (err, t), by simp [merge_phase_count, main_loop_count, he, hr], by omega, hi⟩
    | brk t =>
      simp only [flow.st] at hi hl1 hl2
      obtain ⟨n, q, hq, hn, hqi⟩ := drain_phase_count_le F S U fuel2 t (hbrk t rfl)
        (by omega) (by omega)
      exact ⟨1 + n, q, by simp [merge_phase_count, main_loop_count, he, hr, hq], by omega,
        by omega⟩
    | go t =>
      simp only [flow.st] at hi hl1 hl2
      obtain ⟨h1, _, h3⟩ := hgo t rfl
      obtain ⟨n, q, hq, hn, hqi⟩ := ih t (by rw [h1, he]) (by omega) (by omega)
      refine ⟨n + 1, q, ?_, by omega, by omega⟩
      simp only [merge_phase_count] at hq ⊢
      simp only [main_loop_count, he, if_true, hr]
      rcases hm : main_loop_count line_ops F S U k t with _ | ⟨m, fl⟩
      · rw [hm] at hq; cases hq
      · rw [hm] at hq
        simp only [Option.map_some']
        cases fl with
        | OUT e2 t2 =>
          simp only [Option.some.injEq, Prod.mk.injEq] at hq ⊢
          exact ⟨by omega, hq.2⟩
        | brk t2 =>
          simp only [Option.some.injEq, Prod.mk.injEq] at hq ⊢
          exact ⟨by omega, hq.2⟩
        | go t2 =>
          simp only at hq ⊢
          rcases hd : drain_phase_count line_ops F S U fuel2 t2 with _ | ⟨d, q2⟩
          · rw [hd] at hq; cases hq
          · rw [hd] at hq
            simp only [Option.map_some', Option.some.injEq, Prod.mk.injEq] at hq ⊢
            exact ⟨by omega, hq.2⟩

theorem initial_reads_lines (m : heap) (A B : List (List Nat)) :
    ∃ s, initial_reads line_ops
        ⟨A, B, [], m.inbuf1, m.inbuf2, m.lastout, 0, 0, 0, 0, false⟩ = some (.go s) ∧
      s.i = 0 ∧ s.file_in1.length ≤ A.length ∧ s.file_in2.length ≤ B.length ∧
      (s.empty = 0 → s.file_in1.length + s.file_in2.length + 2 ≤ A.length + B.length) ∧
      (s.empty = 0 ∨ s.empty = 1 ∨ s.empty = 2) := by
  rcases A with _ | ⟨x, xs⟩
  · rcases B with _ | ⟨y, ys⟩
    · simp [initial_reads, line_ops, read_line]
    · by_cases hy : (y.length : Int) ≤ 0
      · have hy2 : ¬ ((y.length : Int) < 0) := by omega
        simp [initial_reads, line_ops, read_line, hy, hy2]
      · have hy2 : ¬ ((y.length : Int) < 0) := by omega
        simp [initial_reads, line_ops, read_line, hy, hy2]
  · have hx2 : ¬ ((x.length : Int) < 0) := by omega
    rcases B with _ | ⟨y, ys⟩
    · simp [initial_reads, line_ops, read_line, hx2]
    · have hy2 : ¬ ((y.length : Int) < 0) := by omega
      by_cases hy : (y.length : Int) ≤ 0
      · simp [initial_reads, line_ops, read_line, hx2, hy, hy2]
      · by_cases hx : (x.length : Int) ≤ 0
        · simp [initial_reads, line_ops, read_line, hx2, hy, hy2, hx]
        · simp [initial_reads, line_ops, read_line, hx2, hy, hy2, hx]
          omega

end XMergeSort
